import Mathlib

/-!
# Query reduction and output-field resolution of the proxy query task

A shallow embedding of `internal/proxy/task_query.go`:

* `translateToOutputFieldIDs` (lines 72-116), the output-field resolver;
* `reduceRetrieveResults` (lines 522-600), the k-way merge of the per-shard
  results of a query.

Go `int64`/`int` values are `Int`; slice indices and cursors, which start at
zero and are only ever incremented, are `Nat`.  A Go slice is a `List`, a nil
pointer is `none`.  The two functions add only row counts, cursors and the
sizes of rows held in memory, and compare keys, so no sum leaves the `int64`
range and no wrap-around is modelled.

The helpers of `pkg/util/typeutil` that the reducer calls are not part of the
files embedded here: `SelectMinPK` and `AppendFieldData` are parameters of
`reduceRetrieveResults`, and the theorems that depend on which cursor is
selected instantiate the former with the selection described in the spec.
-/

namespace Milvus

/-! ## Schema and output-field resolution -/

/-- The members of `schemapb.DataType`. -/
inductive DataType where
  | DataType_None | DataType_Bool | DataType_Int8 | DataType_Int16 | DataType_Int32
  | DataType_Int64 | DataType_Float | DataType_Double | DataType_String
  | DataType_VarChar | DataType_Array | DataType_JSON
  | DataType_BinaryVector | DataType_FloatVector | DataType_Float16Vector
  deriving DecidableEq, Repr

/-- The fields of `schemapb.FieldSchema` that the query task reads. -/
structure FieldSchema where
  FieldID : Int
  Name : String
  IsPrimaryKey : Bool
  DataType : DataType
  deriving DecidableEq, Repr

/-- The `schemapb.CollectionSchema` message: the ordered field list. -/
structure CollectionSchema where
  Fields : List FieldSchema
  deriving DecidableEq, Repr

/-- The error values of `translateToOutputFieldIDs`:
`fmt.Errorf("field %s not exist", reqField)`. -/
inductive TranslateError where
  | fieldNotExist (reqField : String)
  deriving DecidableEq, Repr

/-- Lines 82-87: the id of the last field flagged `IsPrimaryKey`, the zero
value of `UniqueID` when there is none. -/
def pkFieldIDOf (fields : List FieldSchema) : Int :=
  fields.foldl (fun pkFieldID field => if field.IsPrimaryKey then field.FieldID else pkFieldID) 0

/-- Lines 88-100: every requested name is resolved, in request order, to the
id of the first schema field of that name; the first name without a field
aborts the loop with the error. -/
def resolveOutputFields (fields : List FieldSchema) :
    List String → Except TranslateError (List Int)
  | [] => .ok []
  | reqField :: rest =>
    match fields.find? (fun field => reqField == field.Name) with
    | none => .error (.fieldNotExist reqField)
    | some field =>
      match resolveOutputFields fields rest with
      | .error e => .error e
      | .ok ids => .ok (field.FieldID :: ids)

/-- The test of line 77: a user field that is not vector-typed. -/
def isDefaultOutputField (StartOfUserFieldID : Int) (field : FieldSchema) : Bool :=
  decide (field.FieldID ≥ StartOfUserFieldID) && field.DataType != DataType.DataType_FloatVector
    && field.DataType != DataType.DataType_BinaryVector
    && field.DataType != DataType.DataType_Float16Vector

/-- The function `translateToOutputFieldIDs` (lines 73-116).  The constant
`common.StartOfUserFieldID` is declared outside the files at hand and is a
parameter. -/
def translateToOutputFieldIDs (StartOfUserFieldID : Int) (outputFields : List String)
    (schema : CollectionSchema) : Except TranslateError (List Int) :=
  if outputFields.length = 0 then
    .ok ((schema.Fields.filter (isDefaultOutputField StartOfUserFieldID)).map (·.FieldID))
  else
    let pkFieldID := pkFieldIDOf schema.Fields
    match resolveOutputFields schema.Fields outputFields with
    | .error e => .error e
    | .ok outputFieldIDs =>
      if pkFieldID ∈ outputFieldIDs then .ok outputFieldIDs
      else .ok (outputFieldIDs ++ [pkFieldID])

/-! ## The reducer -/

/-- Modelled from the spec: the "`Unlimited` sentinel" that a limit may
hold; `typeutil.Unlimited` is declared in `pkg/util/typeutil`, outside the
files at hand, as the `int64` value -1. -/
def Unlimited : Int := -1

/-- The struct `queryParams` (lines 66-70). -/
structure queryParams where
  limit : Int
  offset : Int
  reduceStopForBest : Bool
  deriving DecidableEq, Repr

/-- One shard's `internalpb.RetrieveResults`: the id list (`K` is the
primary-key domain, `int64` or `string`; a nil `Ids` is the empty list) and
the columns of field data (`F` is the column type; the reducer only counts
the columns and hands them to `AppendFieldData`). -/
structure RetrieveResults (K F : Type) where
  Ids : List K
  FieldsData : List F

/-- Modelled from the spec: `typeutil.GetSizeOfIDs` is declared in
`pkg/util/typeutil`, outside the files at hand; it is the number of rows
(the spec's "zero rows") of a shard result's "ordered id list". -/
def GetSizeOfIDs {K : Type} (ids : List K) : Nat := ids.length

/-- Modelled from the spec: `typeutil.GetPK` is declared in
`pkg/util/typeutil`, outside the files at hand; it is the primary key at a
cursor, "an integer offset into one ShardResult's row list", and nil when
the offset is past the last id. -/
def GetPK {K : Type} (ids : List K) (idx : Nat) : Option K := ids[idx]?

/-- A row appended to the output: `AppendFieldData(ret.FieldsData,
validRetrieveResults[sel].GetFieldsData(), cursors[sel])` copies the values
of row `idx` of `src`. -/
structure Row (K F : Type) where
  src : RetrieveResults K F
  idx : Nat

/-- The primary key of an appended row. -/
def Row.pk {K F : Type} (row : Row K F) : Option K := GetPK row.src.Ids row.idx

/-- The result `milvuspb.QueryResults` as far as the reducer fills it:
`FieldsData` has `numFields` columns, each holding one value per row of
`rows`, in the order of the appends. -/
structure QueryResults (K F : Type) where
  numFields : Nat
  rows : List (Row K F)

/-- The primary keys of the rows of a result, in output order. -/
def QueryResults.pks {K F : Type} (ret : QueryResults K F) : List (Option K) :=
  ret.rows.map Row.pk

/-- The number of rows of a result whose primary key is `k`. -/
def QueryResults.occurrences {K F : Type} [DecidableEq K] (ret : QueryResults K F) (k : K) :
    Nat :=
  (ret.pks.filter (fun pk => decide (pk = some k))).length

/-- How a call of `reduceRetrieveResults` ends: `ret, nil`; or
`nil, fmt.Errorf("query results exceed the maxOutputSize Limit %d", ...)`;
or a run-time panic on a slice index out of range. -/
inductive Outcome (K F : Type) where
  | ok (ret : QueryResults K F)
  | exceedMaxOutputSize (maxOutputSize : Int)
  | panic

/-- The type of `typeutil.SelectMinPK(results, cursors, stopForBest, realLimit)`. -/
abbrev Selector (K F : Type) := List (RetrieveResults K F) → List Nat → Bool → Int → Int

/-- Lines 531-539: the results that are non-nil, have field data and have ids. -/
def validRetrieveResults {K F : Type} (retrieveResults : List (Option (RetrieveResults K F))) :
    List (RetrieveResults K F) :=
  retrieveResults.filterMap (fun r =>
    match r with
    | none => none
    | some r => if r.FieldsData.length = 0 ∨ GetSizeOfIDs r.Ids = 0 then none else some r)

/-- The value of `loopEnd` after line 539: the number of ids of the valid results. -/
def sumOfSizes {K F : Type} (valid : List (RetrieveResults K F)) : Nat :=
  (valid.map (fun r => GetSizeOfIDs r.Ids)).sum

/-- The run of the offset loop (lines 556-562). -/
inductive OffsetExit where
  | done (cursors : List Nat)
  | exhausted
  | panic

/-- Lines 556-562: `n` times, select and advance the selected cursor; a
selection of `-1` leaves the function with the empty result. -/
def offsetLoop {K F : Type} (SelectMinPK : Selector K F) (valid : List (RetrieveResults K F))
    (reduceStopForBest : Bool) (realLimit : Int) : Nat → List Nat → OffsetExit
  | 0, cursors => .done cursors
  | n + 1, cursors =>
    let sel := SelectMinPK valid cursors reduceStopForBest realLimit
    if sel = -1 then .exhausted
    else if sel < 0 then .panic
    else
      match cursors[sel.toNat]? with
      | none => .panic
      | some c => offsetLoop SelectMinPK valid reduceStopForBest realLimit n (cursors.set sel.toNat (c + 1))

/-- The variables of the emit loop: the cursors, the set of emitted keys,
the cumulative size and the rows appended to `ret`. -/
structure ReduceState (K F : Type) where
  cursors : List Nat
  idSet : List (Option K)
  retSize : Int
  rows : List (Row K F)

/-- One pass of lines 573-585. -/
inductive EmitStep (K F : Type) where
  | stop
  | panic
  | next (st : ReduceState K F) (sel : Nat) (cursor : Nat)

/-- Lines 573-585: select; read the key under the selected cursor; append the
row unless its key was emitted before. -/
def emitBody {K F : Type} [DecidableEq K] (SelectMinPK : Selector K F)
    (AppendFieldData : List F → Nat → Int) (valid : List (RetrieveResults K F))
    (reduceStopForBest : Bool) (realLimit : Int) (st : ReduceState K F) : EmitStep K F :=
  let sel := SelectMinPK valid st.cursors reduceStopForBest realLimit
  if sel = -1 then .stop
  else if sel < 0 then .panic
  else
    match valid[sel.toNat]?, st.cursors[sel.toNat]? with
    | some r, some c =>
      let pk := GetPK r.Ids c
      if pk ∈ st.idSet then .next st sel.toNat c
      else
        .next { st with
                retSize := st.retSize + AppendFieldData r.FieldsData c
                idSet := pk :: st.idSet
                rows := st.rows ++ [⟨r, c⟩] } sel.toNat c
    | _, _ => .panic

/-- Line 592: `cursors[sel]++`. -/
def advanceCursor {K F : Type} (st : ReduceState K F) (sel cursor : Nat) : ReduceState K F :=
  { st with cursors := st.cursors.set sel (cursor + 1) }

/-- Lines 572-599: the emit loop, run for at most `n` passes, and the final
`return ret, nil`. -/
def emitLoop {K F : Type} [DecidableEq K] (SelectMinPK : Selector K F)
    (AppendFieldData : List F → Nat → Int) (maxOutputSize : Int)
    (valid : List (RetrieveResults K F)) (reduceStopForBest : Bool) (realLimit : Int)
    (numFields : Nat) : Nat → ReduceState K F → Outcome K F
  | 0, st => .ok ⟨numFields, st.rows⟩
  | n + 1, st =>
    match emitBody SelectMinPK AppendFieldData valid reduceStopForBest realLimit st with
    | .stop => .ok ⟨numFields, st.rows⟩
    | .panic => .panic
    | .next st1 sel cursor =>
      if st1.retSize > maxOutputSize then .exceedMaxOutputSize maxOutputSize
      else emitLoop SelectMinPK AppendFieldData maxOutputSize valid reduceStopForBest realLimit
        numFields n (advanceCursor st1 sel cursor)

/-- What lines 524-568 hand to the emit loop. -/
structure EmitStart (K F : Type) where
  valid : List (RetrieveResults K F)
  numFields : Nat
  cursors : List Nat
  loopEnd : Int
  reduceStopForBest : Bool
  realLimit : Int

/-- Lines 524-568: the valid results, the iteration bound, the offset phase.
The function is left early (`Except.error`) with the empty result when there
is no valid result or the offset phase exhausts the cursors. -/
def reducePrelude {K F : Type} (SelectMinPK : Selector K F)
    (retrieveResults : List (Option (RetrieveResults K F))) (qp : Option queryParams) :
    Except (Outcome K F) (EmitStart K F) :=
  let valid := validRetrieveResults retrieveResults
  match valid with
  | [] => .error (.ok ⟨0, []⟩)
  | first :: _ =>
    let numFields := first.FieldsData.length
    let cursors := List.replicate valid.length 0
    match qp with
    | none => .ok ⟨valid, numFields, cursors, sumOfSizes valid, false, Unlimited⟩
    | some q =>
      if q.limit ≠ Unlimited then
        let loopEnd : Int := if !q.reduceStopForBest then q.limit else sumOfSizes valid
        if q.offset > 0 then
          match offsetLoop SelectMinPK valid q.reduceStopForBest q.limit q.offset.toNat cursors with
          | .exhausted => .error (.ok ⟨numFields, []⟩)
          | .panic => .error .panic
          | .done cursors => .ok ⟨valid, numFields, cursors, loopEnd, q.reduceStopForBest, q.limit⟩
        else .ok ⟨valid, numFields, cursors, loopEnd, q.reduceStopForBest, q.limit⟩
      else .ok ⟨valid, numFields, cursors, sumOfSizes valid, q.reduceStopForBest, Unlimited⟩

/-- The state at line 572. -/
def EmitStart.state {K F : Type} (e : EmitStart K F) : ReduceState K F :=
  ⟨e.cursors, [], 0, []⟩

/-- The function `reduceRetrieveResults` (lines 522-600).  The helpers
`typeutil.SelectMinPK` and `typeutil.AppendFieldData` (of which only the
returned size is kept) and the configured `maxOutputSize` are parameters. -/
def reduceRetrieveResults {K F : Type} [DecidableEq K] (SelectMinPK : Selector K F)
    (AppendFieldData : List F → Nat → Int) (maxOutputSize : Int)
    (retrieveResults : List (Option (RetrieveResults K F))) (qp : Option queryParams) :
    Outcome K F :=
  match reducePrelude SelectMinPK retrieveResults qp with
  | .error out => out
  | .ok e =>
    emitLoop SelectMinPK AppendFieldData maxOutputSize e.valid e.reduceStopForBest e.realLimit
      e.numFields e.loopEnd.toNat e.state

/-- The scan of `SelectMinPK` over the cursors from index `i` on: `sel` is the
index selected so far (`-1` for none), `minPK` the key under it. -/
def selectMinPKFrom {K F : Type} [LinearOrder K] :
    List (RetrieveResults K F) → List Nat → Nat → Int → Option K → Int
  | r :: results, cursor :: cursors, i, sel, minPK =>
    match GetPK r.Ids cursor with
    | none => selectMinPKFrom results cursors (i + 1) sel minPK
    | some pk =>
      match minPK with
      | none => selectMinPKFrom results cursors (i + 1) i (some pk)
      | some m =>
        if pk < m then selectMinPKFrom results cursors (i + 1) i (some pk)
        else selectMinPKFrom results cursors (i + 1) sel minPK
  | _, _, _, sel, _ => sel

/-- Modelled from the spec: `typeutil.SelectMinPK` is declared in
`pkg/util/typeutil`, outside the files at hand.  The reducer section of the
spec has it "select the globally-smallest next primary key across all
cursors (tie-break: first shard index encountered)", the selection failing
(`-1`) when "all cursors [are] exhausted"; the spec gives the two remaining
arguments no effect on the selection. -/
def SelectMinPK {K F : Type} [LinearOrder K] : Selector K F :=
  fun results cursors _stopForBest _realLimit => selectMinPKFrom results cursors 0 (-1) none

/-- The state after `k` passes of the emit loop taken without the quota test
of lines 588-590: the cumulative size "after the `k`-th emit-phase step" of
the quota claim is its `retSize`.  It is `none` when the loop is left before
the `k`-th pass is complete. -/
def emitUnchecked {K F : Type} [DecidableEq K] (SelectMinPK : Selector K F)
    (AppendFieldData : List F → Nat → Int) (valid : List (RetrieveResults K F))
    (reduceStopForBest : Bool) (realLimit : Int) : Nat → ReduceState K F → Option (ReduceState K F)
  | 0, st => some st
  | k + 1, st =>
    match emitBody SelectMinPK AppendFieldData valid reduceStopForBest realLimit st with
    | .next st1 sel cursor =>
      emitUnchecked SelectMinPK AppendFieldData valid reduceStopForBest realLimit k
        (advanceCursor st1 sel cursor)
    | _ => none

/-- The sizes `AppendFieldData` reported for the rows of a result, summed. -/
def QueryResults.size {K F : Type} (AppendFieldData : List F → Nat → Int)
    (ret : QueryResults K F) : Int :=
  (ret.rows.map (fun row => AppendFieldData row.src.FieldsData row.idx)).sum

/-- The key under the cursor of the `j`-th result, if the cursor has not
passed the last id. -/
def headAt {K F : Type} (results : List (RetrieveResults K F)) (cursors : List Nat) (j : Nat) :
    Option K :=
  match results[j]?, cursors[j]? with
  | some r, some c => GetPK r.Ids c
  | _, _ => none

/-- The keys the cursors have not passed yet, result by result. -/
def remainingKeys {K F : Type} (results : List (RetrieveResults K F)) (cursors : List Nat) :
    List K :=
  (List.zipWith (fun r c => r.Ids.drop c) results cursors).flatten

/-- The keys of all rows of the valid results, result by result. -/
def allKeys {K F : Type} (retrieveResults : List (Option (RetrieveResults K F))) : List K :=
  ((validRetrieveResults retrieveResults).map (fun r => r.Ids)).flatten

/-- The key-ordered merge of all rows of the valid results: every key once
per row that bears it, in ascending order. -/
def mergedKeys {K F : Type} [LinearOrder K]
    (retrieveResults : List (Option (RetrieveResults K F))) : List K :=
  (allKeys retrieveResults).insertionSort (· ≤ ·)

/-! ## Strings, count rule and query params -/

/-- The predicate `unicode.IsSpace` of the Go library: the Unicode white
space characters. -/
def isSpace (c : Char) : Bool :=
  let n := c.toNat
  (decide (9 ≤ n) && decide (n ≤ 13)) || n == 32 || n == 0x85 || n == 0xA0 || n == 0x1680
    || (decide (0x2000 ≤ n) && decide (n ≤ 0x200A)) || n == 0x2028 || n == 0x2029
    || n == 0x202F || n == 0x205F || n == 0x3000

/-- The function `strings.TrimSpace` of the Go library: the string without
its leading and trailing white space. -/
def TrimSpace (s : String) : String :=
  String.mk ((s.data.dropWhile isSpace).reverse.dropWhile isSpace).reverse

/-- The function `unicode.ToLower` of the Go library: an ASCII capital is
mapped to its small letter, any other ASCII character to itself; the case
table of the characters outside ASCII is the parameter `lowerNonASCII`. -/
def toLowerRune (lowerNonASCII : Char → Char) (c : Char) : Char :=
  if c.toNat < 128 then
    if 65 ≤ c.toNat ∧ c.toNat ≤ 90 then Char.ofNat (c.toNat + 32) else c
  else lowerNonASCII c

/-- The function `strings.ToLower` of the Go library: every character mapped
by `unicode.ToLower`. -/
def ToLower (lowerNonASCII : Char → Char) (s : String) : String :=
  String.mk (s.data.map (toLowerRune lowerNonASCII))

/-- The function `matchCountRule` (lines 177-179). -/
def matchCountRule (lowerNonASCII : Char → Char) (outputs : List String) : Bool :=
  decide (outputs.length = 1) && ToLower lowerNonASCII (TrimSpace (outputs.headD "")) == "count(*)"

/-- The message `commonpb.KeyValuePair`. -/
structure KeyValuePair where
  Key : String
  Value : String
  deriving DecidableEq, Repr

/-- Modelled from the spec: the key `limit` of the "query-params (sequence of
key/value string pairs recognized: `limit`, `offset`, `reduce_stop_for_best`,
`ignore_growing`)"; the constant `LimitKey` is declared in the proxy package,
outside the files at hand. -/
def LimitKey : String := "limit"

/-- Modelled from the spec: the key `offset` of the recognized query params;
the constant `OffsetKey` is declared outside the files at hand. -/
def OffsetKey : String := "offset"

/-- Modelled from the spec: the key `reduce_stop_for_best` of the recognized
query params; the constant `ReduceStopForBestKey` is declared outside the
files at hand. -/
def ReduceStopForBestKey : String := "reduce_stop_for_best"

/-- Modelled from the spec: the key `ignore_growing` of the recognized query
params; the constant `IgnoreGrowingKey` is declared outside the files at
hand. -/
def IgnoreGrowingKey : String := "ignore_growing"

/-- Modelled from the spec: `funcutil.GetAttrByKeyFromRepeatedKV` is declared
in `pkg/util/funcutil`, outside the files at hand; of the "sequence of
key/value string pairs" it returns the value of the first pair with the key,
and an error (`none`) when no pair has the key. -/
def GetAttrByKeyFromRepeatedKV (key : String) (kvs : List KeyValuePair) : Option String :=
  (kvs.find? (fun kv => kv.Key == key)).map (·.Value)

/-- The function `strconv.ParseBool` of the Go library: it accepts `1`, `t`,
`T`, `TRUE`, `true`, `True`, `0`, `f`, `F`, `FALSE`, `false`, `False`; any
other string is an error (`none`). -/
def ParseBool (str : String) : Option Bool :=
  if str = "1" ∨ str = "t" ∨ str = "T" ∨ str = "TRUE" ∨ str = "true" ∨ str = "True" then some true
  else if str = "0" ∨ str = "f" ∨ str = "F" ∨ str = "FALSE" ∨ str = "false" ∨ str = "False" then
    some false
  else none

/-- The errors of `parseQueryParams`: the wrapped parameter-invalid error of
lines 141-142, the two errors `"%s [%s] is invalid"` of lines 153 and 161, and
the wrapped error of the window validation of line 167. -/
inductive QueryParamsError where
  | reduceStopForBestInvalid (value : String)
  | limitInvalid (limitStr : String)
  | offsetInvalid (offsetStr : String)
  | invalidMaxQueryResultWindow (cause : String)
  deriving DecidableEq, Repr

/-- The function `parseQueryParams` (lines 129-175).  The library function
`strconv.ParseInt(s, 0, 64)` and the validation `validateMaxQueryResultWindow`
of the proxy package, declared outside the files at hand (`none` is its nil
error), are parameters. -/
def parseQueryParams (ParseInt : String → Option Int)
    (validateMaxQueryResultWindow : Int → Int → Option String)
    (queryParamsPair : List KeyValuePair) : Except QueryParamsError queryParams :=
  let parsedStop : Except QueryParamsError Bool :=
    match GetAttrByKeyFromRepeatedKV ReduceStopForBestKey queryParamsPair with
    | none => .ok false
    | some reduceStopForBestStr =>
      match ParseBool reduceStopForBestStr with
      | none => .error (.reduceStopForBestInvalid reduceStopForBestStr)
      | some b => .ok b
  match parsedStop with
  | .error e => .error e
  | .ok reduceStopForBest =>
    match GetAttrByKeyFromRepeatedKV LimitKey queryParamsPair with
    | none => .ok ⟨Unlimited, 0, reduceStopForBest⟩
    | some limitStr =>
      match ParseInt limitStr with
      | none => .error (.limitInvalid limitStr)
      | some limit =>
        let parsedOffset : Except QueryParamsError Int :=
          match GetAttrByKeyFromRepeatedKV OffsetKey queryParamsPair with
          | none => .ok 0
          | some offsetStr =>
            match ParseInt offsetStr with
            | none => .error (.offsetInvalid offsetStr)
            | some offset => .ok offset
        match parsedOffset with
        | .error e => .error e
        | .ok offset =>
          match validateMaxQueryResultWindow offset limit with
          | some err => .error (.invalidMaxQueryResultWindow err)
          | none => .ok ⟨limit, offset, reduceStopForBest⟩

/-- The ids of the first schema field of each requested name, in request
order: the names without a field contribute nothing. -/
def firstMatchIDs (fields : List FieldSchema) (outputFields : List String) : List Int :=
  outputFields.filterMap (fun reqField =>
    (fields.find? (fun field => reqField == field.Name)).map (·.FieldID))

/-- The scan of `strings.Fields` of the Go library over the rest of a string:
`cur` holds the characters of the field begun. -/
def fieldsFrom : List Char → List Char → List (List Char)
  | [], cur => if cur = [] then [] else [cur]
  | c :: cs, cur =>
    if isSpace c then
      if cur = [] then fieldsFrom cs [] else cur :: fieldsFrom cs []
    else fieldsFrom cs (cur ++ [c])

/-- The function `strings.Fields` of the Go library: the string split around
every run of white space; no field is empty. -/
def Fields (s : String) : List String :=
  (fieldsFrom s.data []).map String.mk

/-- The join of lists of characters: nothing for no element, the element
itself for one, and otherwise the elements with the separator between them. -/
def joinChars (sep : List Char) : List (List Char) → List Char
  | [] => []
  | [w] => w
  | w :: ws => w ++ sep ++ joinChars sep ws

/-- The function `strings.Join` of the Go library. -/
def Join (elems : List String) (sep : String) : String :=
  String.mk (joinChars sep.data (elems.map String.data))

/-- The function `strings.Trim` of the Go library: the string without its
leading and trailing characters that belong to the cutset. -/
def Trim (s : String) (cutset : String) : String :=
  String.mk
    ((s.data.dropWhile (fun c => decide (c ∈ cutset.data))).reverse.dropWhile
      (fun c => decide (c ∈ cutset.data))).reverse

/-- The function `fmt.Sprint` of the Go library on a slice of `int64`: the
decimal renderings of the elements, a blank between them, in brackets; `[]`
for the empty or nil slice. -/
def Sprint (data : List Int) : String :=
  String.mk ('[' :: joinChars [' '] (data.map (fun id => (toString id).data)) ++ [']'])

/-- A character that is neither white space nor a bracket. -/
def plainChar (c : Char) : Bool := !isSpace c && c != '[' && c != ']'

/-! ## The query task and its pre-execute phase -/

/-- The sum of two `int64` values as Go computes it, wrapping around at the
ends of the range. -/
def int64Add (a b : Int) : Int := (a + b + 2 ^ 63) % 2 ^ 64 - 2 ^ 63

/-- The message `schemapb.IDs`: the `IdField` is a list of `int64` ids, a list
of string ids, or not set. -/
inductive IDs where
  | IntId (data : List Int)
  | StrId (data : List String)
  | unset
  deriving DecidableEq, Repr

/-- The function `IDs2Expr` (lines 507-520): for integer ids the printed
slice is split into fields, joined with `, ` and trimmed of brackets; for
string ids every id is put in double quotes (`fmt.Sprintf("\"%s\"", str)`),
and the join is trimmed of brackets; for no id field the text is empty. -/
def IDs2Expr (fieldName : String) (ids : IDs) : String :=
  let idsStr : String :=
    match ids with
    | .IntId data => Trim (Join (Fields (Sprint data)) ", ") "[]"
    | .StrId data => Trim (Join (data.map (fun str => "\"" ++ str ++ "\"")) ", ") "[]"
    | .unset => ""
  fieldName ++ " in [ " ++ idsStr ++ " ]"

/-- The message `planpb.QueryPlanNode`; `E` is the type of the predicate
trees (`planpb.Expr`) that the plan compiler builds. -/
structure QueryPlanNode (E : Type) where
  Predicates : Option E
  IsCount : Bool
  Limit : Int

/-- The message `planpb.PlanNode` of a query task: its `Node` is a
`PlanNode_Query`, as the plans of `CreateRetrievePlan` and of `createCntPlan`
are. -/
structure PlanNode (E : Type) where
  Query : QueryPlanNode E
  OutputFieldIds : List Int

/-- The members of `commonpb.MsgType` that the query task uses. -/
inductive MsgType where
  | MsgType_Undefined
  | MsgType_Retrieve
  deriving DecidableEq, Repr

/-- The message `commonpb.MsgBase`. -/
structure MsgBase where
  MsgType : MsgType
  MsgID : Int
  Timestamp : Nat
  SourceID : Int
  TargetID : Int
  deriving DecidableEq, Repr

/-- The message `internalpb.RetrieveRequest`, the request sent to the shards. -/
structure RetrieveRequest where
  Base : MsgBase
  DbID : Int
  CollectionID : Int
  PartitionIDs : List Int
  SerializedExprPlan : List Nat
  OutputFieldsId : List Int
  MvccTimestamp : Nat
  GuaranteeTimestamp : Nat
  TimeoutTimestamp : Nat
  Limit : Int
  IgnoreGrowing : Bool
  IsCount : Bool
  ReduceStopForBest : Bool
  Username : String
  deriving DecidableEq, Repr

/-- The message `milvuspb.QueryRequest`, the client's request. -/
structure QueryRequest where
  DbName : String
  CollectionName : String
  Expr : String
  OutputFields : List String
  PartitionNames : List String
  GuaranteeTimestamp : Nat
  QueryParams : List KeyValuePair
  UseDefaultConsistency : Bool
  ConsistencyLevel : Int
  deriving DecidableEq, Repr

/-- The struct `queryTask` (lines 44-64), without the context, the result and
the handles used by the later phases. -/
structure queryTask (E : Type) where
  RetrieveRequest : RetrieveRequest
  request : QueryRequest
  ids : Option IDs
  collectionName : String
  queryParams : Option queryParams
  schema : Option CollectionSchema
  userOutputFields : List String
  plan : Option (PlanNode E)
  partitionKeyMode : Bool

/-- The collaborators of `PreExecute` that are declared outside the files at
hand: library functions, constants, the validations and helpers of the proxy
package, the metadata cache and the plan compiler.  An error is a `String`;
where Go assigns a returned value next to the error, the field returns both. -/
structure Env (E : Type) where
  /-- The value of `paramtable.GetNodeID()`. -/
  nodeID : Int
  /-- The case table of `unicode.ToLower` outside ASCII. -/
  lowerNonASCII : Char → Char
  /-- The function `strconv.ParseInt(s, 0, 64)`. -/
  ParseInt : String → Option Int
  /-- The constant `common.StartOfUserFieldID`. -/
  StartOfUserFieldID : Int
  /-- The constant `common.TimeStampField`. -/
  TimeStampField : Int
  validateCollectionName : String → Option String
  GetCollectionID : String → String → Except String Int
  isPartitionKeyMode : String → String → Bool × Option String
  /-- The call `validatePartitionTag(tag, false)`. -/
  validatePartitionTag : String → Option String
  validateMaxQueryResultWindow : Int → Int → Option String
  /-- The schema that `GetCollectionSchema` returns, nil when it fails. -/
  GetCollectionSchema : String → String → Option CollectionSchema
  CreateRetrievePlan : Option CollectionSchema → String → Except String (PlanNode E)
  /-- The call `translateOutputFields(outputFields, schema, true)`. -/
  translateOutputFields : List String → Option CollectionSchema →
    List String × List String × Option String
  IsAlwaysTruePlan : PlanNode E → Bool
  ParseExprFromPlan : Option (PlanNode E) → Except String (Option E)
  /-- The call `ParsePartitionKeys(expr)` followed by `assignPartitionKeys`. -/
  assignPartitionKeys : String → String → Option E → Except String (List String)
  getPartitionIDs : String → String → List String → List Int × Option String
  /-- The call `proto.Marshal(t.plan)`. -/
  Marshal : Option (PlanNode E) → List Nat × Option String
  /-- The user name that `GetCurUserFromContext` returns, empty when absent. -/
  GetCurUserFromContext : String
  /-- The consistency level of the info that `GetCollectionInfo` returns. -/
  GetCollectionInfo : String → String → Int → Except String Int
  parseGuaranteeTsFromConsistency : Nat → Nat → Int → Nat
  parseGuaranteeTs : Nat → Nat → Nat
  /-- The value `tsoutil.ComposeTSByTime(deadline, 0)` when the context has a
  deadline. -/
  deadline : Option Nat

/-- The errors that `PreExecute` returns: the error of a collaborator, passed
on as it is, and the errors made in the function itself (lines 272, 289, 98,
325, 349) or in `parseQueryParams`. -/
inductive PreExecuteError where
  | external (err : String)
  | partitionNamesInPartitionKeyMode
  | parseSearchGrowingFailed
  | invalidQueryParams (err : QueryParamsError)
  | fieldNotExist (err : TranslateError)
  | emptyExpressionWithoutLimit
  | countWithPagination
  deriving DecidableEq, Repr

/-- How a phase of the task ends: `return nil` with the task as it stands, an
error with the task as it stands, or a run-time panic on a nil pointer. -/
inductive Exec (T : Type) where
  | done (t : T)
  | failed (t : T) (err : PreExecuteError)
  | panic

/-- Sequencing: the next statements run only after a part that did not
return. -/
def Exec.andThen {T : Type} (x : Exec T) (f : T → Exec T) : Exec T :=
  match x with
  | .done t => f t
  | .failed t err => .failed t err
  | .panic => .panic

/-- The function `createCntPlan` (lines 181-201). -/
def createCntPlan {E : Type}
    (CreateRetrievePlan : Option CollectionSchema → String → Except String (PlanNode E))
    (expr : String) (schema : Option CollectionSchema) : Except String (PlanNode E) :=
  if expr = "" then .ok ⟨⟨none, true, 0⟩, []⟩
  else
    match CreateRetrievePlan schema expr with
    | .error err => .error err
    | .ok plan => .ok { plan with Query := { plan.Query with IsCount := true } }

/-- The method `createPlan` (lines 203-239). -/
def createPlan {E : Type} (env : Env E) (t : queryTask E) : Exec (queryTask E) :=
  let schema := t.schema
  if matchCountRule env.lowerNonASCII t.request.OutputFields then
    match createCntPlan env.CreateRetrievePlan t.request.Expr schema with
    | .error err => .failed { t with plan := none, userOutputFields := ["count(*)"] } (.external err)
    | .ok plan => .done { t with plan := some plan, userOutputFields := ["count(*)"] }
  else
    let compiled : Except String (PlanNode E) :=
      match t.plan with
      | some plan => .ok plan
      | none => env.CreateRetrievePlan schema t.request.Expr
    match compiled with
    | .error err => .failed t (.external err)
    | .ok plan =>
      let translated := env.translateOutputFields t.request.OutputFields schema
      let t1 : queryTask E :=
        { t with
          plan := some plan
          request := { t.request with OutputFields := translated.1 }
          userOutputFields := translated.2.1 }
      match translated.2.2 with
      | some err => .failed t1 (.external err)
      | none =>
        match schema with
        | none => .panic
        | some s =>
          match translateToOutputFieldIDs env.StartOfUserFieldID t1.request.OutputFields s with
          | .error err => .failed t1 (.fieldNotExist err)
          | .ok ids =>
            let outputFieldIDs := ids ++ [env.TimeStampField]
            .done { t1 with
                    RetrieveRequest := { t1.RetrieveRequest with OutputFieldsId := outputFieldIDs }
                    plan := some { plan with OutputFieldIds := outputFieldIDs } }

/-- Lines 242-273 of `PreExecute`: the collection name, the collection id and
the partition-key mode. -/
def preExecuteCollection {E : Type} (env : Env E) (t : queryTask E) : Exec (queryTask E) :=
  let collectionName := t.request.CollectionName
  let t0 : queryTask E :=
    { t with
      RetrieveRequest := { t.RetrieveRequest with
        Base := { t.RetrieveRequest.Base with
          MsgType := MsgType.MsgType_Retrieve, SourceID := env.nodeID } }
      collectionName := collectionName }
  match env.validateCollectionName collectionName with
  | some err => .failed t0 (.external err)
  | none =>
    match env.GetCollectionID t0.request.DbName collectionName with
    | .error err => .failed t0 (.external err)
    | .ok collID =>
      let t1 : queryTask E :=
        { t0 with RetrieveRequest := { t0.RetrieveRequest with CollectionID := collID } }
      let mode := env.isPartitionKeyMode t1.request.DbName collectionName
      let t2 : queryTask E := { t1 with partitionKeyMode := mode.1 }
      match mode.2 with
      | some err => .failed t2 (.external err)
      | none =>
        if t2.partitionKeyMode && t2.request.PartitionNames.length != 0 then
          .failed t2 .partitionNamesInPartitionKeyMode
        else .done t2

/-- Lines 275-295 of `PreExecute`: the partition names and the
`ignore_growing` flag, whose pair is taken out of the query params. -/
def preExecuteGrowing {E : Type} (env : Env E) (t : queryTask E) : Exec (queryTask E) :=
  match t.request.PartitionNames.findSome? env.validatePartitionTag with
  | some err => .failed t (.external err)
  | none =>
    match t.request.QueryParams.find? (fun kv => kv.Key == IgnoreGrowingKey) with
    | none => .done { t with RetrieveRequest := { t.RetrieveRequest with IgnoreGrowing := false } }
    | some kv =>
      match ParseBool kv.Value with
      | none => .failed t .parseSearchGrowingFailed
      | some ignoreGrowing =>
        .done { t with
                request := { t.request with
                  QueryParams := t.request.QueryParams.eraseP (fun kv => kv.Key == IgnoreGrowingKey) }
                RetrieveRequest := { t.RetrieveRequest with IgnoreGrowing := ignoreGrowing } }

/-- Lines 310-315: the name of the last field flagged `IsPrimaryKey`, empty
when there is none. -/
def pkFieldNameOf (fields : List FieldSchema) : String :=
  fields.foldl (fun pkField field => if field.IsPrimaryKey then field.Name else pkField) ""

/-- Lines 297-322 of `PreExecute`: the query params, the limit of the request,
the schema, the expression of a query by ids, the plan and its limit. -/
def preExecutePlan {E : Type} (env : Env E) (t : queryTask E) : Exec (queryTask E) :=
  match parseQueryParams env.ParseInt env.validateMaxQueryResultWindow t.request.QueryParams with
  | .error err => .failed t (.invalidQueryParams err)
  | .ok queryParams =>
    let schema := env.GetCollectionSchema t.request.DbName t.collectionName
    let t1 : queryTask E :=
      { t with
        RetrieveRequest := { t.RetrieveRequest with
          ReduceStopForBest := queryParams.reduceStopForBest
          Limit := int64Add queryParams.limit queryParams.offset }
        queryParams := some queryParams
        schema := schema }
    let withExpr : Exec (queryTask E) :=
      match t1.ids with
      | none => .done t1
      | some ids =>
        match schema with
        | none => .panic
        | some s =>
          .done { t1 with request := { t1.request with Expr := IDs2Expr (pkFieldNameOf s.Fields) ids } }
    (withExpr.andThen (createPlan env)).andThen (fun t2 =>
      match t2.plan with
      | none => .panic
      | some plan =>
        .done { t2 with
                plan := some { plan with Query := { plan.Query with Limit := t2.RetrieveRequest.Limit } } })

/-- Lines 324-326 of `PreExecute`: the always-true plan without a limit is
refused.  Line 322 has dereferenced the plan before. -/
def preExecuteLimitCheck {E : Type} (env : Env E) (t : queryTask E) : Exec (queryTask E) :=
  match t.plan with
  | none => .panic
  | some plan =>
    if env.IsAlwaysTruePlan plan && t.RetrieveRequest.Limit == Unlimited then
      .failed t .emptyExpressionWithoutLimit
    else .done t

/-- Lines 328-345 of `PreExecute`: the partition ids. -/
def preExecutePartitions {E : Type} (env : Env E) (t : queryTask E) : Exec (queryTask E) :=
  let partitionNames : Except String (List String) :=
    if t.partitionKeyMode then
      match env.ParseExprFromPlan t.plan with
      | .error err => .error err
      | .ok expr =>
        match env.assignPartitionKeys t.request.DbName t.request.CollectionName expr with
        | .error err => .error err
        | .ok hashedPartitionNames => .ok (t.request.PartitionNames ++ hashedPartitionNames)
    else .ok t.request.PartitionNames
  match partitionNames with
  | .error err => .failed t (.external err)
  | .ok names =>
    let resolved := env.getPartitionIDs t.request.DbName t.request.CollectionName names
    let t1 : queryTask E :=
      { t with RetrieveRequest := { t.RetrieveRequest with PartitionIDs := resolved.1 } }
    match resolved.2 with
    | some err => .failed t1 (.external err)
    | none => .done t1

/-- The value of `t.plan.GetQuery().GetIsCount()`, false on a nil plan. -/
def planIsCount {E : Type} (plan : Option (PlanNode E)) : Bool :=
  match plan with
  | none => false
  | some plan => plan.Query.IsCount

/-- Lines 347-356 of `PreExecute`: count with pagination is refused; the
count flag and the serialized plan of the request. -/
def preExecuteCount {E : Type} (env : Env E) (t : queryTask E) : Exec (queryTask E) :=
  let proceed : Exec (queryTask E) :=
    let t1 : queryTask E :=
      { t with RetrieveRequest := { t.RetrieveRequest with IsCount := planIsCount t.plan } }
    let marshalled := env.Marshal t1.plan
    let t2 : queryTask E :=
      { t1 with RetrieveRequest := { t1.RetrieveRequest with SerializedExprPlan := marshalled.1 } }
    match marshalled.2 with
    | some err => .failed t2 (.external err)
    | none => .done t2
  if planIsCount t.plan then
    match t.queryParams with
    | none => .panic
    | some queryParams =>
      if queryParams.limit != Unlimited then .failed t .countWithPagination else proceed
  else proceed

/-- Lines 358-400 of `PreExecute`: the user name, the timestamps of the
consistency level and the timeout. -/
def preExecuteConsistency {E : Type} (env : Env E) (t : queryTask E) : Exec (queryTask E) :=
  let beginTs := t.RetrieveRequest.Base.Timestamp
  let t1 : queryTask E :=
    if env.GetCurUserFromContext != "" then
      { t with RetrieveRequest := { t.RetrieveRequest with Username := env.GetCurUserFromContext } }
    else t
  let t2 : queryTask E :=
    { t1 with RetrieveRequest := { t1.RetrieveRequest with MvccTimestamp := beginTs } }
  match env.GetCollectionInfo t2.request.DbName t2.request.CollectionName
      t2.RetrieveRequest.CollectionID with
  | .error err => .failed t2 (.external err)
  | .ok collectionLevel =>
    let guaranteeTs := t2.request.GuaranteeTimestamp
    let resolved : Nat :=
      if t2.request.UseDefaultConsistency then
        env.parseGuaranteeTsFromConsistency guaranteeTs beginTs collectionLevel
      else if t2.request.ConsistencyLevel = 0 ∧ guaranteeTs > 0 then
        env.parseGuaranteeTs guaranteeTs beginTs
      else
        env.parseGuaranteeTsFromConsistency guaranteeTs beginTs t2.request.ConsistencyLevel
    let t3 : queryTask E :=
      { t2 with RetrieveRequest := { t2.RetrieveRequest with GuaranteeTimestamp := resolved } }
    let t4 : queryTask E :=
      match env.deadline with
      | some timeout =>
        { t3 with RetrieveRequest := { t3.RetrieveRequest with TimeoutTimestamp := timeout } }
      | none => t3
    .done { t4 with RetrieveRequest := { t4.RetrieveRequest with DbID := 0 } }

/-- The part of `PreExecute` before line 324: lines 242-322. -/
def preExecuteToPlan {E : Type} (env : Env E) (t : queryTask E) : Exec (queryTask E) :=
  ((preExecuteCollection env t).andThen (preExecuteGrowing env)).andThen (preExecutePlan env)

/-- The method `queryTask.PreExecute` (lines 241-401). -/
def PreExecute {E : Type} (env : Env E) (t : queryTask E) : Exec (queryTask E) :=
  ((((preExecuteToPlan env t).andThen (preExecuteLimitCheck env)).andThen
    (preExecutePartitions env)).andThen (preExecuteCount env)).andThen (preExecuteConsistency env)

/-- The errors made by the three checks of `PreExecute` itself: lines 272,
325 and 349. -/
def PreExecuteError.isCheck (err : PreExecuteError) : Prop :=
  err = .partitionNamesInPartitionKeyMode ∨ err = .emptyExpressionWithoutLimit ∨
    err = .countWithPagination

/-! ## The package merr -/

/-- The members of `commonpb.ErrorCode` named in the files at hand; `other`
stands for the remaining members of the enum, by number. -/
inductive ErrorCode where
  | ErrorCode_Success
  | ErrorCode_UnexpectedError
  | ErrorCode_CollectionNotExists
  | ErrorCode_IllegalArgument
  | ErrorCode_NodeIDNotMatch
  | ErrorCode_MetaFailed
  | ErrorCode_NoReplicaAvailable
  | ErrorCode_InsufficientMemoryToLoad
  | ErrorCode_MemoryQuotaExhausted
  | ErrorCode_DiskQuotaExhausted
  | ErrorCode_RateLimit
  | ErrorCode_ForceDeny
  | ErrorCode_IndexNotExist
  | ErrorCode_SegmentNotFound
  | ErrorCode_NotReadyServe
  | ErrorCode_NotShardLeader
  | other (n : Nat)
  deriving DecidableEq, Repr

/-- The message `commonpb.Status`. -/
structure commonpb.Status where
  ErrorCode : ErrorCode
  Reason : String
  Code : Int
  Retriable : Bool
  Detail : String
  deriving DecidableEq, Repr

/-- The value `&commonpb.Status{}`: every field has its zero value.  The zero
value of the enum is `Success`: line 67 has `Status` return a "Success status
if err is nil", and line 70 returns this value. -/
def commonpb.Status.zero : commonpb.Status :=
  ⟨ErrorCode.ErrorCode_Success, "", 0, false, ""⟩

/-- The getter `GetErrorCode` of a status pointer, the zero value on nil. -/
def GetErrorCode (status : Option commonpb.Status) : ErrorCode :=
  match status with
  | none => ErrorCode.ErrorCode_Success
  | some s => s.ErrorCode

/-- The getter `GetCode` of a status pointer, zero on nil. -/
def GetCode (status : Option commonpb.Status) : Int :=
  match status with
  | none => 0
  | some s => s.Code

/-- The getter `GetReason` of a status pointer, empty on nil. -/
def GetReason (status : Option commonpb.Status) : String :=
  match status with
  | none => ""
  | some s => s.Reason

/-- The getter `GetDetail` of a status pointer, empty on nil. -/
def GetDetail (status : Option commonpb.Status) : String :=
  match status with
  | none => ""
  | some s => s.Detail

/-- The getter `GetRetriable` of a status pointer, false on nil. -/
def GetRetriable (status : Option commonpb.Status) : Bool :=
  match status with
  | none => false
  | some s => s.Retriable

/-- Modelled from the spec: the struct `milvusError` is declared in
`pkg/util/merr/errors.go`, outside the files at hand.  It is the "typed
error" of the spec's propagation policy, with what the status object is made
of: "a numeric code, a human-readable reason, a boolean retriable flag, and a
free-form detail string".  The fields `msg`, `detail` and `retriable` are
those that lines 56 and 820-835 read and write. -/
structure milvusError where
  msg : String
  detail : String
  retriable : Bool
  errCode : Int
  deriving DecidableEq, Repr

/-- Modelled from the spec: the method `code()` of `milvusError`, the "stable
numeric code" of the typed error. -/
def milvusError.code (e : milvusError) : Int := e.errCode

/-- Modelled from the spec: the constructor `newMilvusErrorWithDetail(msg,
detail, code, retriable)` of `pkg/util/merr/errors.go`, a typed error with
these four values. -/
def newMilvusErrorWithDetail (msg detail : String) (code : Int) (retriable : Bool) :
    milvusError :=
  ⟨msg, detail, retriable, code⟩

/-- A non-nil Go `error` as package merr tells errors apart: a typed
`milvusError`, the two context errors, any other error without a cause, and a
message wrapper (`errors.Wrap`, `errors.Wrapf`) around a cause. -/
inductive GoError where
  | milvus (e : milvusError)
  | Canceled
  | DeadlineExceeded
  | other (msg : String)
  | wrap (msg : String) (cause : GoError)
  deriving DecidableEq, Repr

/-- The method `Error()`: the message of a typed error, the texts of the two
context errors, and for a wrapper its message, a colon and the text of the
cause (the text of the cause alone under an empty message). -/
def GoError.Error : GoError → String
  | .milvus e => e.msg
  | .Canceled => "context canceled"
  | .DeadlineExceeded => "context deadline exceeded"
  | .other msg => msg
  | .wrap msg cause => if msg = "" then cause.Error else msg ++ ": " ++ cause.Error

/-- The function `errors.Wrap(err, msg)` on a non-nil error. -/
def errors.Wrap (err : GoError) (msg : String) : GoError := .wrap msg err

/-- The function `errors.Unwrap`: the direct cause of a wrapper, nil for an
error without a cause. -/
def errors.Unwrap : GoError → Option GoError
  | .wrap _ cause => some cause
  | _ => none

/-- The function `errors.Cause`: the innermost error of the chain. -/
def errors.Cause : GoError → GoError
  | .wrap _ cause => errors.Cause cause
  | err => err

/-- The function `errors.Is(err, reference)` for a reference that only
itself is equal to, as the two context errors are: some error of the chain is
the reference. -/
def errors.Is : GoError → GoError → Bool
  | .wrap msg cause, reference => GoError.wrap msg cause == reference || errors.Is cause reference
  | err, reference => err == reference

/-- The values of package merr that are declared in
`pkg/util/merr/errors.go`, outside the files at hand: the sentinel errors that
this file names, and the codes of cancellation and timeout. -/
structure Sentinels where
  ErrServiceNotReady : milvusError
  ErrServiceMemoryLimitExceeded : milvusError
  ErrServiceDiskLimitExceeded : milvusError
  ErrServiceRateLimit : milvusError
  ErrServiceForceDeny : milvusError
  ErrCollectionNotFound : milvusError
  ErrPartitionNotFound : milvusError
  ErrReplicaNotFound : milvusError
  ErrReplicaNotAvailable : milvusError
  ErrChannelNotFound : milvusError
  ErrChannelLack : milvusError
  ErrChannelNotAvailable : milvusError
  ErrSegmentNotFound : milvusError
  ErrIndexNotFound : milvusError
  ErrNodeNotAvailable : milvusError
  ErrNodeNotMatch : milvusError
  ErrParameterInvalid : milvusError
  errUnexpected : milvusError
  CanceledCode : Int
  TimeoutCode : Int

/-- The function `Code` (lines 33-52). -/
def merr.Code (s : Sentinels) (err : Option GoError) : Int :=
  match err with
  | none => 0
  | some err =>
    match errors.Cause err with
    | .milvus cause => cause.code
    | cause =>
      if errors.Is cause .Canceled then s.CanceledCode
      else if errors.Is cause .DeadlineExceeded then s.TimeoutCode
      else s.errUnexpected.code

/-- The function `IsRetryableErr` (lines 54-60): the type assertion is made
on the error itself. -/
def merr.IsRetryableErr (err : Option GoError) : Bool :=
  match err with
  | some (.milvus e) => e.retriable
  | _ => false

/-- The loop of `previousLastError` (lines 86-93) with its two variables. -/
def merr.previousLastErrorLoop : GoError → GoError → GoError
  | _, .wrap msg cause => merr.previousLastErrorLoop (.wrap msg cause) cause
  | lastErr, _ => lastErr

/-- The function `previousLastError` (lines 84-95). -/
def merr.previousLastError (err : GoError) : GoError :=
  merr.previousLastErrorLoop err err

/-- The function `oldCode` (lines 133-174): the cases of the switch are tried
from the top, and the first that holds the code decides. -/
def merr.oldCode (s : Sentinels) (code : Int) : ErrorCode :=
  if code = s.ErrServiceNotReady.code then .ErrorCode_NotReadyServe
  else if code = s.ErrCollectionNotFound.code then .ErrorCode_CollectionNotExists
  else if code = s.ErrParameterInvalid.code then .ErrorCode_IllegalArgument
  else if code = s.ErrNodeNotMatch.code then .ErrorCode_NodeIDNotMatch
  else if code = s.ErrCollectionNotFound.code ∨ code = s.ErrPartitionNotFound.code ∨
      code = s.ErrReplicaNotFound.code then .ErrorCode_MetaFailed
  else if code = s.ErrReplicaNotAvailable.code ∨ code = s.ErrChannelNotAvailable.code ∨
      code = s.ErrNodeNotAvailable.code then .ErrorCode_NoReplicaAvailable
  else if code = s.ErrServiceMemoryLimitExceeded.code then .ErrorCode_InsufficientMemoryToLoad
  else if code = s.ErrServiceRateLimit.code then .ErrorCode_RateLimit
  else if code = s.ErrServiceForceDeny.code then .ErrorCode_ForceDeny
  else if code = s.ErrIndexNotFound.code then .ErrorCode_IndexNotExist
  else if code = s.ErrSegmentNotFound.code then .ErrorCode_SegmentNotFound
  else if code = s.ErrChannelLack.code then .ErrorCode_MetaFailed
  else .ErrorCode_UnexpectedError

/-- The function `OldCodeToMerr` (lines 176-214). -/
def merr.OldCodeToMerr (s : Sentinels) (code : ErrorCode) : GoError :=
  match code with
  | .ErrorCode_NotReadyServe => .milvus s.ErrServiceNotReady
  | .ErrorCode_CollectionNotExists => .milvus s.ErrCollectionNotFound
  | .ErrorCode_IllegalArgument => .milvus s.ErrParameterInvalid
  | .ErrorCode_NodeIDNotMatch => .milvus s.ErrNodeNotMatch
  | .ErrorCode_InsufficientMemoryToLoad => .milvus s.ErrServiceMemoryLimitExceeded
  | .ErrorCode_MemoryQuotaExhausted => .milvus s.ErrServiceMemoryLimitExceeded
  | .ErrorCode_DiskQuotaExhausted => .milvus s.ErrServiceDiskLimitExceeded
  | .ErrorCode_RateLimit => .milvus s.ErrServiceRateLimit
  | .ErrorCode_ForceDeny => .milvus s.ErrServiceForceDeny
  | .ErrorCode_IndexNotExist => .milvus s.ErrIndexNotFound
  | .ErrorCode_SegmentNotFound => .milvus s.ErrSegmentNotFound
  | .ErrorCode_MetaFailed => .milvus s.ErrChannelNotFound
  | _ => .milvus s.errUnexpected

/-- The function `Status` (lines 68-82). -/
def merr.Status (s : Sentinels) (err : Option GoError) : commonpb.Status :=
  match err with
  | none => commonpb.Status.zero
  | some e =>
    let code := merr.Code s (some e)
    { Code := code
      Reason := (merr.previousLastError e).Error
      ErrorCode := merr.oldCode s code
      Retriable := merr.IsRetryableErr (some e)
      Detail := e.Error }

/-- The function `Ok` (lines 216-218). -/
def merr.Ok (status : Option commonpb.Status) : Bool :=
  GetErrorCode status == ErrorCode.ErrorCode_Success && GetCode status == 0

/-- The function `Error` (lines 222-233). -/
def merr.Error (s : Sentinels) (status : Option commonpb.Status) : Option GoError :=
  if merr.Ok status then none
  else
    let code := GetCode status
    if code = 0 then
      some (.milvus (newMilvusErrorWithDetail (GetReason status) (GetDetail status)
        (merr.Code s (some (merr.OldCodeToMerr s (GetErrorCode status)))) false))
    else
      some (.milvus (newMilvusErrorWithDetail (GetReason status) (GetDetail status) code
        (GetRetriable status)))

/-- The members of `commonpb.StateCode`; `other` stands for a number that is
none of them. -/
inductive StateCode where
  | StateCode_Initializing
  | StateCode_Healthy
  | StateCode_Abnormal
  | StateCode_StandBy
  | StateCode_Stopping
  | other (n : Nat)
  deriving DecidableEq, Repr

/-- The method `String()` of a state code: the name of the member, the number
when it is none. -/
def StateCode.String : StateCode → String
  | .StateCode_Initializing => "Initializing"
  | .StateCode_Healthy => "Healthy"
  | .StateCode_Abnormal => "Abnormal"
  | .StateCode_StandBy => "StandBy"
  | .StateCode_Stopping => "Stopping"
  | .other n => toString n

/-- The method `String()` of the field `value(name, value)` (lines 841-855)
for an integer value. -/
def valueField.String (name : String) (value : Int) : String :=
  name ++ "=" ++ toString value

/-- The function `wrapFieldsWithDesc` (lines 828-835); `fields` holds the
texts `fields[i].String()`.  The sentinel is passed by value, the returned
error is a copy with the longer message. -/
def wrapFieldsWithDesc (err : milvusError) (desc : String) (fields : List String) : GoError :=
  let msg := fields.foldl (fun msg field => msg ++ "[" ++ field ++ "]") err.msg ++ ": " ++ desc
  .milvus { err with msg := msg, detail := msg }

/-- The function `WrapErrServiceNotReady` (lines 291-300). -/
def WrapErrServiceNotReady (s : Sentinels) (role : String) (sessionID : Int) (state : String)
    (msg : List String) : GoError :=
  let err := wrapFieldsWithDesc s.ErrServiceNotReady state [valueField.String role sessionID]
  if msg.length > 0 then errors.Wrap err ("->".intercalate msg) else err

/-- The function `CheckHealthy` (lines 238-244); `role` and `nodeID` are the
values of `paramtable.GetRole()` and `paramtable.GetNodeID()`. -/
def merr.CheckHealthy (s : Sentinels) (role : String) (nodeID : Int) (state : StateCode) :
    Option GoError :=
  if state ≠ .StateCode_Healthy then
    some (WrapErrServiceNotReady s role nodeID state.String [])
  else none

/-- The function `CheckHealthyStandby` (lines 250-256). -/
def merr.CheckHealthyStandby (s : Sentinels) (role : String) (nodeID : Int) (state : StateCode) :
    Option GoError :=
  if state ≠ .StateCode_Healthy ∧ state ≠ .StateCode_StandBy then
    some (WrapErrServiceNotReady s role nodeID state.String [])
  else none

/-! ## The shard call -/

/-- The member of `querypb.DataScope` that the query task uses. -/
inductive DataScope where
  | DataScope_All
  deriving DecidableEq, Repr

/-- The message `querypb.QueryRequest`, the request sent to a query node. -/
structure querypb.QueryRequest where
  Req : RetrieveRequest
  DmlChannels : List String
  Scope : DataScope
  deriving DecidableEq, Repr

/-- The whole message `internalpb.RetrieveResults` of a query node: next to
the ids and the field data that the reducer reads, the status and the cost
aggregation (of type `C`) that `queryShard` reads. -/
structure ShardResult (K F C : Type) extends RetrieveResults K F where
  Status : Option commonpb.Status
  CostAggregation : Option C

/-- What `queryShard` acts on besides its arguments: the result buffer
`t.resultBuf`, in which every response is an element of its own, the calls
`globalMetaCache.DeprecateShardCache(database, collectionName)` and the calls
`t.lb.UpdateCostMetrics(nodeID, cost)`, each list in order of occurrence. -/
structure ShardEffects (K F C : Type) where
  resultBuf : List (Option (ShardResult K F C))
  DeprecateShardCache : List (String × String)
  UpdateCostMetrics : List (Int × Option C)

/-- The errors that `queryShard` returns: the error of the transport, the
error `errInvalidShardLeaders` of the proxy package, and the error of line 497
with its text. -/
inductive QueryShardError where
  | transport (err : GoError)
  | errInvalidShardLeaders
  | failToQuery (text : String)
  deriving DecidableEq, Repr

/-- How a call of `queryShard` ends: it returns nil or an error, or it panics
on a nil pointer. -/
inductive ShardExit where
  | returned (err : Option QueryShardError)
  | panic
  deriving DecidableEq, Repr

/-- Lines 471-477 of `queryShard`: the request for the node, a clone of the
task's request with the node as target. -/
def shardRequest {E : Type} (t : queryTask E) (nodeID : Int) (channelIDs : List String) :
    querypb.QueryRequest :=
  let retrieveReq : RetrieveRequest :=
    { t.RetrieveRequest with Base := { t.RetrieveRequest.Base with TargetID := nodeID } }
  { Req := retrieveReq, DmlChannels := channelIDs, Scope := DataScope.DataScope_All }

/-- The method `queryTask.queryShard` (lines 470-504).  `Query` is the call
`qn.Query(ctx, req)` of the query node's client: it returns an error, or a
response pointer, which may be nil, with a nil error. -/
def queryShard {E K F C : Type}
    (Query : querypb.QueryRequest → Except GoError (Option (ShardResult K F C)))
    (t : queryTask E) (nodeID : Int) (channelIDs : List String) (w : ShardEffects K F C) :
    ShardEffects K F C × ShardExit :=
  let req := shardRequest t nodeID channelIDs
  let deprecated : ShardEffects K F C :=
    { w with
      DeprecateShardCache := w.DeprecateShardCache ++ [(t.request.DbName, t.collectionName)] }
  match Query req with
  | .error err => (deprecated, .returned (some (.transport err)))
  | .ok result =>
    let status := result.bind (fun r => r.Status)
    if GetErrorCode status = ErrorCode.ErrorCode_NotShardLeader then
      (deprecated, .returned (some .errInvalidShardLeaders))
    else if GetErrorCode status ≠ ErrorCode.ErrorCode_Success then
      (w, .returned (some (.failToQuery
        ("fail to Query, QueryNode ID = " ++ toString nodeID ++ ", reason=" ++ GetReason status))))
    else
      let inserted : ShardEffects K F C := { w with resultBuf := w.resultBuf ++ [result] }
      match result with
      | none => (inserted, .panic)
      | some r =>
        ({ inserted with
           UpdateCostMetrics := inserted.UpdateCostMetrics ++ [(nodeID, r.CostAggregation)] },
         .returned none)

/-! ## The rows the reducer reads -/

/-- The rows that the offset loop (lines 556-562) passes: for every pass that
advances a cursor, the index `sel` of the shard result and the value of
`cursors[sel]` before line 561. -/
def offsetReads {K F : Type} (SelectMinPK : Selector K F) (valid : List (RetrieveResults K F))
    (reduceStopForBest : Bool) (realLimit : Int) : Nat → List Nat → List (Nat × Nat)
  | 0, _ => []
  | n + 1, cursors =>
    let sel := SelectMinPK valid cursors reduceStopForBest realLimit
    if sel = -1 then []
    else if sel < 0 then []
    else
      match cursors[sel.toNat]? with
      | none => []
      | some c =>
        (sel.toNat, c) ::
          offsetReads SelectMinPK valid reduceStopForBest realLimit n (cursors.set sel.toNat (c + 1))

/-- The rows that the emit loop (lines 572-593) reads: for every pass that
reaches line 578, the index `sel` and the value of `cursors[sel]` there. -/
def emitReads {K F : Type} [DecidableEq K] (SelectMinPK : Selector K F)
    (AppendFieldData : List F → Nat → Int) (maxOutputSize : Int)
    (valid : List (RetrieveResults K F)) (reduceStopForBest : Bool) (realLimit : Int) :
    Nat → ReduceState K F → List (Nat × Nat)
  | 0, _ => []
  | n + 1, st =>
    match emitBody SelectMinPK AppendFieldData valid reduceStopForBest realLimit st with
    | .next st1 sel cursor =>
      (sel, cursor) ::
        (if st1.retSize > maxOutputSize then []
         else emitReads SelectMinPK AppendFieldData maxOutputSize valid reduceStopForBest realLimit
           n (advanceCursor st1 sel cursor))
    | _ => []

/-- The rows that a call of `reduceRetrieveResults` reads, in order: those of
the offset loop, when it runs, and then those of the emit loop, when it is
reached. -/
def reduceReads {K F : Type} [DecidableEq K] (SelectMinPK : Selector K F)
    (AppendFieldData : List F → Nat → Int) (maxOutputSize : Int)
    (retrieveResults : List (Option (RetrieveResults K F))) (qp : Option queryParams) :
    List (Nat × Nat) :=
  let valid := validRetrieveResults retrieveResults
  match valid with
  | [] => []
  | _ :: _ =>
    let skipped : List (Nat × Nat) :=
      match qp with
      | none => []
      | some q =>
        if q.limit ≠ Unlimited ∧ q.offset > 0 then
          offsetReads SelectMinPK valid q.reduceStopForBest q.limit q.offset.toNat
            (List.replicate valid.length 0)
        else []
    let emitted : List (Nat × Nat) :=
      match reducePrelude SelectMinPK retrieveResults qp with
      | .error _ => []
      | .ok e =>
        emitReads SelectMinPK AppendFieldData maxOutputSize e.valid e.reduceStopForBest
          e.realLimit e.loopEnd.toNat e.state
    skipped ++ emitted

/-- The cursors after the reads `reads`: every read advances its cursor by
one. -/
def advanceAll (cursors : List Nat) (reads : List (Nat × Nat)) : List Nat :=
  reads.foldl (fun cs read => cs.set read.1 (read.2 + 1)) cursors

/-- The `j`-th shard result holds the smallest next key under the cursors,
and is the first to do so: its cursor has a key under it, no key under a
cursor is smaller, and every key under the cursor of an earlier shard result
is larger. -/
def IsFirstMin {K F : Type} [LinearOrder K] (valid : List (RetrieveResults K F))
    (cursors : List Nat) (j : Nat) : Prop :=
  ∃ pk, headAt valid cursors j = some pk ∧
    (∀ j' pk', headAt valid cursors j' = some pk' → pk ≤ pk') ∧
    (∀ j' pk', j' < j → headAt valid cursors j' = some pk' → pk < pk')

/-- The offset phase in the words of the spec: every read, in turn, is at the
cursor of the first shard result that holds the smallest next key, and
advances that cursor by one. -/
def MinReads {K F : Type} [LinearOrder K] (valid : List (RetrieveResults K F)) :
    List Nat → List (Nat × Nat) → Prop
  | _, [] => True
  | cursors, (j, c) :: reads =>
    IsFirstMin valid cursors j ∧ cursors[j]? = some c ∧
      MinReads valid (cursors.set j (c + 1)) reads

/-! ## The consistency resolution in the words of the spec -/

/-- What lines 363-388 read of the task: the default-consistency flag, the
level and the raw guarantee timestamp of the request, the begin timestamp,
and the database and collection names. -/
def consistencyInputs {E : Type} (t : queryTask E) : Bool × Int × Nat × Nat × String × String :=
  (t.request.UseDefaultConsistency, t.request.ConsistencyLevel, t.request.GuaranteeTimestamp,
    t.RetrieveRequest.Base.Timestamp, t.request.DbName, t.request.CollectionName)

/-- The resolved guarantee timestamp as the spec's consistency resolver has
it, by three branches: the collection's level under default consistency; the
compatibility path for the zero level with a supplied timestamp; the
request's level otherwise. -/
def specGuaranteeTs (parseGuaranteeTsFromConsistency : Nat → Nat → Int → Nat)
    (parseGuaranteeTs : Nat → Nat → Nat) (useDefaultConsistency : Bool) (requestLevel : Int)
    (raw beginTs : Nat) (collectionLevel : Int) : Nat :=
  if useDefaultConsistency then parseGuaranteeTsFromConsistency raw beginTs collectionLevel
  else if requestLevel = 0 ∧ raw > 0 then parseGuaranteeTs raw beginTs
  else parseGuaranteeTsFromConsistency raw beginTs requestLevel

/-! ## The post-execute phase and the system fields -/

/-- The function `filterSystemFields` (lines 118-126); the predicate
`common.IsSystemField` of `pkg/common`, declared outside the files at hand,
is a parameter. -/
def filterSystemFields (IsSystemField : Int → Bool) (outputFieldIDs : List Int) : List Int :=
  outputFieldIDs.foldl
    (fun filtered outputFieldID =>
      if !IsSystemField outputFieldID then filtered ++ [outputFieldID] else filtered)
    []

/-- The message `milvuspb.QueryResults` that the task holds as its result:
what the reducer fills, and the output field names. -/
structure TaskResult (K F : Type) extends QueryResults K F where
  OutputFields : List String

/-- What `PostExecute` acts on besides the task of the earlier phases: the
field `t.result`, and the calls of `reducer.Reduce`, by their argument, in
order of occurrence. -/
structure PostState (K F C : Type) where
  result : Option (TaskResult K F)
  reduced : List (List (Option (ShardResult K F C)))

/-- How a call of `PostExecute` ends: it returns nil or an error, or it panics
on a nil pointer. -/
inductive PostExit where
  | returned (err : Option GoError)
  | panic
  deriving DecidableEq, Repr

/-- The method `queryTask.PostExecute` (lines 427-468).  `ctxDone` tells
whether the channel `t.TraceCtx().Done()` is closed when the `select` of line
440 runs; `resultBuf` holds the elements of `t.resultBuf` in the order in
which `Range` visits them; `Reduce` is the method `Reduce` of the reducer
that `createMilvusReducer` builds from the task, the reducer being declared
in the proxy package outside the files at hand. -/
def PostExecute {E K F C : Type}
    (Reduce : queryTask E → List (Option (ShardResult K F C)) →
      Option (TaskResult K F) × Option GoError)
    (ctxDone : Bool) (t : queryTask E) (resultBuf : List (Option (ShardResult K F C)))
    (st : PostState K F C) : PostState K F C × PostExit :=
  if ctxDone then (st, .returned none)
  else
    let toReduceResults := resultBuf.foldl (fun acc res => acc ++ [res]) []
    let reduced := Reduce t toReduceResults
    let st1 : PostState K F C :=
      { result := reduced.1, reduced := st.reduced ++ [toReduceResults] }
    match reduced.2 with
    | some err => (st1, .returned (some err))
    | none =>
      match st1.result with
      | none => (st1, .panic)
      | some result =>
        ({ st1 with result := some { result with OutputFields := t.userOutputFields } },
         .returned none)

/-! ## The checkpoint of a segment buffer -/

/-- The message `msgpb.MsgPosition`. -/
structure MsgPosition where
  ChannelName : String
  MsgID : List Nat
  MsgGroup : String
  Timestamp : Nat
  deriving DecidableEq, Repr

/-- The function `getEarliestCheckpoint` (lines 57-73 of `segment_buffer.go`). -/
def getEarliestCheckpoint (cps : List (Option MsgPosition)) : Option MsgPosition :=
  cps.foldl
    (fun result cp =>
      match cp with
      | none => result
      | some cp =>
        match result with
        | none => some cp
        | some r => if cp.Timestamp < r.Timestamp then some cp else some r)
    none

/-- The start position that `InsertBuffer` and `DeltaBuffer`, declared
outside the files at hand, hold in their field `startPos`. -/
structure BufferBase where
  startPos : Option MsgPosition
  deriving DecidableEq, Repr

/-- The struct `segmentBuffer` (lines 10-15) with its two buffers, as
`newSegmentBuffer` builds it. -/
structure segmentBuffer where
  segmentID : Int
  insertBuffer : BufferBase
  deltaBuffer : BufferBase
  deriving DecidableEq, Repr

/-- The method `segmentBuffer.EarliestPosition` (lines 47-49). -/
def segmentBuffer.EarliestPosition (buf : segmentBuffer) : Option MsgPosition :=
  getEarliestCheckpoint [buf.insertBuffer.startPos, buf.deltaBuffer.startPos]

/-! ## The codes of the sentinel errors -/

/-- The codes of the sentinel errors that the file at hand names. -/
def Sentinels.codes (s : Sentinels) : List Int :=
  [s.ErrServiceNotReady.code, s.ErrServiceMemoryLimitExceeded.code,
    s.ErrServiceDiskLimitExceeded.code, s.ErrServiceRateLimit.code, s.ErrServiceForceDeny.code,
    s.ErrCollectionNotFound.code, s.ErrPartitionNotFound.code, s.ErrReplicaNotFound.code,
    s.ErrReplicaNotAvailable.code, s.ErrChannelNotFound.code, s.ErrChannelLack.code,
    s.ErrChannelNotAvailable.code, s.ErrSegmentNotFound.code, s.ErrIndexNotFound.code,
    s.ErrNodeNotAvailable.code, s.ErrNodeNotMatch.code, s.ErrParameterInvalid.code,
    s.errUnexpected.code]

/-! ## Concrete schemas -/

/-- The schema `[pk, vector, scalar]` of the spec's scenario, with ids 100,
101, 102. -/
def exampleSchema : CollectionSchema :=
  ⟨[⟨100, "pk", true, DataType.DataType_Int64⟩,
    ⟨101, "vector", false, DataType.DataType_FloatVector⟩,
    ⟨102, "scalar", false, DataType.DataType_Int64⟩]⟩

/-- A schema whose primary-key field has an id below the threshold 100 of the
user fields. -/
def lowPkSchema : CollectionSchema :=
  ⟨[⟨50, "pk", true, DataType.DataType_Int64⟩,
    ⟨102, "scalar", false, DataType.DataType_Int64⟩]⟩

/-- A schema whose second field repeats the id of the primary-key field. -/
def sharedIdSchema : CollectionSchema :=
  ⟨[⟨100, "pk", true, DataType.DataType_Int64⟩,
    ⟨100, "scalar", false, DataType.DataType_Int64⟩]⟩

/-! ## A concrete environment and task -/

/-- A window validation for the concrete runs: the offset is not negative, the
limit is positive and their sum is in the range from 1 to 16384. -/
def exampleWindow (offset limit : Int) : Option String :=
  if offset < 0 then some "offset is invalid, should be gte than 0"
  else if limit ≤ 0 then some "limit is invalid, should be greater than 0"
  else if int64Add limit offset ≤ 0 ∨ int64Add limit offset > 16384 then
    some "(offset+limit) is out of range"
  else none

/-- The value of a string of decimal digits. -/
def parseDigits (cs : List Char) : Option Nat :=
  if cs = [] then none
  else
    cs.foldl (fun acc c =>
      match acc with
      | none => none
      | some n => if 48 ≤ c.toNat ∧ c.toNat ≤ 57 then some (10 * n + (c.toNat - 48)) else none)
      (some 0)

/-- An integer parser for the concrete runs: an optional minus sign followed
by decimal digits without a leading zero, or the single digit zero; on these
strings it returns the value that `strconv.ParseInt(s, 0, 64)` returns when
the value is in the `int64` range. -/
def exampleParseInt (s : String) : Option Int :=
  let unsigned (cs : List Char) : Option Nat :=
    match cs with
    | ['0'] => some 0
    | '0' :: _ => none
    | _ => parseDigits cs
  match s.data with
  | '-' :: rest => (unsigned rest).map (fun n => -(n : Int))
  | cs => (unsigned cs).map (fun n => (n : Int))

/-- An environment for the concrete runs: every lookup succeeds, the schema
is `exampleSchema`, a plan holds the filter expression as its predicate, and
a plan is always true when it has no predicate and is not a count plan. -/
def exampleEnv : Env String where
  nodeID := 1
  lowerNonASCII := id
  ParseInt := exampleParseInt
  StartOfUserFieldID := 100
  TimeStampField := 1
  validateCollectionName := fun name => if name = "" then some "collection name is empty" else none
  GetCollectionID := fun _ _ => .ok 7
  isPartitionKeyMode := fun _ _ => (false, none)
  validatePartitionTag := fun _ => none
  validateMaxQueryResultWindow := exampleWindow
  GetCollectionSchema := fun _ _ => some exampleSchema
  CreateRetrievePlan := fun _ expr => .ok ⟨⟨if expr = "" then none else some expr, false, 0⟩, []⟩
  translateOutputFields := fun outputFields _ => (outputFields, outputFields, none)
  IsAlwaysTruePlan := fun plan => plan.Query.Predicates.isNone && !plan.Query.IsCount
  ParseExprFromPlan := fun plan => .ok (plan.bind (fun p => p.Query.Predicates))
  assignPartitionKeys := fun _ _ _ => .ok []
  getPartitionIDs := fun _ _ _ => ([10], none)
  Marshal := fun _ => ([], none)
  GetCurUserFromContext := ""
  GetCollectionInfo := fun _ _ _ => .ok 0
  parseGuaranteeTsFromConsistency := fun guaranteeTs _ _ => guaranteeTs
  parseGuaranteeTs := fun guaranteeTs _ => guaranteeTs
  deadline := none

/-- The environment `exampleEnv` for a collection in partition-key mode. -/
def partitionKeyEnv : Env String :=
  { exampleEnv with isPartitionKeyMode := fun _ _ => (true, none) }

/-- A fresh task for the collection `coll` with the given filter expression,
output fields, query params and partition names. -/
def exampleTask (expr : String) (outputFields : List String) (queryParams : List KeyValuePair)
    (partitionNames : List String) : queryTask String where
  RetrieveRequest :=
    { Base := ⟨MsgType.MsgType_Undefined, 0, 0, 0, 0⟩, DbID := 0, CollectionID := 0,
      PartitionIDs := [], SerializedExprPlan := [], OutputFieldsId := [], MvccTimestamp := 0,
      GuaranteeTimestamp := 0, TimeoutTimestamp := 0, Limit := 0, IgnoreGrowing := false,
      IsCount := false, ReduceStopForBest := false, Username := "" }
  request :=
    { DbName := "default", CollectionName := "coll", Expr := expr, OutputFields := outputFields,
      PartitionNames := partitionNames, GuaranteeTimestamp := 0, QueryParams := queryParams,
      UseDefaultConsistency := true, ConsistencyLevel := 0 }
  ids := none
  collectionName := ""
  queryParams := none
  schema := none
  userOutputFields := []
  plan := none
  partitionKeyMode := false

/-! ## Concrete values for the later phases -/

/-- An environment for the concrete runs of the consistency resolution:
`exampleEnv` with a resolver that returns the begin timestamp at level 0,
the timestamp 1 at level 3 and the raw timestamp at every other level, and a
compatibility resolver that keeps a raw timestamp above zero. -/
def consistencyEnv : Env String :=
  { exampleEnv with
    parseGuaranteeTsFromConsistency := fun ts tMax level =>
      if level = 0 then tMax else if level = 3 then 1 else ts
    parseGuaranteeTs := fun ts tMax => if ts = 0 then tMax else ts }

/-- A task with the filter `pk > 0` and the limit 5, with the given begin
timestamp, raw guarantee timestamp, default-consistency flag and level. -/
def consistencyTask (beginTs raw : Nat) (useDefaultConsistency : Bool) (level : Int) :
    queryTask String :=
  let t := exampleTask "pk > 0" [] [⟨"limit", "5"⟩] []
  { t with
    RetrieveRequest :=
      { t.RetrieveRequest with Base := { t.RetrieveRequest.Base with Timestamp := beginTs } }
    request :=
      { t.request with
        GuaranteeTimestamp := raw
        UseDefaultConsistency := useDefaultConsistency
        ConsistencyLevel := level } }

/-- Sentinel errors for the concrete runs, with pairwise distinct codes. -/
def exampleSentinels : Sentinels where
  ErrServiceNotReady := ⟨"service not ready", "", true, 1⟩
  ErrServiceMemoryLimitExceeded := ⟨"memory limit exceeded", "", false, 5⟩
  ErrServiceDiskLimitExceeded := ⟨"disk limit exceeded", "", false, 9⟩
  ErrServiceRateLimit := ⟨"rate limit exceeded", "", true, 8⟩
  ErrServiceForceDeny := ⟨"force deny", "", false, 10⟩
  ErrCollectionNotFound := ⟨"collection not found", "", false, 100⟩
  ErrPartitionNotFound := ⟨"partition not found", "", false, 200⟩
  ErrReplicaNotFound := ⟨"replica not found", "", false, 400⟩
  ErrReplicaNotAvailable := ⟨"replica not available", "", false, 401⟩
  ErrChannelNotFound := ⟨"channel not found", "", false, 500⟩
  ErrChannelLack := ⟨"channel lacks", "", false, 501⟩
  ErrChannelNotAvailable := ⟨"channel not available", "", false, 503⟩
  ErrSegmentNotFound := ⟨"segment not found", "", false, 600⟩
  ErrIndexNotFound := ⟨"index not found", "", false, 700⟩
  ErrNodeNotAvailable := ⟨"node not available", "", false, 904⟩
  ErrNodeNotMatch := ⟨"node not match", "", false, 903⟩
  ErrParameterInvalid := ⟨"invalid parameter", "", false, 1100⟩
  errUnexpected := ⟨"unexpected error", "", false, 65535⟩
  CanceledCode := 10000
  TimeoutCode := 10001

/-- A status with the given legacy code, and the given reason. -/
def statusOf (code : ErrorCode) (reason : String) : commonpb.Status :=
  ⟨code, reason, 0, false, ""⟩

/-- A shard response with the keys 1 and 2, one column and the given status. -/
def exampleShardResult (status : Option commonpb.Status) : ShardResult Int Unit Nat :=
  { Ids := [1, 2], FieldsData := [()], Status := status, CostAggregation := some 3 }

/-- The effects before any shard call. -/
def noEffects : ShardEffects Int Unit Nat := ⟨[], [], []⟩

/-! ## Theorems: the emit loop under any selection function -/

section AnySelector

variable {K F : Type} [DecidableEq K]

/-- What a completed pass of lines 573-585 did: the selected result and
cursor exist, and the row was either skipped as a duplicate or appended. -/
theorem emitBody_next {SelectMinPK : Selector K F} {AppendFieldData : List F → Nat → Int}
    {valid : List (RetrieveResults K F)} {stop : Bool} {realLimit : Int}
    {st st1 : ReduceState K F} {sel cursor : Nat}
    (h : emitBody SelectMinPK AppendFieldData valid stop realLimit st = .next st1 sel cursor) :
    ∃ r, valid[sel]? = some r ∧ st.cursors[sel]? = some cursor ∧
      SelectMinPK valid st.cursors stop realLimit = (sel : Int) ∧
      ((GetPK r.Ids cursor ∈ st.idSet ∧ st1 = st) ∨
       (GetPK r.Ids cursor ∉ st.idSet ∧
        st1 = { st with
                retSize := st.retSize + AppendFieldData r.FieldsData cursor
                idSet := GetPK r.Ids cursor :: st.idSet
                rows := st.rows ++ [⟨r, cursor⟩] })) := by
  unfold emitBody at h
  simp only at h
  split_ifs at h with h1 h2
  split at h
  next r c hr hc =>
    have hs : ((SelectMinPK valid st.cursors stop realLimit).toNat : Int)
        = SelectMinPK valid st.cursors stop realLimit := Int.toNat_of_nonneg (by omega)
    split_ifs at h with h3
    · cases h
      exact ⟨r, hr, hc, hs.symm, Or.inl ⟨h3, rfl⟩⟩
    · cases h
      exact ⟨r, hr, hc, hs.symm, Or.inr ⟨h3, rfl⟩⟩
  next => cases h

/-- Invariant rule for the emit loop: a property of the loop variables that
holds at the start and is kept by every pass that passes the quota test holds
of the variables the returned rows are taken from. -/
theorem emitLoop_ok_invariant {SelectMinPK : Selector K F}
    {AppendFieldData : List F → Nat → Int} {maxOutputSize : Int}
    {valid : List (RetrieveResults K F)} {stop : Bool} {realLimit : Int} {numFields : Nat}
    (P : ReduceState K F → Prop)
    (hstep : ∀ st st1 sel cursor, P st →
      emitBody SelectMinPK AppendFieldData valid stop realLimit st = .next st1 sel cursor →
      st1.retSize ≤ maxOutputSize → P (advanceCursor st1 sel cursor)) :
    ∀ (n : Nat) (st : ReduceState K F) (ret : QueryResults K F), P st →
      emitLoop SelectMinPK AppendFieldData maxOutputSize valid stop realLimit numFields n st
        = .ok ret →
      ∃ stf, P stf ∧ ret = ⟨numFields, stf.rows⟩ := by
  intro n
  induction n with
  | zero =>
    intro st ret hP h
    simp only [emitLoop, Outcome.ok.injEq] at h
    exact ⟨st, hP, h.symm⟩
  | succ n ih =>
    intro st ret hP h
    rw [emitLoop] at h
    split at h
    · simp only [Outcome.ok.injEq] at h
      exact ⟨st, hP, h.symm⟩
    · cases h
    · next st1 sel cursor hb =>
      split_ifs at h with hq
      exact ih _ ret (hstep st st1 sel cursor hP hb (by omega)) h

omit [DecidableEq K] in
/-- An early exit of lines 524-568 is the result without rows, or a panic. -/
theorem reducePrelude_error {SelectMinPK : Selector K F}
    {retrieveResults : List (Option (RetrieveResults K F))} {qp : Option queryParams}
    {out : Outcome K F} (h : reducePrelude SelectMinPK retrieveResults qp = .error out) :
    out = .panic ∨ ∃ n, out = .ok ⟨n, []⟩ := by
  unfold reducePrelude at h
  simp only at h
  split at h
  · cases h; exact Or.inr ⟨0, rfl⟩
  · cases qp with
    | none => cases h
    | some q =>
      simp only at h
      split_ifs at h
      all_goals
        split at h
        · cases h; exact Or.inr ⟨_, rfl⟩
        · cases h; exact Or.inl rfl
        · cases h

/-- The emit loop starts with no key emitted, size zero and no row. -/
theorem reducePrelude_ok {SelectMinPK : Selector K F}
    {AppendFieldData : List F → Nat → Int} {maxOutputSize : Int}
    {retrieveResults : List (Option (RetrieveResults K F))} {qp : Option queryParams}
    {ret : QueryResults K F}
    (h : reduceRetrieveResults SelectMinPK AppendFieldData maxOutputSize retrieveResults qp
      = .ok ret) :
    ret.rows = [] ∨ ∃ e, reducePrelude SelectMinPK retrieveResults qp = .ok e ∧
      emitLoop SelectMinPK AppendFieldData maxOutputSize e.valid e.reduceStopForBest e.realLimit
        e.numFields e.loopEnd.toNat e.state = .ok ret := by
  unfold reduceRetrieveResults at h
  split at h
  · next out hp =>
    rcases reducePrelude_error hp with rfl | ⟨n, rfl⟩
    · cases h
    · cases h; exact Or.inl rfl
  · next e hp => exact Or.inr ⟨e, hp, h⟩

/-- The test against `idSet` (lines 579-585) keeps the keys of the rows of a
returned result pairwise distinct. -/
theorem reduceRetrieveResults_ok_nodup {SelectMinPK : Selector K F}
    {AppendFieldData : List F → Nat → Int} {maxOutputSize : Int}
    {retrieveResults : List (Option (RetrieveResults K F))} {qp : Option queryParams}
    {ret : QueryResults K F}
    (h : reduceRetrieveResults SelectMinPK AppendFieldData maxOutputSize retrieveResults qp
      = .ok ret) :
    ret.pks.Nodup := by
  rcases reducePrelude_ok h with h0 | ⟨e, -, hl⟩
  · simp [QueryResults.pks, h0]
  · obtain ⟨stf, ⟨hnd, -⟩, rfl⟩ := emitLoop_ok_invariant
      (fun st => (st.rows.map Row.pk).Nodup ∧ ∀ row ∈ st.rows, row.pk ∈ st.idSet)
      (by
        intro st st1 sel cursor ⟨hnd, hsub⟩ hb _
        obtain ⟨r, -, -, -, ⟨-, rfl⟩ | ⟨hnew, rfl⟩⟩ := emitBody_next hb
        · exact ⟨hnd, hsub⟩
        · refine ⟨?_, ?_⟩
          · simp only [advanceCursor, List.map_append, List.map_cons, List.map_nil]
            rw [List.nodup_append]
            refine ⟨hnd, List.nodup_singleton _, ?_⟩
            intro a ha hb
            rw [List.mem_singleton] at hb
            obtain ⟨row, hrow, hpk⟩ := List.mem_map.mp ha
            have := hsub row hrow
            rw [hpk, hb] at this
            exact hnew this
          · intro row hrow
            simp only [advanceCursor, List.mem_append, List.mem_singleton] at hrow
            rcases hrow with hrow | rfl
            · exact List.mem_cons_of_mem _ (hsub row hrow)
            · simp [Row.pk, advanceCursor])
      _ _ ret (by simp [EmitStart.state]) hl
    exact hnd

/-- C1. Whenever `reduceRetrieveResults` returns successfully, whatever the
shard results, the query params (nil included), the quota and the behaviour
of the selection helper, no primary key occurs twice among the emitted rows. -/
theorem reduceRetrieveResults_pk_at_most_once (SelectMinPK : Selector K F)
    (AppendFieldData : List F → Nat → Int) (maxOutputSize : Int)
    (retrieveResults : List (Option (RetrieveResults K F))) (qp : Option queryParams)
    (ret : QueryResults K F)
    (h : reduceRetrieveResults SelectMinPK AppendFieldData maxOutputSize retrieveResults qp
      = .ok ret) :
    ret.pks.Nodup :=
  reduceRetrieveResults_ok_nodup h

/-- Witness of C1: shards `[1,3]` and `[3,4]` share the key `3`; the merge
succeeds and emits `1, 3, 4`. -/
theorem reduceRetrieveResults_pk_at_most_once_witness :
    (QueryResults.pks (⟨1, [⟨⟨[1, 3], [()]⟩, 0⟩, ⟨⟨[1, 3], [()]⟩, 1⟩, ⟨⟨[3, 4], [()]⟩, 1⟩]⟩ :
      QueryResults Int Unit)).Nodup :=
  reduceRetrieveResults_pk_at_most_once SelectMinPK (fun _ _ => 1) 100
    [some ⟨[1, 3], [()]⟩, some ⟨[3, 4], [()]⟩] none _ (by rfl)

/-- A pass that leaves the cumulative size above the quota ends the emit loop
with the error, at that pass or at an earlier one. -/
theorem emitLoop_exceeds {SelectMinPK : Selector K F}
    {AppendFieldData : List F → Nat → Int} {maxOutputSize : Int}
    {valid : List (RetrieveResults K F)} {stop : Bool} {realLimit : Int} {numFields : Nat} :
    ∀ (k n : Nat) (st stk : ReduceState K F), 1 ≤ k → k ≤ n →
      emitUnchecked SelectMinPK AppendFieldData valid stop realLimit k st = some stk →
      stk.retSize > maxOutputSize →
      emitLoop SelectMinPK AppendFieldData maxOutputSize valid stop realLimit numFields n st
        = .exceedMaxOutputSize maxOutputSize := by
  intro k
  induction k with
  | zero => intro n st stk h1; omega
  | succ k ih =>
    intro n st stk _ hkn hrun hgt
    obtain ⟨m, rfl⟩ : ∃ m, n = m + 1 := ⟨n - 1, by omega⟩
    rw [emitUnchecked] at hrun
    rw [emitLoop]
    split at hrun
    · next st1 sel cursor hb =>
      rw [hb]
      simp only
      split_ifs with hq
      · rfl
      · rcases Nat.eq_zero_or_pos k with rfl | hk
        · simp only [emitUnchecked, Option.some.injEq] at hrun
          subst hrun
          exact absurd hgt hq
        · exact ih m _ stk hk (by omega) hrun hgt
    · cases hrun

/-- C3. Once the emit phase is reached, if after some emit-phase step (the
`k`-th, within the iteration bound) the cumulative size of the appended rows
is greater than `maxOutputSize`, the call returns the quota error and no
result: none of the rows emitted before is returned. -/
theorem reduceRetrieveResults_quota_exceeded_fails (SelectMinPK : Selector K F)
    (AppendFieldData : List F → Nat → Int) (maxOutputSize : Int)
    (retrieveResults : List (Option (RetrieveResults K F))) (qp : Option queryParams)
    (e : EmitStart K F) (k : Nat) (stk : ReduceState K F)
    (hstart : reducePrelude SelectMinPK retrieveResults qp = .ok e)
    (hk1 : 1 ≤ k) (hk : (k : Int) ≤ e.loopEnd)
    (hrun : emitUnchecked SelectMinPK AppendFieldData e.valid e.reduceStopForBest e.realLimit
      k e.state = some stk)
    (hgt : stk.retSize > maxOutputSize) :
    reduceRetrieveResults SelectMinPK AppendFieldData maxOutputSize retrieveResults qp
      = .exceedMaxOutputSize maxOutputSize := by
  unfold reduceRetrieveResults
  rw [hstart]
  exact emitLoop_exceeds k _ _ stk hk1 (by omega) hrun hgt

/-- C4 (amended). Whenever `reduceRetrieveResults` returns successfully and
the quota is not negative, or at least one row is returned, the sizes that
`AppendFieldData` reported for the returned rows sum to at most
`maxOutputSize`. -/
theorem reduceRetrieveResults_size_le_quota (SelectMinPK : Selector K F)
    (AppendFieldData : List F → Nat → Int) (maxOutputSize : Int)
    (retrieveResults : List (Option (RetrieveResults K F))) (qp : Option queryParams)
    (ret : QueryResults K F)
    (h : reduceRetrieveResults SelectMinPK AppendFieldData maxOutputSize retrieveResults qp
      = .ok ret)
    (hq : 0 ≤ maxOutputSize ∨ ret.rows ≠ []) :
    ret.size AppendFieldData ≤ maxOutputSize := by
  have key : ret.rows = [] ∨ ret.size AppendFieldData ≤ maxOutputSize := by
    rcases reducePrelude_ok h with h0 | ⟨e, -, hl⟩
    · exact Or.inl h0
    · obtain ⟨stf, ⟨hsum, hle⟩, rfl⟩ := emitLoop_ok_invariant
        (fun st =>
          st.retSize = (st.rows.map (fun row => AppendFieldData row.src.FieldsData row.idx)).sum
          ∧ (st.rows = [] ∨ st.retSize ≤ maxOutputSize))
        (by
          intro st st1 sel cursor ⟨hsum, hle⟩ hb hq1
          obtain ⟨r, -, -, -, ⟨-, rfl⟩ | ⟨-, rfl⟩⟩ := emitBody_next hb
          · exact ⟨hsum, hle⟩
          · refine ⟨?_, Or.inr hq1⟩
            simp only [advanceCursor, List.map_append, List.map_cons, List.map_nil,
              List.sum_append, List.sum_cons, List.sum_nil, add_zero, hsum])
        _ _ ret (by simp [EmitStart.state]) hl
      rcases hle with h0 | hle
      · exact Or.inl h0
      · exact Or.inr (by simpa only [QueryResults.size, ← hsum] using hle)
  rcases key with h0 | hle
  · rcases hq with hq | hq
    · simpa [QueryResults.size, h0] using hq
    · exact absurd h0 hq
  · exact hle

omit [DecidableEq K] in
/-- A result that is nil, has no field data or has no ids is not among the
valid results. -/
theorem validRetrieveResults_discard (xs ys : List (Option (RetrieveResults K F)))
    (r : Option (RetrieveResults K F))
    (hr : ∀ x, r = some x → x.FieldsData = [] ∨ x.Ids = []) :
    validRetrieveResults (xs ++ r :: ys) = validRetrieveResults (xs ++ ys) := by
  unfold validRetrieveResults
  rw [List.filterMap_append, List.filterMap_append, List.filterMap_cons]
  cases r with
  | none => rfl
  | some x =>
    have hx : x.FieldsData.length = 0 ∨ GetSizeOfIDs x.Ids = 0 := by
      rcases hr x rfl with h | h
      · exact Or.inl (by simp [h])
      · exact Or.inr (by simp [GetSizeOfIDs, h])
    simp only [hx, if_true]

omit [DecidableEq K] in
/-- When every result is of that kind, no result is valid. -/
theorem validRetrieveResults_all_discarded (rs : List (Option (RetrieveResults K F)))
    (hall : ∀ r ∈ rs, ∀ x, r = some x → x.FieldsData = [] ∨ x.Ids = []) :
    validRetrieveResults rs = [] := by
  induction rs with
  | nil => rfl
  | cons r rs ih =>
    have h1 := validRetrieveResults_discard [] rs r (hall r (List.mem_cons_self _ _))
    simp only [List.nil_append] at h1
    rw [h1]
    exact ih (fun r' hr' => hall r' (List.mem_cons_of_mem _ hr'))

/-- The reducer reads its input only through the valid results. -/
theorem reduceRetrieveResults_congr (SelectMinPK : Selector K F)
    (AppendFieldData : List F → Nat → Int) (maxOutputSize : Int)
    (a b : List (Option (RetrieveResults K F))) (qp : Option queryParams)
    (h : validRetrieveResults a = validRetrieveResults b) :
    reduceRetrieveResults SelectMinPK AppendFieldData maxOutputSize a qp
      = reduceRetrieveResults SelectMinPK AppendFieldData maxOutputSize b qp := by
  unfold reduceRetrieveResults reducePrelude
  simp only [h]

/-- C7. A shard result `r` that is nil, has no field data or has zero ids
contributes nothing: the outcome on a list holding it equals the outcome on
the list with it removed; and when every shard result of `rs` is of that kind
(the empty list included) the call succeeds with the empty result that has no
field data; for every query params. -/
theorem reduceRetrieveResults_discards_empty (SelectMinPK : Selector K F)
    (AppendFieldData : List F → Nat → Int) (maxOutputSize : Int) (qp : Option queryParams)
    (xs ys rs : List (Option (RetrieveResults K F))) (r : Option (RetrieveResults K F))
    (hr : ∀ x, r = some x → x.FieldsData = [] ∨ x.Ids = [])
    (hall : ∀ r' ∈ rs, ∀ x, r' = some x → x.FieldsData = [] ∨ x.Ids = []) :
    reduceRetrieveResults SelectMinPK AppendFieldData maxOutputSize (xs ++ r :: ys) qp
      = reduceRetrieveResults SelectMinPK AppendFieldData maxOutputSize (xs ++ ys) qp
    ∧ reduceRetrieveResults SelectMinPK AppendFieldData maxOutputSize rs qp
      = .ok ⟨0, []⟩ := by
  refine ⟨reduceRetrieveResults_congr _ _ _ _ _ _ (validRetrieveResults_discard xs ys r hr), ?_⟩
  unfold reduceRetrieveResults reducePrelude
  simp only [validRetrieveResults_all_discarded rs hall]

end AnySelector

/-! ### Concrete runs -/

/-- Witness of C3: one shard `[1, 2]`, every row of size 1, quota 1: after
the second emit step the cumulative size is 2 and the call fails. -/
theorem reduceRetrieveResults_quota_exceeded_fails_witness :
    reduceRetrieveResults SelectMinPK (fun _ _ => 1) 1
      [some (⟨[1, 2], [()]⟩ : RetrieveResults Int Unit)] none = .exceedMaxOutputSize 1 :=
  reduceRetrieveResults_quota_exceeded_fails SelectMinPK (fun _ _ => 1) 1 _ none
    ⟨[⟨[1, 2], [()]⟩], 1, [0], 2, false, Unlimited⟩ 2
    ⟨[2], [some 2, some 1], 2, [⟨⟨[1, 2], [()]⟩, 0⟩, ⟨⟨[1, 2], [()]⟩, 1⟩]⟩
    rfl (by decide) (by decide) rfl (by decide)

/-- Counterexample to C4 as stated ("every quota value"): with the quota
`-1` and no shard result the call succeeds with no row, and the sum of the
sizes, 0, is greater than the quota. -/
theorem reduceRetrieveResults_size_above_negative_quota :
    ∃ ret : QueryResults Int Unit,
      reduceRetrieveResults SelectMinPK (fun _ _ => 1) (-1) [] none = .ok ret
      ∧ ¬ (ret.size (fun _ _ => 1) ≤ -1) :=
  ⟨⟨0, []⟩, rfl, by decide⟩

/-- Witness of C4 (amended): shards `[1,3]` and `[3,4]`, every row of size 1,
quota 100: the three returned rows have total size at most 100. -/
theorem reduceRetrieveResults_size_le_quota_witness :
    QueryResults.size (fun _ _ => 1)
      (⟨1, [⟨⟨[1, 3], [()]⟩, 0⟩, ⟨⟨[1, 3], [()]⟩, 1⟩, ⟨⟨[3, 4], [()]⟩, 1⟩]⟩ :
        QueryResults Int Unit) ≤ 100 :=
  reduceRetrieveResults_size_le_quota SelectMinPK (fun _ _ => 1) 100
    [some ⟨[1, 3], [()]⟩, some ⟨[3, 4], [()]⟩] none _ (by rfl) (Or.inl (by decide))

/-- Witness of C7: a nil result between two valid ones is dropped, and a list
of a nil result, one without ids and one without field data reduces to the
empty result. -/
theorem reduceRetrieveResults_discards_empty_witness :
    reduceRetrieveResults SelectMinPK (fun _ _ => 1) 100
        ([some (⟨[1], [()]⟩ : RetrieveResults Int Unit)] ++ none :: [some ⟨[2], [()]⟩]) none
      = reduceRetrieveResults SelectMinPK (fun _ _ => 1) 100
        ([some ⟨[1], [()]⟩] ++ [some ⟨[2], [()]⟩]) none
    ∧ reduceRetrieveResults SelectMinPK (fun _ _ => 1) 100
        [none, some (⟨[], [()]⟩ : RetrieveResults Int Unit), some ⟨[1], []⟩] none
      = .ok ⟨0, []⟩ :=
  reduceRetrieveResults_discards_empty SelectMinPK (fun _ _ => 1) 100 none
    [some ⟨[1], [()]⟩] [some ⟨[2], [()]⟩] [none, some ⟨[], [()]⟩, some ⟨[1], []⟩] none
    (by intro x h; cases h)
    (by
      intro r' hr' x hx
      subst hx
      simp only [List.mem_cons, List.mem_singleton, List.not_mem_nil, or_false] at hr'
      rcases hr' with h | h | h
      · cases h
      · cases h; exact Or.inr rfl
      · cases h; exact Or.inl rfl)

/-! ## Theorems: output-field resolution -/

/-- Every element of the left list of two related lists has a related
element in the right list. -/
theorem forall₂_exists_of_mem_left {α β : Type} {R : α → β → Prop} :
    ∀ {l₁ : List α} {l₂ : List β}, List.Forall₂ R l₁ l₂ → ∀ {a : α}, a ∈ l₁ →
      ∃ b ∈ l₂, R a b := by
  intro l₁ l₂ h
  induction h with
  | nil => intro a ha; cases ha
  | cons hab _ ih =>
    intro a ha
    rcases List.mem_cons.mp ha with rfl | ha
    · exact ⟨_, List.mem_cons_self _ _, hab⟩
    · obtain ⟨b, hb, hr⟩ := ih ha
      exact ⟨b, List.mem_cons_of_mem _ hb, hr⟩

/-- A successful run of lines 88-100 pairs every requested name with the id
of the first schema field of that name. -/
theorem resolveOutputFields_ok {fields : List FieldSchema} :
    ∀ {outputFields : List String} {ids : List Int},
      resolveOutputFields fields outputFields = .ok ids →
      List.Forall₂ (fun reqField id => ∃ field,
        fields.find? (fun field => reqField == field.Name) = some field ∧ field.FieldID = id)
        outputFields ids := by
  intro outputFields
  induction outputFields with
  | nil =>
    intro ids h
    simp only [resolveOutputFields, Except.ok.injEq] at h
    subst h
    exact List.Forall₂.nil
  | cons reqField rest ih =>
    intro ids h
    rw [resolveOutputFields] at h
    split at h
    · cases h
    · next field hf =>
      split at h
      · cases h
      · next ids' hrest =>
        cases h
        exact List.Forall₂.cons ⟨field, hf, rfl⟩ (ih hrest)

/-- A failed run of lines 88-100 stopped at the first requested name that no
schema field bears, and reports that name. -/
theorem resolveOutputFields_error {fields : List FieldSchema} :
    ∀ {outputFields : List String} {e : TranslateError},
      resolveOutputFields fields outputFields = .error e →
      ∃ before reqField after, outputFields = before ++ reqField :: after ∧
        (∀ name ∈ before, ∃ field ∈ fields, field.Name = name) ∧
        (∀ field ∈ fields, field.Name ≠ reqField) ∧ e = .fieldNotExist reqField := by
  intro outputFields
  induction outputFields with
  | nil => intro e h; cases h
  | cons reqField rest ih =>
    intro e h
    rw [resolveOutputFields] at h
    split at h
    · next hnone =>
      cases h
      refine ⟨[], reqField, rest, rfl, by simp, ?_, rfl⟩
      intro field hmem heq
      have := List.find?_eq_none.mp hnone field hmem
      simp [heq] at this
    · next field hf =>
      split at h
      · next e' hrest =>
        cases h
        obtain ⟨before, bad, after, hl, hb, hbad, he⟩ := ih hrest
        refine ⟨reqField :: before, bad, after, by simp [hl], ?_, hbad, he⟩
        intro name hname
        rcases List.mem_cons.mp hname with h | hname
        · have h2 : reqField = field.Name := by simpa using List.find?_some hf
          exact ⟨field, List.mem_of_find?_eq_some hf, by rw [h, h2]⟩
        · exact hb name hname
      · cases h

/-- The outcome of `translateToOutputFieldIDs` on a non-empty request, in
terms of the run of lines 88-100. -/
theorem translateToOutputFieldIDs_cons (start : Int) (reqField : String) (rest : List String)
    (schema : CollectionSchema) :
    translateToOutputFieldIDs start (reqField :: rest) schema =
      match resolveOutputFields schema.Fields (reqField :: rest) with
      | .error e => .error e
      | .ok outputFieldIDs =>
        if pkFieldIDOf schema.Fields ∈ outputFieldIDs then .ok outputFieldIDs
        else .ok (outputFieldIDs ++ [pkFieldIDOf schema.Fields]) := by
  simp [translateToOutputFieldIDs]

/-- C10. For every schema and every non-empty list of requested names, the
call fails if and only if some requested name is the `Name` of no schema
field; a failure returns no id list, only the field-not-found error of the
first such name (every name requested before it has a field); and on the
empty request the call does not fail. -/
theorem translateToOutputFieldIDs_fails_iff (start : Int) (outputFields : List String)
    (schema : CollectionSchema) (hne : outputFields ≠ []) :
    ((∃ e, translateToOutputFieldIDs start outputFields schema = .error e) ↔
      ∃ reqField ∈ outputFields, ∀ field ∈ schema.Fields, field.Name ≠ reqField)
    ∧ (∀ e, translateToOutputFieldIDs start outputFields schema = .error e →
        ∃ before reqField after, outputFields = before ++ reqField :: after ∧
          (∀ name ∈ before, ∃ field ∈ schema.Fields, field.Name = name) ∧
          (∀ field ∈ schema.Fields, field.Name ≠ reqField) ∧ e = .fieldNotExist reqField)
    ∧ (∃ ids, translateToOutputFieldIDs start [] schema = .ok ids) := by
  obtain ⟨reqField, rest, rfl⟩ := List.exists_cons_of_ne_nil hne
  have herr : ∀ e, translateToOutputFieldIDs start (reqField :: rest) schema = .error e →
      resolveOutputFields schema.Fields (reqField :: rest) = .error e := by
    intro e h
    rw [translateToOutputFieldIDs_cons] at h
    split at h
    · exact h ▸ (by assumption)
    · split_ifs at h
  refine ⟨⟨?_, ?_⟩, ?_, ⟨(schema.Fields.filter (isDefaultOutputField start)).map (·.FieldID),
    by simp [translateToOutputFieldIDs]⟩⟩
  · rintro ⟨e, h⟩
    obtain ⟨before, bad, after, hl, -, hbad, -⟩ := resolveOutputFields_error (herr e h)
    exact ⟨bad, by simp [hl], hbad⟩
  · rintro ⟨bad, hmem, hbad⟩
    rw [translateToOutputFieldIDs_cons]
    cases hres : resolveOutputFields schema.Fields (reqField :: rest) with
    | error e => exact ⟨e, rfl⟩
    | ok ids =>
      exfalso
      obtain ⟨id, -, field, hf, -⟩ := forall₂_exists_of_mem_left (resolveOutputFields_ok hres) hmem
      have h2 : bad = field.Name := by simpa using List.find?_some hf
      exact hbad field (List.mem_of_find?_eq_some hf) h2.symm
  · intro e h
    exact resolveOutputFields_error (herr e h)

/-- Every element of the right list of two related lists has a related
element in the left list. -/
theorem forall₂_exists_of_mem_right {α β : Type} {R : α → β → Prop} :
    ∀ {l₁ : List α} {l₂ : List β}, List.Forall₂ R l₁ l₂ → ∀ {b : β}, b ∈ l₂ →
      ∃ a ∈ l₁, R a b := by
  intro l₁ l₂ h
  induction h with
  | nil => intro b hb; cases hb
  | cons hab _ ih =>
    intro b hb
    rcases List.mem_cons.mp hb with rfl | hb
    · exact ⟨_, List.mem_cons_self _ _, hab⟩
    · obtain ⟨a, ha, hr⟩ := ih hb
      exact ⟨a, List.mem_cons_of_mem _ ha, hr⟩

/-- Lines 82-87 without a primary-key field leave `pkFieldID` as it was. -/
theorem foldl_pkFieldID_none (fields : List FieldSchema) (acc : Int)
    (h : fields.filter (·.IsPrimaryKey) = []) :
    fields.foldl (fun pkFieldID field => if field.IsPrimaryKey then field.FieldID else pkFieldID)
      acc = acc := by
  induction fields generalizing acc with
  | nil => rfl
  | cons f fs ih =>
    by_cases hf : f.IsPrimaryKey = true
    · simp [List.filter_cons, hf] at h
    · simp only [List.filter_cons, hf, Bool.false_eq_true, if_false] at h
      simp only [List.foldl_cons, hf, Bool.false_eq_true, if_false]
      exact ih acc h

/-- Lines 82-87 on a schema with the one primary-key field `pk`. -/
theorem pkFieldIDOf_single (fields : List FieldSchema) (pk : FieldSchema)
    (h : fields.filter (·.IsPrimaryKey) = [pk]) : pkFieldIDOf fields = pk.FieldID := by
  unfold pkFieldIDOf
  generalize (0 : Int) = acc
  induction fields generalizing acc with
  | nil => cases h
  | cons f fs ih =>
    by_cases hf : f.IsPrimaryKey = true
    · simp only [List.filter_cons, hf, if_true, List.cons.injEq] at h
      obtain ⟨rfl, h2⟩ := h
      simp only [List.foldl_cons, hf, if_true]
      exact foldl_pkFieldID_none fs _ h2
    · simp only [List.filter_cons, hf, Bool.false_eq_true, if_false] at h
      simp only [List.foldl_cons, hf, Bool.false_eq_true, if_false]
      exact ih h acc

/-- Pairwise distinct requested names resolve, on a schema of pairwise
distinct field ids, to pairwise distinct ids. -/
theorem resolveOutputFields_nodup {fields : List FieldSchema} {outputFields : List String}
    {ids : List Int} (hids : (fields.map (·.FieldID)).Nodup) (hreq : outputFields.Nodup)
    (h : resolveOutputFields fields outputFields = .ok ids) : ids.Nodup := by
  have hall := resolveOutputFields_ok h
  clear h
  induction hall with
  | nil => exact List.nodup_nil
  | @cons reqField id rest ids' hhead htail ih =>
    rw [List.nodup_cons] at hreq ⊢
    refine ⟨?_, ih hreq.2⟩
    intro hmem
    obtain ⟨field, hf, hid⟩ := hhead
    obtain ⟨name, hname, field', hf', hid'⟩ := forall₂_exists_of_mem_right htail hmem
    have heq : field' = field :=
      List.inj_on_of_nodup_map hids (List.mem_of_find?_eq_some hf')
        (List.mem_of_find?_eq_some hf) (hid'.trans hid.symm)
    have h1 : reqField = field.Name := by simpa using List.find?_some hf
    have h2 : name = field'.Name := by simpa using List.find?_some hf'
    exact hreq.1 (by rw [h1, ← heq, ← h2]; exact hname)

/-- On a schema of pairwise distinct field ids and a request of pairwise
distinct names, a successful call returns pairwise distinct ids. -/
theorem translateToOutputFieldIDs_ok_nodup {start : Int} {outputFields : List String}
    {schema : CollectionSchema} {ids : List Int}
    (hids : (schema.Fields.map (·.FieldID)).Nodup) (hreq : outputFields.Nodup)
    (h : translateToOutputFieldIDs start outputFields schema = .ok ids) : ids.Nodup := by
  cases outputFields with
  | nil =>
    simp only [translateToOutputFieldIDs, List.length_nil, if_true, Except.ok.injEq] at h
    subst h
    exact List.Nodup.sublist ((List.filter_sublist _).map _) hids
  | cons reqField rest =>
    rw [translateToOutputFieldIDs_cons] at h
    split at h
    · cases h
    · next ids0 hres =>
      have hnd := resolveOutputFields_nodup hids hreq hres
      split_ifs at h with hmem
      · cases h; exact hnd
      · cases h
        rw [List.nodup_append]
        refine ⟨hnd, List.nodup_singleton _, ?_⟩
        intro a ha hb
        rw [List.mem_singleton] at hb
        exact hmem (hb ▸ ha)

/-- On a non-empty request, a successful call returns the id computed by
lines 82-87 among the ids. -/
theorem translateToOutputFieldIDs_ok_mem_pk {start : Int} {reqField : String}
    {rest : List String} {schema : CollectionSchema} {ids : List Int}
    (h : translateToOutputFieldIDs start (reqField :: rest) schema = .ok ids) :
    pkFieldIDOf schema.Fields ∈ ids := by
  rw [translateToOutputFieldIDs_cons] at h
  split at h
  · cases h
  · split_ifs at h with hmem
    · cases h; exact hmem
    · cases h; simp

/-- C9 (amended). For every schema whose field ids and field names are
pairwise distinct and every list of pairwise distinct requested names on
which the call succeeds, the returned field-id sequence contains no
duplicate id. -/
theorem translateToOutputFieldIDs_no_duplicates (start : Int) (outputFields : List String)
    (schema : CollectionSchema) (ids : List Int)
    (hids : (schema.Fields.map (·.FieldID)).Nodup)
    (_hnames : (schema.Fields.map (·.Name)).Nodup)
    (hreq : outputFields.Nodup)
    (h : translateToOutputFieldIDs start outputFields schema = .ok ids) : ids.Nodup :=
  translateToOutputFieldIDs_ok_nodup hids hreq h

/-- C8 (amended). For every schema with exactly one primary-key field `pk`
and pairwise distinct field ids, and every list of pairwise distinct
requested names on which the call succeeds, where for the empty request `pk`
is a user field of non-vector type, the returned field-id sequence contains
the id of `pk` exactly once. -/
theorem translateToOutputFieldIDs_pk_exactly_once (start : Int) (outputFields : List String)
    (schema : CollectionSchema) (pk : FieldSchema) (ids : List Int)
    (hpk : schema.Fields.filter (·.IsPrimaryKey) = [pk])
    (hids : (schema.Fields.map (·.FieldID)).Nodup)
    (hreq : outputFields.Nodup)
    (hempty : outputFields = [] → isDefaultOutputField start pk = true)
    (h : translateToOutputFieldIDs start outputFields schema = .ok ids) :
    ids.count pk.FieldID = 1 := by
  refine List.count_eq_one_of_mem (translateToOutputFieldIDs_ok_nodup hids hreq h) ?_
  cases outputFields with
  | nil =>
    simp only [translateToOutputFieldIDs, List.length_nil, if_true, Except.ok.injEq] at h
    subst h
    have hmem : pk ∈ schema.Fields.filter (·.IsPrimaryKey) := by rw [hpk]; simp
    exact List.mem_map.mpr
      ⟨pk, List.mem_filter.mpr ⟨(List.mem_filter.mp hmem).1, hempty rfl⟩, rfl⟩
  | cons reqField rest =>
    rw [← pkFieldIDOf_single schema.Fields pk hpk]
    exact translateToOutputFieldIDs_ok_mem_pk h

/-! ### Concrete requests -/

/-- Witness of C10: on `exampleSchema` the request `["scalar", "nope", "gone"]`
fails, and the empty request succeeds. -/
theorem translateToOutputFieldIDs_fails_iff_witness :
    ((∃ e, translateToOutputFieldIDs 100 ["scalar", "nope", "gone"] exampleSchema = .error e) ↔
      ∃ reqField ∈ ["scalar", "nope", "gone"],
        ∀ field ∈ exampleSchema.Fields, field.Name ≠ reqField)
    ∧ (∀ e, translateToOutputFieldIDs 100 ["scalar", "nope", "gone"] exampleSchema = .error e →
        ∃ before reqField after, ["scalar", "nope", "gone"] = before ++ reqField :: after ∧
          (∀ name ∈ before, ∃ field ∈ exampleSchema.Fields, field.Name = name) ∧
          (∀ field ∈ exampleSchema.Fields, field.Name ≠ reqField) ∧
          e = .fieldNotExist reqField)
    ∧ (∃ ids, translateToOutputFieldIDs 100 [] exampleSchema = .ok ids) :=
  translateToOutputFieldIDs_fails_iff 100 ["scalar", "nope", "gone"] exampleSchema (by decide)

/-- Counterexample to C9 as stated: on `exampleSchema`, whose field ids and
names are pairwise distinct, the request `["scalar", "scalar"]` succeeds and
returns `[102, 102, 100]`, in which 102 occurs twice. -/
theorem translateToOutputFieldIDs_duplicate_request :
    (exampleSchema.Fields.map (·.FieldID)).Nodup
    ∧ (exampleSchema.Fields.map (·.Name)).Nodup
    ∧ translateToOutputFieldIDs 100 ["scalar", "scalar"] exampleSchema = .ok [102, 102, 100]
    ∧ ¬ ([102, 102, 100] : List Int).Nodup :=
  ⟨by decide, by decide, rfl, by decide⟩

/-- Witness of C9 (amended): the request `["scalar", "vector"]` on
`exampleSchema` returns `[102, 101, 100]`. -/
theorem translateToOutputFieldIDs_no_duplicates_witness :
    ([102, 101, 100] : List Int).Nodup :=
  translateToOutputFieldIDs_no_duplicates 100 ["scalar", "vector"] exampleSchema [102, 101, 100]
    (by decide) (by decide) (by decide) rfl

/-- Counterexample to C8 as stated: on `exampleSchema`, which has the one
primary-key field of id 100, the request `["pk", "pk"]` succeeds with
`[100, 100]`; on `lowPkSchema`, whose one primary-key field has the id 50,
the empty request succeeds with `[102]`, without the primary-key id; and on
`sharedIdSchema` the request `["pk", "scalar"]` succeeds with `[100, 100]`. -/
theorem translateToOutputFieldIDs_pk_not_once :
    (translateToOutputFieldIDs 100 ["pk", "pk"] exampleSchema = .ok [100, 100]
      ∧ ([100, 100] : List Int).count 100 = 2)
    ∧ (translateToOutputFieldIDs 100 [] lowPkSchema = .ok [102]
      ∧ ([102] : List Int).count 50 = 0)
    ∧ (translateToOutputFieldIDs 100 ["pk", "scalar"] sharedIdSchema = .ok [100, 100]
      ∧ ([100, 100] : List Int).count 100 = 2) :=
  ⟨⟨rfl, by decide⟩, ⟨rfl, by decide⟩, ⟨rfl, by decide⟩⟩

/-- Witness of C8 (amended): the request `["scalar"]` on `exampleSchema`
returns `[102, 100]`, with the primary-key id 100 once. -/
theorem translateToOutputFieldIDs_pk_exactly_once_witness :
    ([102, 100] : List Int).count (100 : Int) = 1 :=
  translateToOutputFieldIDs_pk_exactly_once 100 ["scalar"] exampleSchema
    ⟨100, "pk", true, DataType.DataType_Int64⟩ [102, 100]
    (by decide) (by decide) (by decide) (by intro h; cases h) rfl

/-! ## Theorems: the selection of the smallest key -/

section Selection

variable {K F : Type} [LinearOrder K]

omit [LinearOrder K] in
/-- The key under the first cursor. -/
theorem headAt_cons_zero (r : RetrieveResults K F) (results : List (RetrieveResults K F))
    (c : Nat) (cursors : List Nat) : headAt (r :: results) (c :: cursors) 0 = GetPK r.Ids c := by
  simp [headAt]

omit [LinearOrder K] in
/-- The key under a later cursor. -/
theorem headAt_cons_succ (r : RetrieveResults K F) (results : List (RetrieveResults K F))
    (c : Nat) (cursors : List Nat) (j : Nat) :
    headAt (r :: results) (c :: cursors) (j + 1) = headAt results cursors j := by
  simp [headAt]

/-- The scan either keeps the selection it started with, no key under a
cursor being below the selected key, or selects a cursor whose key is below
the key it started with, at most the key under every cursor and below the
key under every earlier cursor. -/
theorem selectMinPKFrom_spec :
    ∀ (results : List (RetrieveResults K F)) (cursors : List Nat) (i : Nat) (sel : Int)
      (minPK : Option K),
      (selectMinPKFrom results cursors i sel minPK = sel ∧
        ∀ j pk, headAt results cursors j = some pk → ∃ m, minPK = some m ∧ m ≤ pk)
      ∨ ∃ j pk, selectMinPKFrom results cursors i sel minPK = ((i + j : Nat) : Int) ∧
          headAt results cursors j = some pk ∧ (∀ m, minPK = some m → pk < m) ∧
          (∀ j' pk', headAt results cursors j' = some pk' → pk ≤ pk') ∧
          ∀ j' pk', j' < j → headAt results cursors j' = some pk' → pk < pk' := by
  intro results
  induction results with
  | nil =>
    intro cursors i sel minPK
    refine Or.inl ⟨by simp [selectMinPKFrom], ?_⟩
    intro j pk h
    simp [headAt] at h
  | cons r results ih =>
    intro cursors i sel minPK
    cases cursors with
    | nil =>
      refine Or.inl ⟨by simp [selectMinPKFrom], ?_⟩
      intro j pk h
      simp [headAt] at h
    | cons c cursors =>
      rw [selectMinPKFrom]
      cases hpk : GetPK r.Ids c with
      | none =>
        simp only
        rcases ih cursors (i + 1) sel minPK with ⟨h1, h2⟩ | ⟨j, pk, h1, h2, h3, h4, h5⟩
        · refine Or.inl ⟨h1, ?_⟩
          intro j pk h
          cases j with
          | zero => rw [headAt_cons_zero, hpk] at h; cases h
          | succ j => rw [headAt_cons_succ] at h; exact h2 j pk h
        · refine Or.inr ⟨j + 1, pk, by rw [h1]; congr 1; omega, by rwa [headAt_cons_succ], h3,
            ?_, ?_⟩
          · intro j' pk' h
            cases j' with
            | zero => rw [headAt_cons_zero, hpk] at h; cases h
            | succ j' => rw [headAt_cons_succ] at h; exact h4 j' pk' h
          · intro j' pk' hlt' h
            cases j' with
            | zero => rw [headAt_cons_zero, hpk] at h; cases h
            | succ j' => rw [headAt_cons_succ] at h; exact h5 j' pk' (by omega) h
      | some pk0 =>
        simp only
        cases minPK with
        | none =>
          simp only
          rcases ih cursors (i + 1) i (some pk0) with ⟨h1, h2⟩ | ⟨j, pk, h1, h2, h3, h4, h5⟩
          · refine Or.inr ⟨0, pk0, by rw [h1]; rfl, by rw [headAt_cons_zero, hpk],
              (by intro m hm; cases hm), ?_, fun j' pk' hlt' _ => absurd hlt' (Nat.not_lt_zero _)⟩
            intro j' pk' h
            cases j' with
            | zero => rw [headAt_cons_zero, hpk] at h; cases h; exact le_refl _
            | succ j' =>
              rw [headAt_cons_succ] at h
              obtain ⟨m, hm, hle⟩ := h2 j' pk' h
              cases hm; exact hle
          · refine Or.inr ⟨j + 1, pk, by rw [h1]; congr 1; omega, by rwa [headAt_cons_succ],
              (by intro m hm; cases hm), ?_, ?_⟩
            · intro j' pk' h
              cases j' with
              | zero => rw [headAt_cons_zero, hpk] at h; cases h; exact le_of_lt (h3 _ rfl)
              | succ j' => rw [headAt_cons_succ] at h; exact h4 j' pk' h
            · intro j' pk' hlt' h
              cases j' with
              | zero => rw [headAt_cons_zero, hpk] at h; cases h; exact h3 _ rfl
              | succ j' => rw [headAt_cons_succ] at h; exact h5 j' pk' (by omega) h
        | some m =>
          simp only
          split_ifs with hlt
          · rcases ih cursors (i + 1) i (some pk0) with ⟨h1, h2⟩ | ⟨j, pk, h1, h2, h3, h4, h5⟩
            · refine Or.inr ⟨0, pk0, by rw [h1]; rfl, by rw [headAt_cons_zero, hpk],
                (by intro m' hm; cases hm; exact hlt), ?_,
                fun j' pk' hlt' _ => absurd hlt' (Nat.not_lt_zero _)⟩
              intro j' pk' h
              cases j' with
              | zero => rw [headAt_cons_zero, hpk] at h; cases h; exact le_refl _
              | succ j' =>
                rw [headAt_cons_succ] at h
                obtain ⟨m', hm, hle⟩ := h2 j' pk' h
                cases hm; exact hle
            · refine Or.inr ⟨j + 1, pk, by rw [h1]; congr 1; omega, by rwa [headAt_cons_succ],
                (by intro m' hm; cases hm; exact lt_trans (h3 _ rfl) hlt), ?_, ?_⟩
              · intro j' pk' h
                cases j' with
                | zero => rw [headAt_cons_zero, hpk] at h; cases h; exact le_of_lt (h3 _ rfl)
                | succ j' => rw [headAt_cons_succ] at h; exact h4 j' pk' h
              · intro j' pk' hlt' h
                cases j' with
                | zero => rw [headAt_cons_zero, hpk] at h; cases h; exact h3 _ rfl
                | succ j' => rw [headAt_cons_succ] at h; exact h5 j' pk' (by omega) h
          · rcases ih cursors (i + 1) sel (some m) with ⟨h1, h2⟩ | ⟨j, pk, h1, h2, h3, h4, h5⟩
            · refine Or.inl ⟨h1, ?_⟩
              intro j' pk' h
              cases j' with
              | zero =>
                rw [headAt_cons_zero, hpk] at h; cases h
                exact ⟨m, rfl, not_lt.mp hlt⟩
              | succ j' => rw [headAt_cons_succ] at h; exact h2 j' pk' h
            · refine Or.inr ⟨j + 1, pk, by rw [h1]; congr 1; omega, by rwa [headAt_cons_succ],
                h3, ?_, ?_⟩
              · intro j' pk' h
                cases j' with
                | zero =>
                  rw [headAt_cons_zero, hpk] at h; cases h
                  exact le_trans (le_of_lt (h3 _ rfl)) (not_lt.mp hlt)
                | succ j' => rw [headAt_cons_succ] at h; exact h4 j' pk' h
              · intro j' pk' hlt' h
                cases j' with
                | zero =>
                  rw [headAt_cons_zero, hpk] at h; cases h
                  exact lt_of_lt_of_le (h3 _ rfl) (not_lt.mp hlt)
                | succ j' => rw [headAt_cons_succ] at h; exact h5 j' pk' (by omega) h

/-- The selection modelled from the spec returns `-1` when no cursor has a
key under it, and otherwise the index of a cursor whose key is at most the
key under every cursor. -/
theorem SelectMinPK_spec (results : List (RetrieveResults K F)) (cursors : List Nat)
    (stop : Bool) (realLimit : Int) :
    (SelectMinPK results cursors stop realLimit = -1 ∧ ∀ j, headAt results cursors j = none)
    ∨ ∃ (j : Nat) (pk : K), SelectMinPK results cursors stop realLimit = (j : Int) ∧
        headAt results cursors j = some pk ∧
        ∀ j' pk', headAt results cursors j' = some pk' → pk ≤ pk' := by
  rcases selectMinPKFrom_spec results cursors 0 (-1) none with
    ⟨h1, h2⟩ | ⟨j, pk, h1, h2, -, h4, -⟩
  · refine Or.inl ⟨h1, ?_⟩
    intro j
    cases h : headAt results cursors j with
    | none => rfl
    | some pk =>
      obtain ⟨m, hm, -⟩ := h2 j pk h
      cases hm
  · exact Or.inr ⟨j, pk, by simpa [SelectMinPK] using h1, h2, h4⟩

omit [LinearOrder K] in
/-- A key under a cursor is the key at the cursor's position in its result. -/
theorem headAt_eq_some {results : List (RetrieveResults K F)} {cursors : List Nat} {j : Nat}
    {pk : K} (h : headAt results cursors j = some pk) :
    ∃ (r : RetrieveResults K F) (c : Nat),
      results[j]? = some r ∧ cursors[j]? = some c ∧ GetPK r.Ids c = some pk := by
  unfold headAt at h
  split at h
  · next r c hr hc => exact ⟨r, c, hr, hc, h⟩
  · cases h

omit [LinearOrder K] in
/-- Advancing the cursor of a result past its key removes that one key from
the remaining keys. -/
theorem remainingKeys_advance :
    ∀ {results : List (RetrieveResults K F)} {cursors : List Nat} {j : Nat}
      {r : RetrieveResults K F} {c : Nat} {pk : K},
      results[j]? = some r → cursors[j]? = some c → GetPK r.Ids c = some pk →
      (remainingKeys results cursors).Perm (pk :: remainingKeys results (cursors.set j (c + 1))) := by
  intro results
  induction results with
  | nil => intro cursors j r c pk hr; simp at hr
  | cons r0 results ih =>
    intro cursors j r c pk hr hc hpk
    cases cursors with
    | nil => simp at hc
    | cons c0 cursors =>
      cases j with
      | zero =>
        simp only [List.getElem?_cons_zero, Option.some.injEq] at hr hc
        subst hr hc
        have hlt : c0 < r0.Ids.length := by
          by_contra hge
          simp [GetPK, List.getElem?_eq_none (not_lt.mp hge)] at hpk
        have hget : r0.Ids[c0] = pk := by
          simpa [GetPK, List.getElem?_eq_getElem hlt] using hpk
        simp only [remainingKeys, List.set_cons_zero, List.zipWith_cons_cons, List.flatten_cons]
        rw [List.drop_eq_getElem_cons hlt, hget]
        exact List.Perm.refl _
      | succ j =>
        simp only [List.getElem?_cons_succ] at hr hc
        have := ih hr hc hpk
        simp only [remainingKeys, List.set_cons_succ, List.zipWith_cons_cons, List.flatten_cons]
          at this ⊢
        exact (List.Perm.append_left _ this).trans List.perm_middle

omit [LinearOrder K] in
/-- A remaining key lies at or after the cursor of some result. -/
theorem mem_remainingKeys :
    ∀ {results : List (RetrieveResults K F)} {cursors : List Nat} {x : K},
      x ∈ remainingKeys results cursors →
      ∃ (j : Nat) (r : RetrieveResults K F) (c : Nat),
        results[j]? = some r ∧ cursors[j]? = some c ∧ x ∈ r.Ids.drop c := by
  intro results
  induction results with
  | nil => intro cursors x hx; simp [remainingKeys] at hx
  | cons r0 results ih =>
    intro cursors x hx
    cases cursors with
    | nil => simp [remainingKeys] at hx
    | cons c0 cursors =>
      simp only [remainingKeys, List.zipWith_cons_cons, List.flatten_cons, List.mem_append] at hx
      rcases hx with hx | hx
      · exact ⟨0, r0, c0, by simp, by simp, hx⟩
      · obtain ⟨j, r, c, hr, hc, hmem⟩ := ih hx
        exact ⟨j + 1, r, c, by simpa using hr, by simpa using hc, hmem⟩

omit [LinearOrder K] in
/-- When no cursor has a key under it, no key remains. -/
theorem remainingKeys_eq_nil :
    ∀ {results : List (RetrieveResults K F)} {cursors : List Nat},
      (∀ j, headAt results cursors j = none) → remainingKeys results cursors = [] := by
  intro results
  induction results with
  | nil => intro cursors _; simp [remainingKeys]
  | cons r0 results ih =>
    intro cursors h
    cases cursors with
    | nil => simp [remainingKeys]
    | cons c0 cursors =>
      have h0 := h 0
      rw [headAt_cons_zero] at h0
      have hle : r0.Ids.length ≤ c0 := by
        simpa [GetPK, List.getElem?_eq_none_iff] using h0
      have htail := @ih cursors (fun j => by simpa [headAt_cons_succ] using h (j + 1))
      simp only [remainingKeys] at htail
      simp only [remainingKeys, List.zipWith_cons_cons, List.flatten_cons,
        List.drop_eq_nil_of_le hle, List.nil_append, htail]

/-- In results that are ascending, a key that is at most the key under every
cursor is at most every remaining key. -/
theorem le_remainingKeys {results : List (RetrieveResults K F)} {cursors : List Nat} {pk : K}
    (hsorted : ∀ r ∈ results, r.Ids.Sorted (· ≤ ·))
    (hmin : ∀ j pk', headAt results cursors j = some pk' → pk ≤ pk') :
    ∀ x ∈ remainingKeys results cursors, pk ≤ x := by
  intro x hx
  obtain ⟨j, r, c, hr, hc, hmem⟩ := mem_remainingKeys hx
  have hlt : c < r.Ids.length := by
    by_contra hge
    simp [List.drop_eq_nil_of_le (not_lt.mp hge)] at hmem
  have hhead : headAt results cursors j = some r.Ids[c] := by
    simp [headAt, hr, hc, GetPK, List.getElem?_eq_getElem hlt]
  refine le_trans (hmin j _ hhead) ?_
  rw [List.drop_eq_getElem_cons hlt] at hmem
  rcases List.mem_cons.mp hmem with rfl | hmem
  · exact le_refl _
  · have hs : (r.Ids.drop c).Sorted (· ≤ ·) :=
      List.Pairwise.sublist (List.drop_sublist c r.Ids) (hsorted r (List.getElem?_mem hr))
    rw [List.drop_eq_getElem_cons hlt] at hs
    exact (List.sorted_cons.mp hs).1 x hmem

/-- What the selection modelled from the spec returns: `-1` when no key
remains; otherwise the index of a result whose cursor has a key under it
that is at most the key under every cursor, and advancing that cursor removes
this one key from the remaining keys. -/
theorem SelectMinPK_cases (results : List (RetrieveResults K F)) (cursors : List Nat)
    (stop : Bool) (realLimit : Int) :
    (SelectMinPK results cursors stop realLimit = -1 ∧ remainingKeys results cursors = [])
    ∨ ∃ (j : Nat) (r : RetrieveResults K F) (c : Nat) (pk : K),
        SelectMinPK results cursors stop realLimit = (j : Int) ∧
        results[j]? = some r ∧ cursors[j]? = some c ∧ GetPK r.Ids c = some pk ∧
        (remainingKeys results cursors).Perm
          (pk :: remainingKeys results (cursors.set j (c + 1))) ∧
        ∀ j' pk', headAt results cursors j' = some pk' → pk ≤ pk' := by
  rcases SelectMinPK_spec results cursors stop realLimit with ⟨h1, h2⟩ | ⟨j, pk, h1, h2, h3⟩
  · exact Or.inl ⟨h1, remainingKeys_eq_nil h2⟩
  · obtain ⟨r, c, hr, hc, hpk⟩ := headAt_eq_some h2
    exact Or.inr ⟨j, r, c, pk, h1, hr, hc, hpk, remainingKeys_advance hr hc hpk, h3⟩

/-- In ascending results, the selected key is the first of the remaining
keys in ascending order, and the rest are the keys that remain after the
cursor is advanced. -/
theorem insertionSort_remainingKeys_advance {results : List (RetrieveResults K F)}
    {cursors : List Nat} {j c : Nat} {pk : K}
    (hsorted : ∀ r ∈ results, r.Ids.Sorted (· ≤ ·))
    (hperm : (remainingKeys results cursors).Perm
      (pk :: remainingKeys results (cursors.set j (c + 1))))
    (hmin : ∀ j' pk', headAt results cursors j' = some pk' → pk ≤ pk') :
    (remainingKeys results cursors).insertionSort (· ≤ ·)
      = pk :: (remainingKeys results (cursors.set j (c + 1))).insertionSort (· ≤ ·) := by
  have hle := le_remainingKeys hsorted hmin
  refine List.eq_of_perm_of_sorted (r := (· ≤ ·)) ?_ (List.sorted_insertionSort _ _) ?_
  · exact (List.perm_insertionSort _ _).trans
      (hperm.trans (List.Perm.cons pk (List.perm_insertionSort _ _).symm))
  · refine List.sorted_cons.mpr ⟨?_, List.sorted_insertionSort _ _⟩
    intro b hb
    exact hle b (hperm.symm.subset
      (List.mem_cons_of_mem _ ((List.perm_insertionSort _ _).subset hb)))

/-- The offset loop under the selection modelled from the spec does not panic. -/
theorem offsetLoop_SelectMinPK_ne_panic (valid : List (RetrieveResults K F)) (stop : Bool)
    (realLimit : Int) :
    ∀ (n : Nat) (cursors : List Nat),
      offsetLoop SelectMinPK valid stop realLimit n cursors ≠ .panic := by
  intro n
  induction n with
  | zero => intro cursors h; simp [offsetLoop] at h
  | succ n ih =>
    intro cursors h
    rw [offsetLoop] at h
    rcases SelectMinPK_cases valid cursors stop realLimit with
      ⟨h1, -⟩ | ⟨j, r, c, pk, h1, -, hc, -, -, -⟩
    · simp [h1] at h
    · have hj : ¬ ((j : Int) = -1) := by omega
      have hj2 : ¬ ((j : Int) < 0) := by omega
      simp only [h1, hj, hj2, if_false, Int.toNat_ofNat, hc] at h
      exact ih _ h

/-- The offset loop over ascending results: either the cursors are exhausted
before `n` rows are skipped, or the keys that remain, in ascending order, are
those of the start without the first `n`. -/
theorem offsetLoop_SelectMinPK_sorted {valid : List (RetrieveResults K F)} (stop : Bool)
    (realLimit : Int) (hsorted : ∀ r ∈ valid, r.Ids.Sorted (· ≤ ·)) :
    ∀ (n : Nat) (cursors : List Nat),
      (offsetLoop SelectMinPK valid stop realLimit n cursors = .exhausted ∧
        (remainingKeys valid cursors).length < n)
      ∨ ∃ cursors', offsetLoop SelectMinPK valid stop realLimit n cursors = .done cursors' ∧
          (remainingKeys valid cursors').insertionSort (· ≤ ·)
            = ((remainingKeys valid cursors).insertionSort (· ≤ ·)).drop n := by
  intro n
  induction n with
  | zero => intro cursors; exact Or.inr ⟨cursors, by simp [offsetLoop], by simp⟩
  | succ n ih =>
    intro cursors
    rw [offsetLoop]
    rcases SelectMinPK_cases valid cursors stop realLimit with
      ⟨h1, h2⟩ | ⟨j, r, c, pk, h1, -, hc, -, hperm, hmin⟩
    · exact Or.inl ⟨by simp [h1], by simp [h2]⟩
    · have hj : ¬ ((j : Int) = -1) := by omega
      have hj2 : ¬ ((j : Int) < 0) := by omega
      simp only [h1, hj, hj2, if_false, Int.toNat_ofNat, hc]
      have hstep := insertionSort_remainingKeys_advance hsorted hperm hmin
      rcases ih (cursors.set j (c + 1)) with ⟨h3, h4⟩ | ⟨cursors', h3, h4⟩
      · refine Or.inl ⟨h3, ?_⟩
        rw [hperm.length_eq, List.length_cons]
        omega
      · exact Or.inr ⟨cursors', h3, by rw [h4, hstep, List.drop_succ_cons]⟩

end Selection

section SelectionLoop

variable {K F : Type} [LinearOrder K]

/-- A pass of lines 573-585 under the selection modelled from the spec:
either the loop is left, no key remaining; or the row under the selected
cursor is skipped as a duplicate or appended. -/
theorem emitBody_SelectMinPK (AppendFieldData : List F → Nat → Int)
    (valid : List (RetrieveResults K F)) (stop : Bool) (realLimit : Int)
    (st : ReduceState K F) :
    (emitBody SelectMinPK AppendFieldData valid stop realLimit st = .stop ∧
      remainingKeys valid st.cursors = [])
    ∨ ∃ (j : Nat) (r : RetrieveResults K F) (c : Nat) (pk : K) (st1 : ReduceState K F),
        emitBody SelectMinPK AppendFieldData valid stop realLimit st = .next st1 j c ∧
        (remainingKeys valid st.cursors).Perm
          (pk :: remainingKeys valid (st.cursors.set j (c + 1))) ∧
        (∀ j' pk', headAt valid st.cursors j' = some pk' → pk ≤ pk') ∧
        ((some pk ∈ st.idSet ∧ st1 = st) ∨
         (some pk ∉ st.idSet ∧
          st1 = { st with
                  retSize := st.retSize + AppendFieldData r.FieldsData c
                  idSet := some pk :: st.idSet
                  rows := st.rows ++ [⟨r, c⟩] } ∧ Row.pk (⟨r, c⟩ : Row K F) = some pk)) := by
  rcases SelectMinPK_cases valid st.cursors stop realLimit with
    ⟨h1, h2⟩ | ⟨j, r, c, pk, h1, hr, hc, hpk, hperm, hmin⟩
  · exact Or.inl ⟨by simp [emitBody, h1], h2⟩
  · have hj : ¬ ((j : Int) = -1) := by omega
    have hj2 : ¬ ((j : Int) < 0) := by omega
    by_cases hmem : some pk ∈ st.idSet
    · refine Or.inr ⟨j, r, c, pk, st, ?_, hperm, hmin, Or.inl ⟨hmem, rfl⟩⟩
      simp only [emitBody, h1, hj, hj2, if_false, Int.toNat_ofNat, hr, hc, hpk, hmem, if_true]
    · refine Or.inr ⟨j, r, c, pk, _, ?_, hperm, hmin, Or.inr ⟨hmem, rfl, hpk⟩⟩
      simp only [emitBody, h1, hj, hj2, if_false, Int.toNat_ofNat, hr, hc, hpk, hmem]

/-- The emit loop under the selection modelled from the spec ends with a
result or with the quota error. -/
theorem emitLoop_SelectMinPK_total (AppendFieldData : List F → Nat → Int) (maxOutputSize : Int)
    (valid : List (RetrieveResults K F)) (stop : Bool) (realLimit : Int) (numFields : Nat) :
    ∀ (n : Nat) (st : ReduceState K F),
      emitLoop SelectMinPK AppendFieldData maxOutputSize valid stop realLimit numFields n st
        = .exceedMaxOutputSize maxOutputSize
      ∨ ∃ ret, emitLoop SelectMinPK AppendFieldData maxOutputSize valid stop realLimit
          numFields n st = .ok ret := by
  intro n
  induction n with
  | zero => intro st; exact Or.inr ⟨_, rfl⟩
  | succ n ih =>
    intro st
    rw [emitLoop]
    rcases emitBody_SelectMinPK AppendFieldData valid stop realLimit st with
      ⟨h1, -⟩ | ⟨j, r, c, pk, st1, h1, -, -, -⟩
    · rw [h1]; exact Or.inr ⟨_, rfl⟩
    · rw [h1]
      simp only
      split_ifs
      · exact Or.inl rfl
      · exact ih _

/-- The call under the selection modelled from the spec ends with a result
or with the quota error. -/
theorem reduceRetrieveResults_SelectMinPK_total (AppendFieldData : List F → Nat → Int)
    (maxOutputSize : Int) (retrieveResults : List (Option (RetrieveResults K F)))
    (qp : Option queryParams) :
    reduceRetrieveResults SelectMinPK AppendFieldData maxOutputSize retrieveResults qp
        = .exceedMaxOutputSize maxOutputSize
      ∨ ∃ ret, reduceRetrieveResults SelectMinPK AppendFieldData maxOutputSize
          retrieveResults qp = .ok ret := by
  unfold reduceRetrieveResults
  cases hp : reducePrelude SelectMinPK retrieveResults qp with
  | error out =>
    rcases reducePrelude_error hp with rfl | ⟨n, rfl⟩
    · exfalso
      unfold reducePrelude at hp
      simp only at hp
      split at hp
      · cases hp
      · cases qp with
        | none => cases hp
        | some q =>
          simp only at hp
          split_ifs at hp
          all_goals
            split at hp
            · cases hp
            · next hoff => exact offsetLoop_SelectMinPK_ne_panic _ _ _ _ _ hoff
            · cases hp
    · exact Or.inr ⟨_, rfl⟩
  | ok e => exact emitLoop_SelectMinPK_total _ _ _ _ _ _ _ _

/-- Over ascending results the keys of the rows that a successful emit loop
returns are strictly ascending, when they are so at the start and no emitted
key is above a remaining key. -/
theorem emitLoop_SelectMinPK_ascending (AppendFieldData : List F → Nat → Int)
    (maxOutputSize : Int) {valid : List (RetrieveResults K F)} (stop : Bool) (realLimit : Int)
    (numFields : Nat) (hsorted : ∀ r ∈ valid, r.Ids.Sorted (· ≤ ·)) (n : Nat)
    (cursors : List Nat) (ret : QueryResults K F)
    (h : emitLoop SelectMinPK AppendFieldData maxOutputSize valid stop realLimit numFields n
      ⟨cursors, [], 0, []⟩ = .ok ret) :
    ∃ ks : List K, ret.pks = ks.map some ∧ ks.Sorted (· < ·) := by
  obtain ⟨stf, ⟨ks, h1, h2, -, -⟩, rfl⟩ := emitLoop_ok_invariant
    (fun st => ∃ ks : List K, st.rows.map Row.pk = ks.map some ∧ ks.Sorted (· < ·) ∧
      (∀ k ∈ ks, some k ∈ st.idSet) ∧
      ∀ k ∈ ks, ∀ x ∈ remainingKeys valid st.cursors, k ≤ x)
    (by
      intro st st1 sel cursor ⟨ks, hks, hs, hid, hle⟩ hb _
      rcases emitBody_SelectMinPK AppendFieldData valid stop realLimit st with
        ⟨h1, -⟩ | ⟨j, r, c, pk, st1', h1, hperm, hmin, hcase⟩
      · rw [h1] at hb; cases hb
      · rw [h1] at hb
        cases hb
        have hpkle := le_remainingKeys hsorted hmin
        have hsub : ∀ x ∈ remainingKeys valid (st.cursors.set sel (cursor + 1)),
            x ∈ remainingKeys valid st.cursors :=
          fun x hx => hperm.symm.subset (List.mem_cons_of_mem _ hx)
        have hpkmem : pk ∈ remainingKeys valid st.cursors :=
          hperm.symm.subset (List.mem_cons_self _ _)
        rcases hcase with ⟨-, rfl⟩ | ⟨hnew, rfl, hrow⟩
        · exact ⟨ks, hks, hs, hid, fun k hk x hx => hle k hk x (hsub x hx)⟩
        · refine ⟨ks ++ [pk], ?_, ?_, ?_, ?_⟩
          · simp only [advanceCursor, List.map_append, List.map_cons, List.map_nil, hks, hrow]
          · refine List.pairwise_append.mpr ⟨hs, List.pairwise_singleton _ _, ?_⟩
            intro k hk x hx
            rw [List.mem_singleton] at hx
            subst hx
            refine lt_of_le_of_ne (hle k hk _ hpkmem) ?_
            intro heq
            exact hnew (heq ▸ hid k hk)
          · intro k hk
            simp only [advanceCursor]
            rcases List.mem_append.mp hk with hk | hk
            · exact List.mem_cons_of_mem _ (hid k hk)
            · rw [List.mem_singleton] at hk
              subst hk
              exact List.mem_cons_self _ _
          · intro k hk x hx
            simp only [advanceCursor] at hx
            rcases List.mem_append.mp hk with hk | hk
            · exact hle k hk x (hsub x hx)
            · rw [List.mem_singleton] at hk
              subst hk
              exact hpkle x (hsub x hx))
    n ⟨cursors, [], 0, []⟩ ret ⟨[], rfl, List.sorted_nil, by simp, by simp⟩ h
  exact ⟨ks, h1, h2⟩

/-- Over ascending results a successful emit loop of `n` passes returns, next
to the keys emitted before, exactly the keys among the first `n` of the
remaining keys in ascending order. -/
theorem emitLoop_SelectMinPK_mem (AppendFieldData : List F → Nat → Int)
    (maxOutputSize : Int) {valid : List (RetrieveResults K F)} (stop : Bool) (realLimit : Int)
    (numFields : Nat) (hsorted : ∀ r ∈ valid, r.Ids.Sorted (· ≤ ·)) :
    ∀ (n : Nat) (st : ReduceState K F) (ret : QueryResults K F),
      (∀ x, x ∈ st.idSet ↔ x ∈ st.rows.map Row.pk) →
      emitLoop SelectMinPK AppendFieldData maxOutputSize valid stop realLimit numFields n st
        = .ok ret →
      ∀ k, some k ∈ ret.pks ↔
        (some k ∈ st.rows.map Row.pk ∨
          k ∈ ((remainingKeys valid st.cursors).insertionSort (· ≤ ·)).take n) := by
  intro n
  induction n with
  | zero =>
    intro st ret _ h k
    simp only [emitLoop, Outcome.ok.injEq] at h
    subst h
    simp [QueryResults.pks]
  | succ n ih =>
    intro st ret hid h k
    rw [emitLoop] at h
    rcases emitBody_SelectMinPK AppendFieldData valid stop realLimit st with
      ⟨h1, h2⟩ | ⟨j, r, c, pk, st1, h1, hperm, hmin, hcase⟩
    · rw [h1] at h
      simp only [Outcome.ok.injEq] at h
      subst h
      simp [QueryResults.pks, h2]
    · rw [h1] at h
      simp only at h
      split_ifs at h
      have hstep := insertionSort_remainingKeys_advance hsorted hperm hmin
      rw [hstep, List.take_succ_cons, List.mem_cons]
      rcases hcase with ⟨hmem, rfl⟩ | ⟨-, rfl, hrow⟩
      · rw [ih _ ret (by simpa [advanceCursor] using hid) h k]
        simp only [advanceCursor]
        constructor
        · rintro (h | h)
          · exact Or.inl h
          · exact Or.inr (Or.inr h)
        · rintro (h | h | h)
          · exact Or.inl h
          · exact Or.inl (h ▸ (hid _).mp hmem)
          · exact Or.inr h
      · rw [ih _ ret (by
          intro x
          simp only [advanceCursor, List.mem_cons, List.map_append, List.map_cons, List.map_nil,
            List.mem_append, List.mem_singleton, hrow, hid x]
          tauto) h k]
        simp only [advanceCursor, List.map_append, List.map_cons, List.map_nil, List.mem_append,
          List.mem_singleton, hrow, Option.some.injEq]
        tauto

/-- A successful emit loop with at least as many passes as keys remain
returns every remaining key and every key emitted before. -/
theorem emitLoop_SelectMinPK_exhausts (AppendFieldData : List F → Nat → Int)
    (maxOutputSize : Int) (valid : List (RetrieveResults K F)) (stop : Bool) (realLimit : Int)
    (numFields : Nat) :
    ∀ (n : Nat) (st : ReduceState K F) (ret : QueryResults K F),
      (∀ x ∈ st.idSet, x ∈ st.rows.map Row.pk) →
      (remainingKeys valid st.cursors).length ≤ n →
      emitLoop SelectMinPK AppendFieldData maxOutputSize valid stop realLimit numFields n st
        = .ok ret →
      ∀ k, (k ∈ remainingKeys valid st.cursors ∨ some k ∈ st.idSet) → some k ∈ ret.pks := by
  intro n
  induction n with
  | zero =>
    intro st ret hid hlen h k hk
    simp only [emitLoop, Outcome.ok.injEq] at h
    subst h
    have hnil : remainingKeys valid st.cursors = [] := List.length_eq_zero.mp (by omega)
    rcases hk with hk | hk
    · simp [hnil] at hk
    · exact hid _ hk
  | succ n ih =>
    intro st ret hid hlen h k hk
    rw [emitLoop] at h
    rcases emitBody_SelectMinPK AppendFieldData valid stop realLimit st with
      ⟨h1, h2⟩ | ⟨j, r, c, pk, st1, h1, hperm, -, hcase⟩
    · rw [h1] at h
      simp only [Outcome.ok.injEq] at h
      subst h
      rcases hk with hk | hk
      · simp [h2] at hk
      · exact hid _ hk
    · rw [h1] at h
      simp only at h
      split_ifs at h
      have hlen' : (remainingKeys valid (st.cursors.set j (c + 1))).length ≤ n := by
        have := hperm.length_eq
        rw [List.length_cons] at this
        omega
      have hk' : k = pk ∨ k ∈ remainingKeys valid (st.cursors.set j (c + 1)) ∨
          some k ∈ st.idSet := by
        rcases hk with hk | hk
        · rcases List.mem_cons.mp (hperm.subset hk) with hk | hk
          · exact Or.inl hk
          · exact Or.inr (Or.inl hk)
        · exact Or.inr (Or.inr hk)
      rcases hcase with ⟨hmem, rfl⟩ | ⟨-, rfl, hrow⟩
      · refine ih _ ret (by simpa [advanceCursor] using hid)
          (by simpa [advanceCursor] using hlen') h k ?_
        simp only [advanceCursor]
        rcases hk' with rfl | hk' | hk'
        · exact Or.inr hmem
        · exact Or.inl hk'
        · exact Or.inr hk'
      · refine ih _ ret ?_ (by simpa [advanceCursor] using hlen') h k ?_
        · intro x hx
          simp only [advanceCursor, List.mem_cons] at hx
          simp only [advanceCursor, List.map_append, List.map_cons, List.map_nil,
            List.mem_append, List.mem_singleton, hrow]
          rcases hx with hx | hx
          · exact Or.inr hx
          · exact Or.inl (hid x hx)
        · simp only [advanceCursor, List.mem_cons, Option.some.injEq]
          rcases hk' with rfl | hk' | hk'
          · exact Or.inr (Or.inl rfl)
          · exact Or.inl hk'
          · exact Or.inr (Or.inr hk')

end SelectionLoop

section Reduce

variable {K F : Type} [LinearOrder K]

omit [LinearOrder K] in
/-- With every cursor at zero, all keys of the results remain. -/
theorem remainingKeys_replicate_zero (valid : List (RetrieveResults K F)) :
    remainingKeys valid (List.replicate valid.length 0) = (valid.map (fun r => r.Ids)).flatten := by
  induction valid with
  | nil => rfl
  | cons r valid ih =>
    simp only [remainingKeys] at ih
    simp only [remainingKeys, List.length_cons, List.replicate_succ, List.zipWith_cons_cons,
      List.flatten_cons, List.map_cons, List.drop_zero, ih]

omit [LinearOrder K] in
/-- The initial iteration bound is the number of keys of the valid results. -/
theorem sumOfSizes_eq_length (valid : List (RetrieveResults K F)) :
    sumOfSizes valid = ((valid.map (fun r => r.Ids)).flatten).length := by
  simp [sumOfSizes, GetSizeOfIDs, List.length_flatten, Function.comp_def]

omit [LinearOrder K] in
/-- The emit loop runs over the valid results. -/
theorem reducePrelude_ok_valid {SelectMinPK : Selector K F}
    {retrieveResults : List (Option (RetrieveResults K F))} {qp : Option queryParams}
    {e : EmitStart K F} (h : reducePrelude SelectMinPK retrieveResults qp = .ok e) :
    e.valid = validRetrieveResults retrieveResults := by
  unfold reducePrelude at h
  simp only at h
  split at h
  · cases h
  · cases qp with
    | none => cases h; rfl
    | some q =>
      simp only at h
      split_ifs at h
      all_goals first
        | (cases h; rfl)
        | (split at h
           · cases h
           · cases h
           · cases h; rfl)

omit [LinearOrder K] in
/-- Without a limit the emit loop starts with every cursor at zero and is
bounded by the number of keys of the valid results. -/
theorem reducePrelude_ok_unlimited {SelectMinPK : Selector K F}
    {retrieveResults : List (Option (RetrieveResults K F))} {qp : Option queryParams}
    {e : EmitStart K F} (hqp : ∀ q, qp = some q → q.limit = Unlimited)
    (h : reducePrelude SelectMinPK retrieveResults qp = .ok e) :
    e.cursors = List.replicate (validRetrieveResults retrieveResults).length 0 ∧
    e.loopEnd = sumOfSizes (validRetrieveResults retrieveResults) := by
  unfold reducePrelude at h
  simp only at h
  split at h
  · cases h
  · cases qp with
    | none => cases h; exact ⟨rfl, rfl⟩
    | some q =>
      have hq := hqp q rfl
      simp only [hq, ne_eq, not_true_eq_false, if_false] at h
      cases h
      exact ⟨rfl, rfl⟩

omit [LinearOrder K] in
/-- A member of the valid results is a member of the shard results. -/
theorem mem_validRetrieveResults {retrieveResults : List (Option (RetrieveResults K F))}
    {r : RetrieveResults K F} (h : r ∈ validRetrieveResults retrieveResults) :
    some r ∈ retrieveResults := by
  unfold validRetrieveResults at h
  obtain ⟨x, hx, hfx⟩ := List.mem_filterMap.mp h
  cases x with
  | none => cases hfx
  | some y =>
    simp only at hfx
    split_ifs at hfx
    cases hfx
    exact hx

/-- With a limit set, early stop not requested and ascending shard results:
either the call is left early with no row, the merge having no row after the
offset; or the emit loop is bounded by the limit and the keys that remain for
it, in ascending order, are those of the merge after the offset. -/
theorem reducePrelude_limit (retrieveResults : List (Option (RetrieveResults K F)))
    (l o : Int) (hl : l ≠ Unlimited)
    (hsorted : ∀ r, some r ∈ retrieveResults → r.Ids.Sorted (· ≤ ·)) :
    (∃ numFields, reducePrelude SelectMinPK retrieveResults (some ⟨l, o, false⟩)
        = .error (.ok ⟨numFields, []⟩) ∧
      (mergedKeys retrieveResults).drop o.toNat = [])
    ∨ ∃ e, reducePrelude SelectMinPK retrieveResults (some ⟨l, o, false⟩) = .ok e ∧
        e.loopEnd = l ∧
        (remainingKeys e.valid e.cursors).insertionSort (· ≤ ·)
          = (mergedKeys retrieveResults).drop o.toNat := by
  have hs : ∀ r ∈ validRetrieveResults retrieveResults, r.Ids.Sorted (· ≤ ·) :=
    fun r hr => hsorted r (mem_validRetrieveResults hr)
  have hall : (remainingKeys (validRetrieveResults retrieveResults)
      (List.replicate (validRetrieveResults retrieveResults).length 0)).insertionSort (· ≤ ·)
      = mergedKeys retrieveResults := by
    rw [remainingKeys_replicate_zero]; rfl
  unfold reducePrelude
  simp only
  split
  · next hv =>
    refine Or.inl ⟨0, rfl, ?_⟩
    simp [mergedKeys, allKeys, hv]
  · next first rest hv =>
    simp only [hl, ne_eq, not_false_eq_true, if_true, Bool.not_false]
    split_ifs with ho
    · rcases offsetLoop_SelectMinPK_sorted false l hs o.toNat
          (List.replicate (validRetrieveResults retrieveResults).length 0) with
        ⟨h1, h2⟩ | ⟨cursors', h1, h2⟩
      · rw [h1]
        refine Or.inl ⟨_, rfl, ?_⟩
        apply List.drop_eq_nil_of_le
        rw [← hall, List.length_insertionSort]
        omega
      · rw [h1]
        exact Or.inr ⟨_, rfl, rfl, by rw [h2, hall]⟩
    · refine Or.inr ⟨_, rfl, rfl, ?_⟩
      have ho' : o.toNat = 0 := by omega
      simp only [hall, ho', List.drop_zero]

/-- An element of a list without duplicates occurs in it exactly once. -/
theorem length_filter_eq_one {α : Type} [DecidableEq α] {l : List α} {a : α}
    (hnd : l.Nodup) (ha : a ∈ l) : (l.filter (fun x => decide (x = a))).length = 1 := by
  induction l with
  | nil => cases ha
  | cons b l ih =>
    rw [List.nodup_cons] at hnd
    by_cases hb : b = a
    · subst hb
      have hnil : l.filter (fun x => decide (x = b)) = [] := by
        rw [List.filter_eq_nil_iff]
        intro x hx
        simp only [decide_eq_true_eq]
        rintro rfl
        exact hnd.1 hx
      simp [List.filter_cons, hnil]
    · have hmem : a ∈ l := by
        rcases List.mem_cons.mp ha with h | h
        · exact absurd h.symm hb
        · exact h
      simp only [List.filter_cons, hb, decide_False, Bool.false_eq_true, if_false]
      exact ih hnd.2 hmem

/-- Over ascending shard results the call under the selection modelled from the
spec ends with the quota error or returns rows whose keys are strictly
ascending. -/
theorem reduceRetrieveResults_SelectMinPK_ascending (AppendFieldData : List F → Nat → Int)
    (maxOutputSize : Int) (retrieveResults : List (Option (RetrieveResults K F)))
    (qp : Option queryParams)
    (hsorted : ∀ r, some r ∈ retrieveResults → r.Ids.Sorted (· ≤ ·)) :
    reduceRetrieveResults SelectMinPK AppendFieldData maxOutputSize retrieveResults qp
        = .exceedMaxOutputSize maxOutputSize
      ∨ ∃ (ret : QueryResults K F) (ks : List K),
          reduceRetrieveResults SelectMinPK AppendFieldData maxOutputSize retrieveResults qp
            = .ok ret ∧
          ret.pks = ks.map some ∧ ks.Sorted (· < ·) := by
  rcases reduceRetrieveResults_SelectMinPK_total AppendFieldData maxOutputSize retrieveResults qp
    with h | ⟨ret, h⟩
  · exact Or.inl h
  · refine Or.inr ⟨ret, ?_⟩
    rcases reducePrelude_ok h with h0 | ⟨e, hp, hloop⟩
    · exact ⟨[], h, by simp [QueryResults.pks, h0], List.sorted_nil⟩
    · have hs : ∀ r ∈ e.valid, r.Ids.Sorted (· ≤ ·) := by
        rw [reducePrelude_ok_valid hp]
        exact fun r hr => hsorted r (mem_validRetrieveResults hr)
      obtain ⟨ks, h1, h2⟩ := emitLoop_SelectMinPK_ascending AppendFieldData maxOutputSize
        e.reduceStopForBest e.realLimit e.numFields hs e.loopEnd.toNat e.cursors ret hloop
      exact ⟨ks, h, h1, h2⟩

/-- C6. For every list of shard results in which each shard's id list is
ascending (the shards themselves in any order), every query params and every
quota, the call under the selection modelled from the spec ends with the
quota error or returns rows whose primary keys are in strictly ascending
order. -/
theorem reduceRetrieveResults_strictly_ascending (AppendFieldData : List F → Nat → Int)
    (maxOutputSize : Int) (retrieveResults : List (Option (RetrieveResults K F)))
    (qp : Option queryParams)
    (hsorted : ∀ r, some r ∈ retrieveResults → r.Ids.Sorted (· ≤ ·)) :
    reduceRetrieveResults SelectMinPK AppendFieldData maxOutputSize retrieveResults qp
        = .exceedMaxOutputSize maxOutputSize
      ∨ ∃ (ret : QueryResults K F) (ks : List K),
          reduceRetrieveResults SelectMinPK AppendFieldData maxOutputSize retrieveResults qp
            = .ok ret ∧
          ret.pks = ks.map some ∧ ks.Sorted (· < ·) :=
  reduceRetrieveResults_SelectMinPK_ascending AppendFieldData maxOutputSize retrieveResults qp
    hsorted

/-- C5. With no limit (query params nil, or their limit `Unlimited`), for
every list of shard results the call under the selection modelled from the
spec ends with the quota error or returns a result in which every primary
key of every valid shard result occurs exactly once, also when several shard
results hold the key. -/
theorem reduceRetrieveResults_unlimited_each_key_once (AppendFieldData : List F → Nat → Int)
    (maxOutputSize : Int) (retrieveResults : List (Option (RetrieveResults K F)))
    (qp : Option queryParams) (hqp : ∀ q, qp = some q → q.limit = Unlimited) :
    reduceRetrieveResults SelectMinPK AppendFieldData maxOutputSize retrieveResults qp
        = .exceedMaxOutputSize maxOutputSize
      ∨ ∃ ret : QueryResults K F,
          reduceRetrieveResults SelectMinPK AppendFieldData maxOutputSize retrieveResults qp
            = .ok ret ∧
          ∀ r ∈ validRetrieveResults retrieveResults, ∀ k ∈ r.Ids,
            ret.occurrences k = 1 := by
  rcases reduceRetrieveResults_SelectMinPK_total AppendFieldData maxOutputSize retrieveResults qp
    with h | ⟨ret, h⟩
  · exact Or.inl h
  · refine Or.inr ⟨ret, h, ?_⟩
    intro r hr k hk
    suffices hin : some k ∈ ret.pks from
      length_filter_eq_one (reduceRetrieveResults_ok_nodup h) hin
    have hmem : k ∈ ((validRetrieveResults retrieveResults).map (fun r => r.Ids)).flatten :=
      List.mem_flatten.mpr ⟨r.Ids, List.mem_map.mpr ⟨r, hr, rfl⟩, hk⟩
    have hprelude : ∃ e, reducePrelude SelectMinPK retrieveResults qp = .ok e := by
      cases hp : reducePrelude SelectMinPK retrieveResults qp with
      | ok e => exact ⟨e, rfl⟩
      | error out =>
        exfalso
        unfold reducePrelude at hp
        simp only at hp
        split at hp
        · next hv => rw [hv] at hr; cases hr
        · cases qp with
          | none => cases hp
          | some q =>
            simp only [hqp q rfl, ne_eq, not_true_eq_false, if_false] at hp
            cases hp
    obtain ⟨e, hp⟩ := hprelude
    have hloop : emitLoop SelectMinPK AppendFieldData maxOutputSize e.valid e.reduceStopForBest
        e.realLimit e.numFields e.loopEnd.toNat e.state = .ok ret := by
      unfold reduceRetrieveResults at h
      rw [hp] at h
      exact h
    obtain ⟨hc, hend⟩ := reducePrelude_ok_unlimited hqp hp
    have hv := reducePrelude_ok_valid hp
    have hrem : remainingKeys e.valid e.state.cursors
        = ((validRetrieveResults retrieveResults).map (fun r => r.Ids)).flatten := by
      simp only [EmitStart.state, hc, hv, remainingKeys_replicate_zero]
    refine emitLoop_SelectMinPK_exhausts AppendFieldData maxOutputSize e.valid
      e.reduceStopForBest e.realLimit e.numFields e.loopEnd.toNat e.state ret
      (by simp [EmitStart.state]) ?_ hloop k (Or.inl (hrem ▸ hmem))
    rw [hrem, hend, ← sumOfSizes_eq_length]
    simp

/-- With a limit set, early stop not requested and ascending shard results, the
keys of a returned result are strictly ascending and are those found among
the rows of the merge after the offset and within the limit; with pairwise
distinct keys they are exactly those rows. -/
theorem reduceRetrieveResults_SelectMinPK_window (AppendFieldData : List F → Nat → Int)
    (maxOutputSize : Int) (retrieveResults : List (Option (RetrieveResults K F)))
    (l o : Int) (hl : l ≠ Unlimited)
    (hsorted : ∀ r, some r ∈ retrieveResults → r.Ids.Sorted (· ≤ ·)) :
    reduceRetrieveResults SelectMinPK AppendFieldData maxOutputSize retrieveResults
        (some ⟨l, o, false⟩) = .exceedMaxOutputSize maxOutputSize
      ∨ ∃ (ret : QueryResults K F) (ks : List K),
          reduceRetrieveResults SelectMinPK AppendFieldData maxOutputSize retrieveResults
            (some ⟨l, o, false⟩) = .ok ret ∧
          ret.pks = ks.map some ∧ ks.Sorted (· < ·) ∧
          (∀ k, k ∈ ks ↔ k ∈ ((mergedKeys retrieveResults).drop o.toNat).take l.toNat) ∧
          ((allKeys retrieveResults).Nodup →
            ks = ((mergedKeys retrieveResults).drop o.toNat).take l.toNat ∧
            ks.length = min l.toNat ((allKeys retrieveResults).length - o.toNat)) := by
  rcases reduceRetrieveResults_SelectMinPK_ascending AppendFieldData maxOutputSize retrieveResults
    (some ⟨l, o, false⟩) hsorted with h | ⟨ret, ks, h, hks, hasc⟩
  · exact Or.inl h
  · have hmem : ∀ k, k ∈ ks ↔ k ∈ ((mergedKeys retrieveResults).drop o.toNat).take l.toNat := by
      intro k
      have hk : k ∈ ks ↔ some k ∈ ret.pks := by
        rw [hks, List.mem_map]
        constructor
        · intro hk; exact ⟨k, hk, rfl⟩
        · rintro ⟨k', hk', heq⟩; cases heq; exact hk'
      rw [hk]
      rcases reducePrelude_limit retrieveResults l o hl hsorted with
        ⟨numFields, hp, hdrop⟩ | ⟨e, hp, hend, hrem⟩
      · unfold reduceRetrieveResults at h
        rw [hp] at h
        cases h
        simp [QueryResults.pks, hdrop]
      · have hloop : emitLoop SelectMinPK AppendFieldData maxOutputSize e.valid
            e.reduceStopForBest e.realLimit e.numFields e.loopEnd.toNat e.state = .ok ret := by
          unfold reduceRetrieveResults at h
          rw [hp] at h
          exact h
        have hs : ∀ r ∈ e.valid, r.Ids.Sorted (· ≤ ·) := by
          rw [reducePrelude_ok_valid hp]
          exact fun r hr => hsorted r (mem_validRetrieveResults hr)
        have := emitLoop_SelectMinPK_mem AppendFieldData maxOutputSize e.reduceStopForBest
          e.realLimit e.numFields hs e.loopEnd.toNat e.state ret (by simp [EmitStart.state])
          hloop k
        rw [this]
        simp [EmitStart.state, hrem, hend]
    refine Or.inr ⟨ret, ks, h, hks, hasc, hmem, ?_⟩
    intro hnd
    have hmnd : (mergedKeys retrieveResults).Nodup :=
      (List.perm_insertionSort _ _).nodup_iff.mpr hnd
    have hwnd : (((mergedKeys retrieveResults).drop o.toNat).take l.toNat).Nodup :=
      List.Nodup.sublist ((List.take_sublist _ _).trans (List.drop_sublist _ _)) hmnd
    have hws : (((mergedKeys retrieveResults).drop o.toNat).take l.toNat).Sorted (· ≤ ·) :=
      List.Pairwise.sublist ((List.take_sublist _ _).trans (List.drop_sublist _ _))
        (List.sorted_insertionSort _ _)
    have heq : ks = ((mergedKeys retrieveResults).drop o.toNat).take l.toNat :=
      List.eq_of_perm_of_sorted (r := (· ≤ ·))
        ((List.perm_ext_iff_of_nodup hasc.nodup hwnd).mpr hmem) hasc.le_of_lt hws
    refine ⟨heq, ?_⟩
    rw [heq, List.length_take, List.length_drop]
    simp [mergedKeys, List.length_insertionSort]

/-- C2 (amended). With a limit `l` set, an offset `o`, early stop not
requested and every shard's id list ascending, the call under the selection
modelled from the spec ends with the quota error or returns rows whose keys
are strictly ascending and are exactly the keys found among rows `o+1` to
`o+l` of the key-ordered merge of all rows of the valid shard results, a key
held by several rows counting once per row; when the keys of all rows are
pairwise distinct, the keys returned are exactly those rows of the merge,
`min(l, max(0, N-o))` of them for `N` rows. -/
theorem reduceRetrieveResults_offset_limit (AppendFieldData : List F → Nat → Int)
    (maxOutputSize : Int) (retrieveResults : List (Option (RetrieveResults K F)))
    (l o : Int) (hl : l ≠ Unlimited)
    (hsorted : ∀ r, some r ∈ retrieveResults → r.Ids.Sorted (· ≤ ·)) :
    reduceRetrieveResults SelectMinPK AppendFieldData maxOutputSize retrieveResults
        (some ⟨l, o, false⟩) = .exceedMaxOutputSize maxOutputSize
      ∨ ∃ (ret : QueryResults K F) (ks : List K),
          reduceRetrieveResults SelectMinPK AppendFieldData maxOutputSize retrieveResults
            (some ⟨l, o, false⟩) = .ok ret ∧
          ret.pks = ks.map some ∧ ks.Sorted (· < ·) ∧
          (∀ k, k ∈ ks ↔ k ∈ ((mergedKeys retrieveResults).drop o.toNat).take l.toNat) ∧
          ((allKeys retrieveResults).Nodup →
            ks = ((mergedKeys retrieveResults).drop o.toNat).take l.toNat ∧
            ks.length = min l.toNat ((allKeys retrieveResults).length - o.toNat)) :=
  reduceRetrieveResults_SelectMinPK_window AppendFieldData maxOutputSize retrieveResults l o hl
    hsorted

end Reduce

/-! ### Concrete merges -/

/-- Counterexample to C2 as stated, on its own scenario: for the shard key
lists `{1,3,5}`, `{2,3,6}`, `{4,5,7}` with `offset = 1`, `limit = 3` (early
stop not requested, quota not reached) the call returns the keys `2, 3`: the
third of the three passes of the emit loop meets the key `3` of the second
shard again and skips it.  The result is not `2, 3, 4`, and its two rows are
not the `min(3, max(0, 7 - 1)) = 3` rows of the claim. -/
theorem reduceRetrieveResults_scenario_two_rows :
    ∃ ret : QueryResults Int Unit,
      reduceRetrieveResults SelectMinPK (fun _ _ => 1) 100
        [some ⟨[1, 3, 5], [()]⟩, some ⟨[2, 3, 6], [()]⟩, some ⟨[4, 5, 7], [()]⟩]
        (some ⟨3, 1, false⟩) = .ok ret
      ∧ ret.pks = [some 2, some 3]
      ∧ ret.pks ≠ [some 2, some 3, some 4]
      ∧ (ret.rows.length : Int) ≠ min 3 (max 0 (7 - 1)) :=
  ⟨⟨1, [⟨⟨[2, 3, 6], [()]⟩, 0⟩, ⟨⟨[1, 3, 5], [()]⟩, 1⟩]⟩, rfl, rfl, by decide, by decide⟩

/-- Witness of C2 (amended): the shard key lists `{1,4}`, `{2,5}`, `{3,6}`
with `offset = 1`, `limit = 3`. -/
theorem reduceRetrieveResults_offset_limit_witness :
    reduceRetrieveResults SelectMinPK (fun _ _ => 1) 100
        [some (⟨[1, 4], [()]⟩ : RetrieveResults Int Unit), some ⟨[2, 5], [()]⟩,
          some ⟨[3, 6], [()]⟩]
        (some ⟨3, 1, false⟩) = .exceedMaxOutputSize 100
      ∨ ∃ (ret : QueryResults Int Unit) (ks : List Int),
          reduceRetrieveResults SelectMinPK (fun _ _ => 1) 100
            [some ⟨[1, 4], [()]⟩, some ⟨[2, 5], [()]⟩, some ⟨[3, 6], [()]⟩]
            (some ⟨3, 1, false⟩) = .ok ret ∧
          ret.pks = ks.map some ∧ ks.Sorted (· < ·) ∧
          (∀ k, k ∈ ks ↔ k ∈ ((mergedKeys
            [some (⟨[1, 4], [()]⟩ : RetrieveResults Int Unit), some ⟨[2, 5], [()]⟩,
              some ⟨[3, 6], [()]⟩]).drop (1 : Int).toNat).take (3 : Int).toNat) ∧
          ((allKeys [some (⟨[1, 4], [()]⟩ : RetrieveResults Int Unit), some ⟨[2, 5], [()]⟩,
              some ⟨[3, 6], [()]⟩]).Nodup →
            ks = ((mergedKeys
              [some (⟨[1, 4], [()]⟩ : RetrieveResults Int Unit), some ⟨[2, 5], [()]⟩,
                some ⟨[3, 6], [()]⟩]).drop (1 : Int).toNat).take (3 : Int).toNat ∧
            ks.length = min (3 : Int).toNat
              ((allKeys [some (⟨[1, 4], [()]⟩ : RetrieveResults Int Unit), some ⟨[2, 5], [()]⟩,
                some ⟨[3, 6], [()]⟩]).length - (1 : Int).toNat)) :=
  reduceRetrieveResults_offset_limit (fun _ _ => 1) 100 _ 3 1 (by decide)
    (by
      intro r hr
      simp only [List.mem_cons, Option.some.injEq, List.mem_singleton, List.not_mem_nil,
        or_false] at hr
      rcases hr with rfl | rfl | rfl <;> decide)

/-- Witness of C5: the shard key lists `{1,3}` and `{3,4}`, query params nil. -/
theorem reduceRetrieveResults_unlimited_each_key_once_witness :
    reduceRetrieveResults SelectMinPK (fun _ _ => 1) 100
        [some (⟨[1, 3], [()]⟩ : RetrieveResults Int Unit), some ⟨[3, 4], [()]⟩] none
        = .exceedMaxOutputSize 100
      ∨ ∃ ret : QueryResults Int Unit,
          reduceRetrieveResults SelectMinPK (fun _ _ => 1) 100
            [some ⟨[1, 3], [()]⟩, some ⟨[3, 4], [()]⟩] none = .ok ret ∧
          ∀ r ∈ validRetrieveResults
              [some (⟨[1, 3], [()]⟩ : RetrieveResults Int Unit), some ⟨[3, 4], [()]⟩],
            ∀ k ∈ r.Ids, ret.occurrences k = 1 :=
  reduceRetrieveResults_unlimited_each_key_once (fun _ _ => 1) 100 _ none
    (by intro q hq; cases hq)

/-- Witness of C6: the shard key lists `{4,5,7}`, `{1,3,5}`, `{2,3,6}`, in
that order, with `limit = 4`. -/
theorem reduceRetrieveResults_strictly_ascending_witness :
    reduceRetrieveResults SelectMinPK (fun _ _ => 1) 100
        [some (⟨[4, 5, 7], [()]⟩ : RetrieveResults Int Unit), some ⟨[1, 3, 5], [()]⟩,
          some ⟨[2, 3, 6], [()]⟩]
        (some ⟨4, 0, false⟩) = .exceedMaxOutputSize 100
      ∨ ∃ (ret : QueryResults Int Unit) (ks : List Int),
          reduceRetrieveResults SelectMinPK (fun _ _ => 1) 100
            [some ⟨[4, 5, 7], [()]⟩, some ⟨[1, 3, 5], [()]⟩, some ⟨[2, 3, 6], [()]⟩]
            (some ⟨4, 0, false⟩) = .ok ret ∧
          ret.pks = ks.map some ∧ ks.Sorted (· < ·) :=
  reduceRetrieveResults_strictly_ascending (fun _ _ => 1) 100 _ (some ⟨4, 0, false⟩)
    (by
      intro r hr
      simp only [List.mem_cons, Option.some.injEq, List.mem_singleton, List.not_mem_nil,
        or_false] at hr
      rcases hr with rfl | rfl | rfl <;> decide)

/-! ## Theorems: the empty and the fully matching request -/

/-- C11. On the empty request, for every schema, the call returns exactly the
ids, in schema order, of the fields whose id is at least `StartOfUserFieldID`
and whose data type is none of `FloatVector`, `BinaryVector`, `Float16Vector`;
for the schema `[pk, vector, scalar]` with ids 100, 101, 102 that is
`[100, 102]`. -/
theorem translateToOutputFieldIDs_empty_request (start : Int) (schema : CollectionSchema) :
    translateToOutputFieldIDs start [] schema
      = .ok ((schema.Fields.filter (fun field =>
          decide (field.FieldID ≥ start ∧ field.DataType ≠ DataType.DataType_FloatVector ∧
            field.DataType ≠ DataType.DataType_BinaryVector ∧
            field.DataType ≠ DataType.DataType_Float16Vector))).map (·.FieldID))
    ∧ translateToOutputFieldIDs 100 [] exampleSchema = .ok [100, 102] := by
  refine ⟨?_, rfl⟩
  simp only [translateToOutputFieldIDs, List.length_nil, if_true, Except.ok.injEq]
  congr 2
  funext field
  rw [Bool.eq_iff_iff]
  simp only [isDefaultOutputField, Bool.and_eq_true, decide_eq_true_eq, bne_iff_ne, ne_eq,
    and_assoc, ge_iff_le]

/-- When every requested name has a field, lines 88-100 succeed with the ids
of the first matches, one per name. -/
theorem resolveOutputFields_all_found (fields : List FieldSchema) :
    ∀ (outputFields : List String),
      (∀ name ∈ outputFields, ∃ field ∈ fields, field.Name = name) →
      resolveOutputFields fields outputFields = .ok (firstMatchIDs fields outputFields) ∧
      (firstMatchIDs fields outputFields).length = outputFields.length := by
  intro outputFields
  induction outputFields with
  | nil => intro _; exact ⟨rfl, rfl⟩
  | cons reqField rest ih =>
    intro hall
    obtain ⟨h1, h2⟩ := ih (fun name hname => hall name (List.mem_cons_of_mem _ hname))
    obtain ⟨field, hmem, hname⟩ := hall reqField (List.mem_cons_self _ _)
    cases hf : fields.find? (fun field => reqField == field.Name) with
    | none =>
      exfalso
      have := List.find?_eq_none.mp hf field hmem
      simp [hname] at this
    | some found =>
      constructor
      · simp only [resolveOutputFields, hf, h1, firstMatchIDs, List.filterMap_cons,
          Option.map_some']
      · simp only [firstMatchIDs] at h2
        simp [firstMatchIDs, hf, h2]

/-- C12. On a non-empty request in which every name matches a schema field,
the call returns the ids of the first schema field matching each requested
name, in request order, followed by the primary-key field id if and only if
that id is not already among them; so the result has `len(outputFields)` or
`len(outputFields) + 1` ids, and when the request already names the primary
key (its id is among the first matches; in particular when the one
primary-key field is the first field of its name and that name is requested)
nothing is appended. -/
theorem translateToOutputFieldIDs_appends_pk (start : Int) (outputFields : List String)
    (schema : CollectionSchema) (hne : outputFields ≠ [])
    (hall : ∀ name ∈ outputFields, ∃ field ∈ schema.Fields, field.Name = name) :
    translateToOutputFieldIDs start outputFields schema
      = .ok (firstMatchIDs schema.Fields outputFields ++
          if pkFieldIDOf schema.Fields ∈ firstMatchIDs schema.Fields outputFields then []
          else [pkFieldIDOf schema.Fields])
    ∧ (firstMatchIDs schema.Fields outputFields).length = outputFields.length
    ∧ (∀ ids, translateToOutputFieldIDs start outputFields schema = .ok ids →
        ids.length = outputFields.length ∨ ids.length = outputFields.length + 1)
    ∧ (pkFieldIDOf schema.Fields ∈ firstMatchIDs schema.Fields outputFields →
        translateToOutputFieldIDs start outputFields schema
          = .ok (firstMatchIDs schema.Fields outputFields))
    ∧ (∀ pk, schema.Fields.filter (·.IsPrimaryKey) = [pk] →
        schema.Fields.find? (fun field => pk.Name == field.Name) = some pk →
        pk.Name ∈ outputFields →
        translateToOutputFieldIDs start outputFields schema
          = .ok (firstMatchIDs schema.Fields outputFields)) := by
  obtain ⟨reqField, rest, rfl⟩ := List.exists_cons_of_ne_nil hne
  obtain ⟨hres, hlen⟩ := resolveOutputFields_all_found schema.Fields (reqField :: rest) hall
  have hmain : translateToOutputFieldIDs start (reqField :: rest) schema
      = .ok (firstMatchIDs schema.Fields (reqField :: rest) ++
          if pkFieldIDOf schema.Fields ∈ firstMatchIDs schema.Fields (reqField :: rest) then []
          else [pkFieldIDOf schema.Fields]) := by
    rw [translateToOutputFieldIDs_cons, hres]
    simp only
    split_ifs <;> simp
  have hin : pkFieldIDOf schema.Fields ∈ firstMatchIDs schema.Fields (reqField :: rest) →
      translateToOutputFieldIDs start (reqField :: rest) schema
        = .ok (firstMatchIDs schema.Fields (reqField :: rest)) := by
    intro hmem
    rw [hmain, if_pos hmem, List.append_nil]
  refine ⟨hmain, hlen, ?_, hin, ?_⟩
  · intro ids hids
    rw [hmain] at hids
    cases hids
    split_ifs
    · exact Or.inl (by simp [hlen])
    · exact Or.inr (by simp [hlen])
  · intro pk hpk hfirst hreq
    apply hin
    rw [pkFieldIDOf_single schema.Fields pk hpk]
    exact List.mem_filterMap.mpr ⟨pk.Name, hreq, by simp [hfirst]⟩

/-- Witness of C12: on `exampleSchema` the request `["scalar", "pk"]`, which
names the primary key, and every name of which has a field. -/
theorem translateToOutputFieldIDs_appends_pk_witness :
    translateToOutputFieldIDs 100 ["scalar", "pk"] exampleSchema
      = .ok (firstMatchIDs exampleSchema.Fields ["scalar", "pk"] ++
          if pkFieldIDOf exampleSchema.Fields ∈ firstMatchIDs exampleSchema.Fields ["scalar", "pk"]
          then [] else [pkFieldIDOf exampleSchema.Fields])
    ∧ (firstMatchIDs exampleSchema.Fields ["scalar", "pk"]).length = ["scalar", "pk"].length
    ∧ (∀ ids, translateToOutputFieldIDs 100 ["scalar", "pk"] exampleSchema = .ok ids →
        ids.length = ["scalar", "pk"].length ∨ ids.length = ["scalar", "pk"].length + 1)
    ∧ (pkFieldIDOf exampleSchema.Fields ∈ firstMatchIDs exampleSchema.Fields ["scalar", "pk"] →
        translateToOutputFieldIDs 100 ["scalar", "pk"] exampleSchema
          = .ok (firstMatchIDs exampleSchema.Fields ["scalar", "pk"]))
    ∧ (∀ pk, exampleSchema.Fields.filter (·.IsPrimaryKey) = [pk] →
        exampleSchema.Fields.find? (fun field => pk.Name == field.Name) = some pk →
        pk.Name ∈ ["scalar", "pk"] →
        translateToOutputFieldIDs 100 ["scalar", "pk"] exampleSchema
          = .ok (firstMatchIDs exampleSchema.Fields ["scalar", "pk"])) :=
  translateToOutputFieldIDs_appends_pk 100 ["scalar", "pk"] exampleSchema (by decide) (by decide)

/-! ## Theorems: the count rule and the query params -/

/-- C13. For every list of output names, `matchCountRule` returns true if and
only if the list has exactly one element and that element, with the
surrounding white space trimmed and lower-cased, equals `count(*)`; a list of
length 0 or at least 2 does not match, and white space inside the token, as
in `count( * )`, does not match, while case and padding, as in `  COUNT(*)`
followed by a tab, do. -/
theorem matchCountRule_iff (lowerNonASCII : Char → Char) (outputs : List String) :
    (matchCountRule lowerNonASCII outputs = true ↔
      ∃ output, outputs = [output] ∧ ToLower lowerNonASCII (TrimSpace output) = "count(*)")
    ∧ (outputs.length = 0 ∨ 2 ≤ outputs.length → matchCountRule lowerNonASCII outputs = false)
    ∧ matchCountRule lowerNonASCII ["count(*)", "count(*)"] = false
    ∧ matchCountRule lowerNonASCII ["count( * )"] = false
    ∧ matchCountRule lowerNonASCII ["  COUNT(*)\t"] = true := by
  refine ⟨?_, ?_, rfl, rfl, rfl⟩
  · constructor
    · intro h
      simp only [matchCountRule, Bool.and_eq_true, decide_eq_true_eq, beq_iff_eq] at h
      obtain ⟨output, rfl⟩ := List.length_eq_one.mp h.1
      exact ⟨output, rfl, h.2⟩
    · rintro ⟨output, rfl, h⟩
      simp [matchCountRule, h]
  · intro h
    have hlen : ¬ outputs.length = 1 := by omega
    simp [matchCountRule, hlen]

/-- A pair with another key does not change what the lookup of a key finds. -/
theorem GetAttrByKeyFromRepeatedKV_insert (key : String) (before after : List KeyValuePair)
    (kv : KeyValuePair) (hkey : kv.Key ≠ key) :
    GetAttrByKeyFromRepeatedKV key (before ++ kv :: after)
      = GetAttrByKeyFromRepeatedKV key (before ++ after) := by
  have hne : (kv.Key == key) = false := by simpa using hkey
  simp only [GetAttrByKeyFromRepeatedKV, List.find?_append, List.find?_cons, hne]

/-- The lookup of a key that no pair has fails. -/
theorem GetAttrByKeyFromRepeatedKV_absent (key : String) (kvs : List KeyValuePair)
    (h : ∀ kv ∈ kvs, kv.Key ≠ key) : GetAttrByKeyFromRepeatedKV key kvs = none := by
  have hnone : kvs.find? (fun kv => kv.Key == key) = none := by
    rw [List.find?_eq_none]
    intro kv hkv
    simpa using h kv hkv
  simp [GetAttrByKeyFromRepeatedKV, hnone]

/-- C19. Limit and offset are both optional: for every key/value list that
has none of the keys `limit`, `offset`, `reduce_stop_for_best` (the empty list
among them), `parseQueryParams` succeeds and returns `limit = Unlimited`,
`offset = 0`, `reduceStopForBest = false`. -/
theorem parseQueryParams_defaults (ParseInt : String → Option Int)
    (validateMaxQueryResultWindow : Int → Int → Option String)
    (queryParamsPair : List KeyValuePair)
    (hnone : ∀ kv ∈ queryParamsPair,
      kv.Key ≠ LimitKey ∧ kv.Key ≠ OffsetKey ∧ kv.Key ≠ ReduceStopForBestKey) :
    parseQueryParams ParseInt validateMaxQueryResultWindow queryParamsPair
        = .ok ⟨Unlimited, 0, false⟩
    ∧ parseQueryParams ParseInt validateMaxQueryResultWindow [] = .ok ⟨Unlimited, 0, false⟩ := by
  have h1 := GetAttrByKeyFromRepeatedKV_absent ReduceStopForBestKey queryParamsPair
    (fun kv hkv => (hnone kv hkv).2.2)
  have h2 := GetAttrByKeyFromRepeatedKV_absent LimitKey queryParamsPair
    (fun kv hkv => (hnone kv hkv).1)
  exact ⟨by simp only [parseQueryParams, h1, h2], rfl⟩

/-- Witness of C19: the list of the one pair `ignore_growing = true`. -/
theorem parseQueryParams_defaults_witness :
    parseQueryParams String.toInt? (fun _ _ => none) [⟨"ignore_growing", "true"⟩]
        = .ok ⟨Unlimited, 0, false⟩
    ∧ parseQueryParams String.toInt? (fun _ _ => none) [] = .ok ⟨Unlimited, 0, false⟩ :=
  parseQueryParams_defaults String.toInt? (fun _ _ => none) [⟨"ignore_growing", "true"⟩]
    (by decide)

/-- C20. Unrecognized keys are ignored: for every key/value list and every
pair whose key is none of `limit`, `offset`, `reduce_stop_for_best`, inserting
the pair at any position leaves the outcome of `parseQueryParams` (the error,
or the returned limit, offset and reduceStopForBest) unchanged. -/
theorem parseQueryParams_ignores_unrecognized (ParseInt : String → Option Int)
    (validateMaxQueryResultWindow : Int → Int → Option String)
    (before after : List KeyValuePair) (kv : KeyValuePair)
    (hkey : kv.Key ≠ LimitKey ∧ kv.Key ≠ OffsetKey ∧ kv.Key ≠ ReduceStopForBestKey) :
    parseQueryParams ParseInt validateMaxQueryResultWindow (before ++ kv :: after)
      = parseQueryParams ParseInt validateMaxQueryResultWindow (before ++ after) := by
  simp only [parseQueryParams,
    GetAttrByKeyFromRepeatedKV_insert ReduceStopForBestKey before after kv hkey.2.2,
    GetAttrByKeyFromRepeatedKV_insert LimitKey before after kv hkey.1,
    GetAttrByKeyFromRepeatedKV_insert OffsetKey before after kv hkey.2.1]

/-- Witness of C20: the pair `nprobe = 7` inserted between `limit = 10` and
`offset = 2`. -/
theorem parseQueryParams_ignores_unrecognized_witness :
    parseQueryParams String.toInt? (fun _ _ => none)
        ([⟨"limit", "10"⟩] ++ ⟨"nprobe", "7"⟩ :: [⟨"offset", "2"⟩])
      = parseQueryParams String.toInt? (fun _ _ => none) ([⟨"limit", "10"⟩] ++ [⟨"offset", "2"⟩]) :=
  parseQueryParams_ignores_unrecognized String.toInt? (fun _ _ => none)
    [⟨"limit", "10"⟩] [⟨"offset", "2"⟩] ⟨"nprobe", "7"⟩ (by decide)

/-! ## Theorems: the pre-execute phase -/

section PreExecutePhase

variable {E : Type}

/-- A sequence returns nil exactly when both parts do. -/
theorem Exec.andThen_eq_done {T : Type} {x : Exec T} {f : T → Exec T} {t' : T} :
    x.andThen f = .done t' ↔ ∃ t1, x = .done t1 ∧ f t1 = .done t' := by
  cases x with
  | done t => simp [Exec.andThen]
  | failed t err => simp [Exec.andThen]
  | panic => simp [Exec.andThen]

/-- A sequence fails exactly when the first part fails or, after it, the
second does. -/
theorem Exec.andThen_eq_failed {T : Type} {x : Exec T} {f : T → Exec T} {t' : T}
    {err : PreExecuteError} :
    x.andThen f = .failed t' err ↔
      x = .failed t' err ∨ ∃ t1, x = .done t1 ∧ f t1 = .failed t' err := by
  cases x with
  | done t => simp [Exec.andThen]
  | failed t err => simp [Exec.andThen]
  | panic => simp [Exec.andThen]

/-- The sum of two values whose sum is in the `int64` range does not wrap. -/
theorem int64Add_eq_add (a b : Int) (hlo : -(2 ^ 63) ≤ a + b) (hhi : a + b < 2 ^ 63) :
    int64Add a b = a + b := by
  unfold int64Add
  norm_num at hlo hhi ⊢
  omega

/-- A successful `parseQueryParams` either found no limit and returns the
defaults for limit and offset, or returns a limit and an offset that the
window validation accepted. -/
theorem parseQueryParams_ok_cases {ParseInt : String → Option Int}
    {validateMaxQueryResultWindow : Int → Int → Option String}
    {queryParamsPair : List KeyValuePair} {qp : queryParams}
    (h : parseQueryParams ParseInt validateMaxQueryResultWindow queryParamsPair = .ok qp) :
    (GetAttrByKeyFromRepeatedKV LimitKey queryParamsPair = none ∧
      qp.limit = Unlimited ∧ qp.offset = 0)
    ∨ (GetAttrByKeyFromRepeatedKV LimitKey queryParamsPair ≠ none ∧
      validateMaxQueryResultWindow qp.offset qp.limit = none) := by
  unfold parseQueryParams at h
  simp only at h
  split at h
  · cases h
  · split at h
    · next hlimit =>
      cases h
      exact Or.inl ⟨hlimit, rfl, rfl⟩
    · next limitStr hlimit =>
      split at h
      · cases h
      · split at h
        · cases h
        · split at h
          · cases h
          · next hvalid =>
            cases h
            exact Or.inr ⟨by simp [hlimit], hvalid⟩

/-- Taking the `ignore_growing` pair out of the query params does not change
what the lookup of another key finds. -/
theorem GetAttrByKeyFromRepeatedKV_eraseP (key : String) (hkey : key ≠ IgnoreGrowingKey)
    (kvs : List KeyValuePair) :
    GetAttrByKeyFromRepeatedKV key (kvs.eraseP (fun kv => kv.Key == IgnoreGrowingKey))
      = GetAttrByKeyFromRepeatedKV key kvs := by
  induction kvs with
  | nil => rfl
  | cons kv kvs ih =>
    by_cases hk : kv.Key = IgnoreGrowingKey
    · have h1 : (kv.Key == IgnoreGrowingKey) = true := by simpa using hk
      have h2 : (kv.Key == key) = false := by
        simp only [beq_eq_false_iff_ne, ne_eq, hk]
        exact fun h => hkey h.symm
      simp only [List.eraseP_cons, h1, GetAttrByKeyFromRepeatedKV, cond_true, List.find?_cons, h2]
    · have h1 : (kv.Key == IgnoreGrowingKey) = false := by simpa using hk
      simp only [GetAttrByKeyFromRepeatedKV] at ih
      simp only [List.eraseP_cons, h1, GetAttrByKeyFromRepeatedKV, cond_false, List.find?_cons]
      cases hfind : (kv.Key == key) with
      | true => rfl
      | false => simpa using ih

end PreExecutePhase

section PreExecuteStages

variable {E : Type}

/-- Lines 242-273 do not panic; they leave the request, the plan, the query
by ids and the partition ids as they are; and they fail with the
partition-key error exactly at line 272. -/
theorem preExecuteCollection_spec (env : Env E) (t : queryTask E) :
    (∃ t', preExecuteCollection env t = .done t' ∧ t'.request = t.request ∧ t'.plan = t.plan ∧
      t'.ids = t.ids ∧
      t'.RetrieveRequest.PartitionIDs = t.RetrieveRequest.PartitionIDs ∧
      t'.RetrieveRequest.SerializedExprPlan = t.RetrieveRequest.SerializedExprPlan ∧
      ¬ ((env.isPartitionKeyMode t.request.DbName t.request.CollectionName).1 = true ∧
        t.request.PartitionNames ≠ []))
    ∨ ∃ t' err, preExecuteCollection env t = .failed t' err ∧ t'.plan = t.plan ∧
        t'.RetrieveRequest.PartitionIDs = t.RetrieveRequest.PartitionIDs ∧
        ((∃ msg, err = .external msg ∧
            (env.validateCollectionName t.request.CollectionName = some msg ∨
             env.GetCollectionID t.request.DbName t.request.CollectionName = .error msg ∨
             (env.isPartitionKeyMode t.request.DbName t.request.CollectionName).2 = some msg))
         ∨ (err = .partitionNamesInPartitionKeyMode ∧
            (env.isPartitionKeyMode t.request.DbName t.request.CollectionName).1 = true ∧
            t.request.PartitionNames ≠ [])) := by
  unfold preExecuteCollection
  simp only
  cases hv : env.validateCollectionName t.request.CollectionName with
  | some msg => exact Or.inr ⟨_, _, rfl, rfl, rfl, Or.inl ⟨msg, rfl, Or.inl rfl⟩⟩
  | none =>
    cases hid : env.GetCollectionID t.request.DbName t.request.CollectionName with
    | error msg => exact Or.inr ⟨_, _, rfl, rfl, rfl, Or.inl ⟨msg, rfl, Or.inr (Or.inl rfl)⟩⟩
    | ok collID =>
      simp only
      cases hm : (env.isPartitionKeyMode t.request.DbName t.request.CollectionName).2 with
      | some msg => exact Or.inr ⟨_, _, rfl, rfl, rfl, Or.inl ⟨msg, rfl, Or.inr (Or.inr rfl)⟩⟩
      | none =>
        simp only
        split_ifs with hcheck
        · refine Or.inr ⟨_, _, rfl, rfl, rfl, Or.inr ⟨rfl, ?_⟩⟩
          simp only [Bool.and_eq_true, bne_iff_ne, ne_eq, List.length_eq_zero] at hcheck
          exact hcheck
        · refine Or.inl ⟨_, rfl, rfl, rfl, rfl, rfl, rfl, ?_⟩
          simp only [Bool.and_eq_true, bne_iff_ne, ne_eq, List.length_eq_zero] at hcheck
          exact hcheck

/-- Lines 275-295 do not panic; they change the request only by taking the
`ignore_growing` pair out of the query params; their errors are not those of
the three checks. -/
theorem preExecuteGrowing_spec (env : Env E) (t : queryTask E) :
    (∃ t', preExecuteGrowing env t = .done t' ∧ t'.plan = t.plan ∧ t'.ids = t.ids ∧
      t'.request.OutputFields = t.request.OutputFields ∧
      t'.RetrieveRequest.PartitionIDs = t.RetrieveRequest.PartitionIDs ∧
      t'.RetrieveRequest.SerializedExprPlan = t.RetrieveRequest.SerializedExprPlan ∧
      (∀ key, key ≠ IgnoreGrowingKey →
        GetAttrByKeyFromRepeatedKV key t'.request.QueryParams
          = GetAttrByKeyFromRepeatedKV key t.request.QueryParams))
    ∨ ∃ t' err, preExecuteGrowing env t = .failed t' err ∧ ¬ err.isCheck := by
  unfold preExecuteGrowing
  cases ht : t.request.PartitionNames.findSome? env.validatePartitionTag with
  | some msg => exact Or.inr ⟨_, _, rfl, by simp [PreExecuteError.isCheck]⟩
  | none =>
    simp only
    cases hf : t.request.QueryParams.find? (fun kv => kv.Key == IgnoreGrowingKey) with
    | none => exact Or.inl ⟨_, rfl, rfl, rfl, rfl, rfl, rfl, fun _ _ => rfl⟩
    | some kv =>
      simp only
      cases hb : ParseBool kv.Value with
      | none => exact Or.inr ⟨_, _, rfl, by simp [PreExecuteError.isCheck]⟩
      | some b =>
        exact Or.inl ⟨_, rfl, rfl, rfl, rfl, rfl, rfl,
          fun key hkey => GetAttrByKeyFromRepeatedKV_eraseP key hkey _⟩

/-- The count branch of `createPlan` (lines 206-212): what it leaves. -/
theorem createPlan_count_spec (env : Env E) (t : queryTask E)
    (hcount : matchCountRule env.lowerNonASCII t.request.OutputFields = true) :
    (∃ plan, createCntPlan env.CreateRetrievePlan t.request.Expr t.schema = .ok plan ∧
      plan.Query.IsCount = true ∧
      createPlan env t = .done { t with plan := some plan, userOutputFields := ["count(*)"] })
    ∨ ∃ msg, createCntPlan env.CreateRetrievePlan t.request.Expr t.schema = .error msg ∧
        createPlan env t
          = .failed { t with plan := none, userOutputFields := ["count(*)"] } (.external msg) := by
  unfold createPlan
  simp only [hcount, if_true]
  cases hc : createCntPlan env.CreateRetrievePlan t.request.Expr t.schema with
  | error msg => exact Or.inr ⟨msg, rfl, rfl⟩
  | ok plan =>
    refine Or.inl ⟨plan, rfl, ?_, rfl⟩
    unfold createCntPlan at hc
    split_ifs at hc
    · cases hc; rfl
    · split at hc
      · cases hc
      · cases hc; rfl

/-- What `createPlan` leaves on success: a plan, the query params and the
limit of the request untouched, and a count plan when the output fields are
the count token. -/
theorem createPlan_done (env : Env E) (t t' : queryTask E) (h : createPlan env t = .done t') :
    ∃ plan, t'.plan = some plan ∧ t'.queryParams = t.queryParams ∧
      t'.RetrieveRequest.Limit = t.RetrieveRequest.Limit ∧
      t'.RetrieveRequest.PartitionIDs = t.RetrieveRequest.PartitionIDs ∧
      t'.RetrieveRequest.SerializedExprPlan = t.RetrieveRequest.SerializedExprPlan ∧
      (matchCountRule env.lowerNonASCII t.request.OutputFields = true →
        plan.Query.IsCount = true) := by
  by_cases hcount : matchCountRule env.lowerNonASCII t.request.OutputFields = true
  · rcases createPlan_count_spec env t hcount with ⟨plan, -, hc, hd⟩ | ⟨msg, -, hf⟩
    · rw [hd] at h
      cases h
      exact ⟨plan, rfl, rfl, rfl, rfl, rfl, fun _ => hc⟩
    · rw [hf] at h
      cases h
  · unfold createPlan at h
    simp only [hcount, Bool.false_eq_true, if_false] at h
    split at h
    · cases h
    · split at h
      · cases h
      · split at h
        · cases h
        · split at h
          · cases h
          · cases h
            exact ⟨_, rfl, rfl, rfl, rfl, rfl, fun hc => absurd hc hcount⟩

/-- The errors of `createPlan` are not those of the three checks. -/
theorem createPlan_failed (env : Env E) (t t' : queryTask E) (err : PreExecuteError)
    (h : createPlan env t = .failed t' err) : ¬ err.isCheck := by
  unfold createPlan at h
  simp only at h
  split_ifs at h
  · split at h
    · cases h; simp [PreExecuteError.isCheck]
    · cases h
  · split at h
    · cases h; simp [PreExecuteError.isCheck]
    · split at h
      · cases h; simp [PreExecuteError.isCheck]
      · split at h
        · cases h
        · split at h
          · cases h; simp [PreExecuteError.isCheck]
          · cases h

end PreExecuteStages

section PreExecuteLater

variable {E : Type}

/-- What lines 297-322 leave on success: the parsed query params, their sum
as the limit of the request and of the plan, and a count plan when the output
fields are the count token; no partition id and no serialized plan yet. -/
theorem preExecutePlan_done (env : Env E) (t t' : queryTask E)
    (h : preExecutePlan env t = .done t') :
    ∃ qp plan,
      parseQueryParams env.ParseInt env.validateMaxQueryResultWindow t.request.QueryParams
        = .ok qp ∧
      t'.queryParams = some qp ∧
      t'.RetrieveRequest.Limit = int64Add qp.limit qp.offset ∧
      t'.plan = some plan ∧ plan.Query.Limit = int64Add qp.limit qp.offset ∧
      t'.RetrieveRequest.PartitionIDs = t.RetrieveRequest.PartitionIDs ∧
      t'.RetrieveRequest.SerializedExprPlan = t.RetrieveRequest.SerializedExprPlan ∧
      (matchCountRule env.lowerNonASCII t.request.OutputFields = true →
        plan.Query.IsCount = true) := by
  unfold preExecutePlan at h
  split at h
  · cases h
  · next qp hqp =>
    simp only at h
    rw [Exec.andThen_eq_done] at h
    obtain ⟨t2, h2, h3⟩ := h
    rw [Exec.andThen_eq_done] at h2
    obtain ⟨t1, h1, hcp⟩ := h2
    obtain ⟨plan, hplan, hq, hl, hp, hs, hc⟩ := createPlan_done env t1 t2 hcp
    rw [hplan] at h3
    simp only [Exec.done.injEq] at h3
    subst h3
    have ht1 : t1.queryParams = some qp ∧
        t1.RetrieveRequest.Limit = int64Add qp.limit qp.offset ∧
        t1.RetrieveRequest.PartitionIDs = t.RetrieveRequest.PartitionIDs ∧
        t1.RetrieveRequest.SerializedExprPlan = t.RetrieveRequest.SerializedExprPlan ∧
        t1.request.OutputFields = t.request.OutputFields := by
      split at h1
      · cases h1; exact ⟨rfl, rfl, rfl, rfl, rfl⟩
      · split at h1
        · cases h1
        · cases h1; exact ⟨rfl, rfl, rfl, rfl, rfl⟩
    obtain ⟨a1, a2, a3, a4, a5⟩ := ht1
    refine ⟨qp, _, hqp, ?_, ?_, rfl, ?_, ?_, ?_, ?_⟩
    · simp only [hq, a1]
    · simp only [hl, a2]
    · simp only [hl, a2]
    · simp only [hp, a3]
    · simp only [hs, a4]
    · intro hm
      exact hc (a5 ▸ hm)

/-- The errors of lines 297-322 are not those of the three checks. -/
theorem preExecutePlan_failed (env : Env E) (t t' : queryTask E) (err : PreExecuteError)
    (h : preExecutePlan env t = .failed t' err) : ¬ err.isCheck := by
  unfold preExecutePlan at h
  split at h
  · cases h; simp [PreExecuteError.isCheck]
  · simp only at h
    rw [Exec.andThen_eq_failed] at h
    rcases h with h | ⟨t2, -, h3⟩
    · rw [Exec.andThen_eq_failed] at h
      rcases h with h | ⟨t1, -, hcp⟩
      · split at h
        · cases h
        · split at h
          · cases h
          · cases h
      · exact createPlan_failed env t1 t' err hcp
    · split at h3
      · cases h3
      · cases h3

/-- Lines 328-345 do not panic and fail only with the error of a
collaborator; they leave the plan, the query params and the limit of the
request as they are. -/
theorem preExecutePartitions_spec (env : Env E) (t : queryTask E) :
    (∃ t', preExecutePartitions env t = .done t' ∧ t'.plan = t.plan ∧
      t'.queryParams = t.queryParams ∧ t'.RetrieveRequest.Limit = t.RetrieveRequest.Limit)
    ∨ ∃ t' err, preExecutePartitions env t = .failed t' err ∧ ¬ err.isCheck := by
  unfold preExecutePartitions
  simp only
  split
  · exact Or.inr ⟨_, _, rfl, by simp [PreExecuteError.isCheck]⟩
  · split
    · exact Or.inr ⟨_, _, rfl, by simp [PreExecuteError.isCheck]⟩
    · exact Or.inl ⟨_, rfl, rfl, rfl, rfl⟩

/-- Lines 347-356: with a count plan and a limit set they fail with the
count-with-pagination error, the task as it stands; in every other case they
fail at most with the error of a collaborator, and leave the plan, the query
params and the limit of the request as they are. -/
theorem preExecuteCount_spec (env : Env E) (t : queryTask E) (qp : queryParams)
    (hqp : t.queryParams = some qp) :
    (planIsCount t.plan = true ∧ qp.limit ≠ Unlimited ∧
      preExecuteCount env t = .failed t .countWithPagination)
    ∨ (¬ (planIsCount t.plan = true ∧ qp.limit ≠ Unlimited) ∧
      ((∃ t', preExecuteCount env t = .done t' ∧ t'.plan = t.plan ∧
          t'.queryParams = t.queryParams ∧
          t'.RetrieveRequest.Limit = t.RetrieveRequest.Limit)
       ∨ ∃ t' err, preExecuteCount env t = .failed t' err ∧ ¬ err.isCheck)) := by
  unfold preExecuteCount
  by_cases hc : planIsCount t.plan = true
  · by_cases hl : qp.limit = Unlimited
    · refine Or.inr ⟨fun h => h.2 hl, ?_⟩
      have hne : (qp.limit != Unlimited) = false := by simp [hl]
      cases hm : (env.Marshal t.plan).2 with
      | some msg =>
        refine Or.inr ⟨{ t with RetrieveRequest := { t.RetrieveRequest with
          IsCount := planIsCount t.plan, SerializedExprPlan := (env.Marshal t.plan).1 } },
          .external msg, ?_, by simp [PreExecuteError.isCheck]⟩
        simp only [hc, if_true, hqp, hne, Bool.false_eq_true, if_false, hm]
      | none =>
        refine Or.inl ⟨{ t with RetrieveRequest := { t.RetrieveRequest with
          IsCount := planIsCount t.plan, SerializedExprPlan := (env.Marshal t.plan).1 } },
          ?_, rfl, rfl, rfl⟩
        simp only [hc, if_true, hqp, hne, Bool.false_eq_true, if_false, hm]
    · refine Or.inl ⟨hc, hl, ?_⟩
      have hne : (qp.limit != Unlimited) = true := by simpa using hl
      simp only [hc, if_true, hqp, hne]
  · refine Or.inr ⟨fun h => hc h.1, ?_⟩
    cases hm : (env.Marshal t.plan).2 with
    | some msg =>
      refine Or.inr ⟨{ t with RetrieveRequest := { t.RetrieveRequest with
        IsCount := planIsCount t.plan, SerializedExprPlan := (env.Marshal t.plan).1 } },
        .external msg, ?_, by simp [PreExecuteError.isCheck]⟩
      simp only [hc, Bool.false_eq_true, if_false, hm]
    | none =>
      refine Or.inl ⟨{ t with RetrieveRequest := { t.RetrieveRequest with
        IsCount := planIsCount t.plan, SerializedExprPlan := (env.Marshal t.plan).1 } },
        ?_, rfl, rfl, rfl⟩
      simp only [hc, Bool.false_eq_true, if_false, hm]

/-- Lines 358-400 do not panic and fail only with the error of a
collaborator; they leave the plan, the query params and the limit of the
request as they are. -/
theorem preExecuteConsistency_spec (env : Env E) (t : queryTask E) :
    (∃ t', preExecuteConsistency env t = .done t' ∧ t'.plan = t.plan ∧
      t'.queryParams = t.queryParams ∧ t'.RetrieveRequest.Limit = t.RetrieveRequest.Limit)
    ∨ ∃ t' err, preExecuteConsistency env t = .failed t' err ∧ ¬ err.isCheck := by
  unfold preExecuteConsistency
  simp only
  split
  · exact Or.inr ⟨_, _, rfl, by simp [PreExecuteError.isCheck]⟩
  · refine Or.inl ⟨_, rfl, ?_, ?_, ?_⟩
    · split <;> split <;> rfl
    · split <;> split <;> rfl
    · split <;> split <;> rfl

end PreExecuteLater

section PreExecuteClaims

variable {E : Type}

/-- What lines 242-322 leave on success: the query params parsed from the
request's query params without the `ignore_growing` pair, their sum as the
limit of the request and of the plan, no partition id and no serialized plan
yet, and a count plan when the output fields are the count token. -/
theorem preExecuteToPlan_done (env : Env E) (t t' : queryTask E)
    (h : preExecuteToPlan env t = .done t') :
    ∃ qp plan params,
      (∀ key, key ≠ IgnoreGrowingKey →
        GetAttrByKeyFromRepeatedKV key params
          = GetAttrByKeyFromRepeatedKV key t.request.QueryParams) ∧
      parseQueryParams env.ParseInt env.validateMaxQueryResultWindow params = .ok qp ∧
      t'.queryParams = some qp ∧
      t'.RetrieveRequest.Limit = int64Add qp.limit qp.offset ∧
      t'.plan = some plan ∧ plan.Query.Limit = int64Add qp.limit qp.offset ∧
      t'.RetrieveRequest.PartitionIDs = t.RetrieveRequest.PartitionIDs ∧
      t'.RetrieveRequest.SerializedExprPlan = t.RetrieveRequest.SerializedExprPlan ∧
      (matchCountRule env.lowerNonASCII t.request.OutputFields = true →
        plan.Query.IsCount = true) := by
  unfold preExecuteToPlan at h
  rw [Exec.andThen_eq_done] at h
  obtain ⟨t2, h12, h3⟩ := h
  rw [Exec.andThen_eq_done] at h12
  obtain ⟨t1, h1, h2⟩ := h12
  rcases preExecuteCollection_spec env t with ⟨u, hu, a1, -, -, a2, a3, -⟩ | ⟨u, err, hu, -⟩
  · rw [hu] at h1
    cases h1
    rcases preExecuteGrowing_spec env t1 with ⟨v, hv, -, -, b1, b2, b3, b4⟩ | ⟨v, err, hv, -⟩
    · rw [hv] at h2
      cases h2
      obtain ⟨qp, plan, c1, c2, c3, c4, c5, c6, c7, c8⟩ := preExecutePlan_done env t2 t' h3
      refine ⟨qp, plan, t2.request.QueryParams, ?_, c1, c2, c3, c4, c5, ?_, ?_, ?_⟩
      · intro key hkey
        rw [b4 key hkey, a1]
      · rw [c6, b2, a2]
      · rw [c7, b3, a3]
      · intro hm
        exact c8 (by rw [b1, a1]; exact hm)
    · rw [hv] at h2
      cases h2
  · rw [hu] at h1
    cases h1

/-- A failure of lines 242-322 happens before any plan is built or partition
id resolved when it is the partition-key error; no other error of the three
checks is possible. -/
theorem preExecuteToPlan_failed (env : Env E) (t t' : queryTask E) (err : PreExecuteError)
    (h : preExecuteToPlan env t = .failed t' err) :
    (err = .partitionNamesInPartitionKeyMode ∧
      preExecuteCollection env t = .failed t' err ∧
      (env.isPartitionKeyMode t.request.DbName t.request.CollectionName).1 = true ∧
      t.request.PartitionNames ≠ [])
    ∨ ¬ err.isCheck := by
  unfold preExecuteToPlan at h
  rw [Exec.andThen_eq_failed] at h
  rcases h with h | ⟨t2, -, h3⟩
  · rw [Exec.andThen_eq_failed] at h
    rcases h with h | ⟨t1, -, h2⟩
    · rcases preExecuteCollection_spec env t with ⟨u, hu, -⟩ | ⟨u, e, hu, -, -, hcase⟩
      · rw [hu] at h
        cases h
      · rw [hu] at h
        cases h
        rcases hcase with ⟨msg, rfl, -⟩ | ⟨rfl, hm, hn⟩
        · exact Or.inr (by simp [PreExecuteError.isCheck])
        · exact Or.inl ⟨rfl, hu, hm, hn⟩
    · rcases preExecuteGrowing_spec env t1 with ⟨v, hv, -⟩ | ⟨v, e, hv, hne⟩
      · rw [hv] at h2
        cases h2
      · rw [hv] at h2
        cases h2
        exact Or.inr hne
  · exact Or.inr (preExecutePlan_failed env t2 t' err h3)

/-- After line 326 `PreExecute` fails with the count-with-pagination error
exactly when the plan is a count plan and a limit is set, and with no other
error of the three checks. -/
theorem preExecuteAfterLimitCheck_failed (env : Env E) (t t' : queryTask E)
    (err : PreExecuteError)
    (h : (((preExecutePartitions env t).andThen (preExecuteCount env)).andThen
      (preExecuteConsistency env)) = .failed t' err) :
    (err = .countWithPagination ∧ planIsCount t.plan = true ∧
      ∃ qp, t.queryParams = some qp ∧ qp.limit ≠ Unlimited)
    ∨ ¬ err.isCheck := by
  rw [Exec.andThen_eq_failed] at h
  rcases h with h | ⟨t6, -, h7⟩
  · rw [Exec.andThen_eq_failed] at h
    rcases h with h | ⟨t5, h5, h6⟩
    · rcases preExecutePartitions_spec env t with ⟨u, hu, -⟩ | ⟨u, e, hu, hne⟩
      · rw [hu] at h
        cases h
      · rw [hu] at h
        cases h
        exact Or.inr hne
    · rcases preExecutePartitions_spec env t with ⟨u, hu, a1, a2, -⟩ | ⟨u, e, hu, -⟩
      · rw [hu] at h5
        cases h5
        cases hq : t5.queryParams with
        | none =>
          unfold preExecuteCount at h6
          simp only [hq] at h6
          split_ifs at h6
          split at h6
          · cases h6
            exact Or.inr (by simp [PreExecuteError.isCheck])
          · cases h6
        | some qp =>
          rcases preExecuteCount_spec env t5 qp hq with ⟨b1, b2, b3⟩ | ⟨-, ⟨v, hv, -⟩ | ⟨v, e, hv, hne⟩⟩
          · rw [b3] at h6
            cases h6
            exact Or.inl ⟨rfl, a1 ▸ b1, qp, a2 ▸ hq, b2⟩
          · rw [hv] at h6
            cases h6
          · rw [hv] at h6
            cases h6
            exact Or.inr hne
      · rw [hu] at h5
        cases h5
  · rcases preExecuteConsistency_spec env t6 with ⟨u, hu, -⟩ | ⟨u, e, hu, hne⟩
    · rw [hu] at h7
      cases h7
    · rw [hu] at h7
      cases h7
      exact Or.inr hne

end PreExecuteClaims

section PreExecuteTheorems

variable {E : Type}

/-- C14. For every request whose output fields satisfy `matchCountRule`,
`createPlan` leaves `userOutputFields` as exactly `["count(*)"]`, whatever the
case or padding of the requested token, and leaves the request and its
`OutputFieldsId` unchanged (no output-field-id resolution); when it succeeds
the task holds a plan with `IsCount = true`, and when the plan compiler fails
the task holds no plan; with an empty filter expression creation succeeds and
the plan has no predicate, as `createCntPlan` returns it. -/
theorem createPlan_count (env : Env E) (t : queryTask E)
    (hcount : matchCountRule env.lowerNonASCII t.request.OutputFields = true) :
    (∃ t', ((createPlan env t = .done t' ∧ ∃ plan, t'.plan = some plan ∧ plan.Query.IsCount = true)
        ∨ (∃ msg, createPlan env t = .failed t' (.external msg) ∧ t'.plan = none ∧
            t.request.Expr ≠ ""))
      ∧ t'.userOutputFields = ["count(*)"]
      ∧ t'.RetrieveRequest = t.RetrieveRequest
      ∧ t'.RetrieveRequest.OutputFieldsId = t.RetrieveRequest.OutputFieldsId
      ∧ t'.request = t.request)
    ∧ (t.request.Expr = "" →
        createPlan env t
          = .done { t with plan := some ⟨⟨none, true, 0⟩, []⟩, userOutputFields := ["count(*)"] })
    ∧ (∀ schema, createCntPlan env.CreateRetrievePlan "" schema = .ok ⟨⟨none, true, 0⟩, []⟩)
    ∧ (∀ expr schema plan, createCntPlan env.CreateRetrievePlan expr schema = .ok plan →
        plan.Query.IsCount = true) := by
  have hcnt : ∀ expr schema plan,
      createCntPlan env.CreateRetrievePlan expr schema = .ok plan → plan.Query.IsCount = true := by
    intro expr schema plan hc
    unfold createCntPlan at hc
    split_ifs at hc
    · cases hc; rfl
    · split at hc
      · cases hc
      · cases hc; rfl
  have hempty : ∀ schema,
      createCntPlan env.CreateRetrievePlan "" schema = .ok ⟨⟨none, true, 0⟩, []⟩ := by
    intro schema
    simp [createCntPlan]
  refine ⟨?_, ?_, hempty, hcnt⟩
  · rcases createPlan_count_spec env t hcount with ⟨plan, -, hc, hd⟩ | ⟨msg, hm, hf⟩
    · exact ⟨_, Or.inl ⟨hd, plan, rfl, hc⟩, rfl, rfl, rfl, rfl⟩
    · refine ⟨_, Or.inr ⟨msg, hf, rfl, ?_⟩, rfl, rfl, rfl, rfl⟩
      intro he
      rw [he, hempty] at hm
      cases hm
  · intro he
    rcases createPlan_count_spec env t hcount with ⟨plan, hp, -, hd⟩ | ⟨msg, hm, -⟩
    · rw [he, hempty] at hp
      cases hp
      exact hd
    · rw [he, hempty] at hm
      cases hm

/-- C17. After every successful `PreExecute` the limit of the request
(`RetrieveRequest.Limit`) and the limit injected into the plan
(`plan.Query.Limit`) both equal the `int64` sum `queryParams.limit +
queryParams.offset`, which is their sum as integers whenever that is in the
`int64` range; and when the query params supply no limit both equal the
`Unlimited` sentinel. -/
theorem PreExecute_limit (env : Env E) (t t' : queryTask E)
    (h : PreExecute env t = .done t') :
    ∃ qp plan, t'.queryParams = some qp ∧ t'.plan = some plan ∧
      t'.RetrieveRequest.Limit = int64Add qp.limit qp.offset ∧
      plan.Query.Limit = int64Add qp.limit qp.offset ∧
      (-(2 ^ 63) ≤ qp.limit + qp.offset → qp.limit + qp.offset < 2 ^ 63 →
        t'.RetrieveRequest.Limit = qp.limit + qp.offset ∧
        plan.Query.Limit = qp.limit + qp.offset) ∧
      (GetAttrByKeyFromRepeatedKV LimitKey t.request.QueryParams = none →
        t'.RetrieveRequest.Limit = Unlimited ∧ plan.Query.Limit = Unlimited) := by
  unfold PreExecute at h
  rw [Exec.andThen_eq_done] at h
  obtain ⟨t6, h6, h7⟩ := h
  rw [Exec.andThen_eq_done] at h6
  obtain ⟨t5, h5, h6⟩ := h6
  rw [Exec.andThen_eq_done] at h5
  obtain ⟨t4, h4, h5⟩ := h5
  rw [Exec.andThen_eq_done] at h4
  obtain ⟨t3, h3, h4⟩ := h4
  obtain ⟨qp, plan, params, hparams, hparse, hq, hl, hp, hpl, -, -, -⟩ :=
    preExecuteToPlan_done env t t3 h3
  have e4 : t4 = t3 := by
    unfold preExecuteLimitCheck at h4
    rw [hp] at h4
    simp only at h4
    split_ifs at h4
    cases h4
    rfl
  subst e4
  have e5 : t5.plan = t4.plan ∧ t5.queryParams = t4.queryParams ∧
      t5.RetrieveRequest.Limit = t4.RetrieveRequest.Limit := by
    rcases preExecutePartitions_spec env t4 with ⟨u, hu, a⟩ | ⟨u, e, hu, -⟩
    · rw [hu] at h5; cases h5; exact a
    · rw [hu] at h5; cases h5
  have e6 : t6.plan = t5.plan ∧ t6.queryParams = t5.queryParams ∧
      t6.RetrieveRequest.Limit = t5.RetrieveRequest.Limit := by
    rcases preExecuteCount_spec env t5 qp (e5.2.1.trans hq) with
      ⟨-, -, hf⟩ | ⟨-, ⟨u, hu, a⟩ | ⟨u, e, hu, -⟩⟩
    · rw [hf] at h6; cases h6
    · rw [hu] at h6; cases h6; exact a
    · rw [hu] at h6; cases h6
  have e7 : t'.plan = t6.plan ∧ t'.queryParams = t6.queryParams ∧
      t'.RetrieveRequest.Limit = t6.RetrieveRequest.Limit := by
    rcases preExecuteConsistency_spec env t6 with ⟨u, hu, a⟩ | ⟨u, e, hu, -⟩
    · rw [hu] at h7; cases h7; exact a
    · rw [hu] at h7; cases h7
  have hq' : t'.queryParams = some qp := by rw [e7.2.1, e6.2.1, e5.2.1, hq]
  have hp' : t'.plan = some plan := by rw [e7.1, e6.1, e5.1, hp]
  have hl' : t'.RetrieveRequest.Limit = int64Add qp.limit qp.offset := by
    rw [e7.2.2, e6.2.2, e5.2.2, hl]
  refine ⟨qp, plan, hq', hp', hl', hpl, ?_, ?_⟩
  · intro hlo hhi
    rw [hl', hpl, int64Add_eq_add _ _ hlo hhi]
    exact ⟨rfl, rfl⟩
  · intro hnone
    have hnone' : GetAttrByKeyFromRepeatedKV LimitKey params = none := by
      rw [hparams LimitKey (by decide), hnone]
    rcases parseQueryParams_ok_cases hparse with ⟨-, h1, h2⟩ | ⟨h1, -⟩
    · rw [hl', hpl, h1, h2]
      exact ⟨by decide, by decide⟩
    · exact absurd hnone' h1

/-- Witness of C17: the task with `limit = 5`, `offset = 2` on `exampleEnv`
succeeds, with the limit 7 in the request and in the plan. -/
theorem PreExecute_limit_witness :
    ∃ (t' : queryTask String) (qp : queryParams) (plan : PlanNode String),
      PreExecute exampleEnv (exampleTask "" ["pk"] [⟨"limit", "5"⟩, ⟨"offset", "2"⟩] [])
        = .done t' ∧
      t'.queryParams = some qp ∧ t'.plan = some plan ∧
      t'.RetrieveRequest.Limit = int64Add qp.limit qp.offset ∧
      plan.Query.Limit = int64Add qp.limit qp.offset ∧
      t'.RetrieveRequest.Limit = 7 :=
  have hrun : ∃ t', PreExecute exampleEnv
      (exampleTask "" ["pk"] [⟨"limit", "5"⟩, ⟨"offset", "2"⟩] []) = .done t' ∧
      t'.RetrieveRequest.Limit = 7 := ⟨_, rfl, rfl⟩
  let ⟨t', h, h7⟩ := hrun
  let ⟨qp, plan, h1, h2, h3, h4, _, _⟩ :=
    PreExecute_limit exampleEnv
      (exampleTask "" ["pk"] [⟨"limit", "5"⟩, ⟨"offset", "2"⟩] []) t' h
  ⟨t', qp, plan, h, h1, h2, h3, h4, h7⟩

/-- Witness of C14: the request for ` Count(*) ` with the empty filter. -/
theorem createPlan_count_witness :
    createPlan exampleEnv (exampleTask "" [" Count(*) "] [] [])
      = .done { exampleTask "" [" Count(*) "] [] [] with
                plan := some ⟨⟨none, true, 0⟩, []⟩, userOutputFields := ["count(*)"] } :=
  (createPlan_count exampleEnv (exampleTask "" [" Count(*) "] [] []) rfl).2.1 rfl

end PreExecuteTheorems

section PreExecuteChecks

variable {E : Type}

/-- C18. For every request on a collection in partition-key mode whose
partition-name list is non-empty, `PreExecute` fails with the task's plan and
partition ids as they were, before any plan is built or partition id
resolved: with the error of an earlier lookup, or, when the collection name
is valid and its id is found, with the partition-key error of line 272; and
with an empty partition-name list no run fails with that error. -/
theorem PreExecute_partition_key_mode (env : Env E) (t : queryTask E)
    (hmode : env.isPartitionKeyMode t.request.DbName t.request.CollectionName = (true, none)) :
    (t.request.PartitionNames ≠ [] →
      ∃ t' err, PreExecute env t = .failed t' err ∧ t'.plan = t.plan ∧
        t'.RetrieveRequest.PartitionIDs = t.RetrieveRequest.PartitionIDs ∧
        preExecuteCollection env t = .failed t' err ∧
        (env.validateCollectionName t.request.CollectionName = none →
          (∃ collID, env.GetCollectionID t.request.DbName t.request.CollectionName = .ok collID) →
          err = .partitionNamesInPartitionKeyMode))
    ∧ (t.request.PartitionNames = [] →
        ∀ t', PreExecute env t ≠ .failed t' .partitionNamesInPartitionKeyMode) := by
  constructor
  · intro hnames
    rcases preExecuteCollection_spec env t with ⟨u, -, -, -, -, -, -, hno⟩ | ⟨u, err, hu, a1, a2, hcase⟩
    · exact absurd ⟨by rw [hmode], hnames⟩ hno
    · refine ⟨u, err, ?_, a1, a2, hu, ?_⟩
      · simp only [PreExecute, preExecuteToPlan, hu, Exec.andThen]
      · intro hv hid
        rcases hcase with ⟨msg, -, h1 | h1 | h1⟩ | ⟨h1, -⟩
        · rw [hv] at h1; cases h1
        · obtain ⟨collID, hid⟩ := hid
          rw [hid] at h1; cases h1
        · rw [hmode] at h1; cases h1
        · exact h1
  · intro hnames t' h
    unfold PreExecute at h
    rw [Exec.andThen_eq_failed] at h
    have key : ∀ (x : Exec (queryTask E)),
        x = (preExecuteToPlan env t).andThen (preExecuteLimitCheck env) →
        x ≠ .failed t' .partitionNamesInPartitionKeyMode ∧
        ∀ t4, x = .done t4 →
          (((preExecutePartitions env t4).andThen (preExecuteCount env)).andThen
            (preExecuteConsistency env)) ≠ .failed t' .partitionNamesInPartitionKeyMode := by
      intro x hx
      constructor
      · intro hf
        rw [hx, Exec.andThen_eq_failed] at hf
        rcases hf with hf | ⟨t3, -, hf⟩
        · rcases preExecuteToPlan_failed env t t' _ hf with ⟨-, -, -, hn⟩ | hne
          · exact hn hnames
          · exact hne (Or.inl rfl)
        · unfold preExecuteLimitCheck at hf
          split at hf
          · cases hf
          · split_ifs at hf
            cases hf
      · intro t4 _ hf
        rcases preExecuteAfterLimitCheck_failed env t4 t' _ hf with ⟨h1, -⟩ | hne
        · cases h1
        · exact hne (Or.inl rfl)
    obtain ⟨k1, k2⟩ := key _ rfl
    rcases h with h | ⟨t6, h6, h7⟩
    · rw [Exec.andThen_eq_failed] at h
      rcases h with h | ⟨t5, h5, h6⟩
      · rw [Exec.andThen_eq_failed] at h
        rcases h with h | ⟨t4, h4, h5⟩
        · exact k1 h
        · refine k2 t4 h4 ?_
          simp only [h5, Exec.andThen]
      · rw [Exec.andThen_eq_done] at h5
        obtain ⟨t4, h4, h5⟩ := h5
        refine k2 t4 h4 ?_
        simp only [h5, h6, Exec.andThen]
    · rw [Exec.andThen_eq_done] at h6
      obtain ⟨t5, h5, h6⟩ := h6
      rw [Exec.andThen_eq_done] at h5
      obtain ⟨t4, h4, h5⟩ := h5
      refine k2 t4 h4 ?_
      simp only [h5, h6, h7, Exec.andThen]

/-- Witness of C18: on `partitionKeyEnv` the request that names the partition
`p1` fails with the partition-key error, no plan built. -/
theorem PreExecute_partition_key_mode_witness :
    ∃ t' err, PreExecute partitionKeyEnv (exampleTask "" ["pk"] [] ["p1"]) = .failed t' err ∧
      t'.plan = none ∧ err = .partitionNamesInPartitionKeyMode :=
  let ⟨t', err, h, hplan, _, _, herr⟩ :=
    (PreExecute_partition_key_mode partitionKeyEnv (exampleTask "" ["pk"] [] ["p1"]) rfl).1
      (by decide)
  ⟨t', err, h, hplan, herr rfl ⟨7, rfl⟩⟩

end PreExecuteChecks

section PreExecutePagination

variable {E : Type}

/-- The check of lines 324-326 is on the sum stored at line 304.  For every
request that passes the steps before line 324, whatever the window
validation: when the compiled plan is the always-true plan and the `int64`
sum of the parsed limit and offset is the `Unlimited` sentinel, `PreExecute`
fails with the empty-expression error, the task as it stands at line 324, no
partition id resolved and no plan serialized; when the sum is not `Unlimited`
or the plan is not always-true, no run fails with that error; and for a
request without the key `limit` the parsed limit and the sum are both
`Unlimited`. -/
theorem PreExecute_empty_expression_sum (env : Env E) (t t4 : queryTask E)
    (hreach : preExecuteToPlan env t = .done t4) :
    ∃ qp plan, t4.queryParams = some qp ∧ t4.plan = some plan ∧
      t4.RetrieveRequest.Limit = int64Add qp.limit qp.offset ∧
      (env.IsAlwaysTruePlan plan = true ∧ int64Add qp.limit qp.offset = Unlimited →
        PreExecute env t = .failed t4 .emptyExpressionWithoutLimit ∧
        t4.RetrieveRequest.PartitionIDs = t.RetrieveRequest.PartitionIDs ∧
        t4.RetrieveRequest.SerializedExprPlan = t.RetrieveRequest.SerializedExprPlan) ∧
      (int64Add qp.limit qp.offset ≠ Unlimited ∨ env.IsAlwaysTruePlan plan = false →
        ∀ t', PreExecute env t ≠ .failed t' .emptyExpressionWithoutLimit) ∧
      (GetAttrByKeyFromRepeatedKV LimitKey t.request.QueryParams = none →
        qp.limit = Unlimited ∧ int64Add qp.limit qp.offset = Unlimited) := by
  obtain ⟨qp, plan, params, hkeys, hparse, hq, hl, hp, -, hpid, hser, -⟩ :=
    preExecuteToPlan_done env t t4 hreach
  refine ⟨qp, plan, hq, hp, hl, ?_, ?_, ?_⟩
  · rintro ⟨htrue, hsum⟩
    refine ⟨?_, hpid, hser⟩
    have hL : t4.RetrieveRequest.Limit = Unlimited := by rw [hl, hsum]
    simp only [PreExecute, hreach, Exec.andThen, preExecuteLimitCheck, hp, htrue, hL,
      beq_self_eq_true, Bool.and_self, if_true]
  · intro hcase t' hfail
    have hcheck : preExecuteLimitCheck env t4 = .done t4 := by
      have hcond : (env.IsAlwaysTruePlan plan && t4.RetrieveRequest.Limit == Unlimited) = false := by
        rcases hcase with hne | hfalse
        · have : ¬ t4.RetrieveRequest.Limit = Unlimited := fun h => hne (by rw [← hl, h])
          simp [this]
        · simp [hfalse]
      simp only [preExecuteLimitCheck, hp, hcond, Bool.false_eq_true, if_false]
    have hrest : (((preExecutePartitions env t4).andThen (preExecuteCount env)).andThen
        (preExecuteConsistency env)) = .failed t' .emptyExpressionWithoutLimit := by
      simpa only [PreExecute, hreach, Exec.andThen, hcheck] using hfail
    rcases preExecuteAfterLimitCheck_failed env t4 t' _ hrest with ⟨h1, -⟩ | hne
    · cases h1
    · exact hne (Or.inr (Or.inl rfl))
  · intro hnone
    rcases parseQueryParams_ok_cases hparse with ⟨-, h1, h2⟩ | ⟨hsome, -⟩
    · rw [h1, h2]
      exact ⟨rfl, by decide⟩
    · rw [hkeys LimitKey (by decide)] at hsome
      exact absurd hnone hsome

/-- The same check under a window validation that accepts only a positive
limit and a positive sum `limit + offset`, for every request that passes the
steps before line 324: the limit of the request is the `Unlimited` sentinel
exactly when the parsed limit is; if the compiled plan is the always-true
plan and the parsed limit is `Unlimited`, `PreExecute` fails with the
empty-expression error, the task as it stands at line 324, no partition id
resolved and no plan serialized; and when a limit is set or the plan is not
always-true, no run fails with that error. -/
theorem PreExecute_empty_expression_check (env : Env E) (t t4 : queryTask E)
    (hwindow : ∀ offset limit, env.validateMaxQueryResultWindow offset limit = none →
      0 < limit ∧ 0 < int64Add limit offset)
    (hreach : preExecuteToPlan env t = .done t4) :
    ∃ qp plan, t4.queryParams = some qp ∧ t4.plan = some plan ∧
      (t4.RetrieveRequest.Limit = Unlimited ↔ qp.limit = Unlimited) ∧
      (env.IsAlwaysTruePlan plan = true ∧ qp.limit = Unlimited →
        PreExecute env t = .failed t4 .emptyExpressionWithoutLimit ∧
        t4.RetrieveRequest.PartitionIDs = t.RetrieveRequest.PartitionIDs ∧
        t4.RetrieveRequest.SerializedExprPlan = t.RetrieveRequest.SerializedExprPlan) ∧
      (qp.limit ≠ Unlimited ∨ env.IsAlwaysTruePlan plan = false →
        ∀ t', PreExecute env t ≠ .failed t' .emptyExpressionWithoutLimit) := by
  obtain ⟨qp, plan, params, -, hparse, hq, hl, hp, -, hpid, hser, -⟩ :=
    preExecuteToPlan_done env t t4 hreach
  have hiff : t4.RetrieveRequest.Limit = Unlimited ↔ qp.limit = Unlimited := by
    rw [hl]
    rcases parseQueryParams_ok_cases hparse with ⟨-, h1, h2⟩ | ⟨-, hv⟩
    · rw [h1, h2]
      exact ⟨fun _ => rfl, fun _ => by decide⟩
    · obtain ⟨w1, w2⟩ := hwindow _ _ hv
      constructor
      · intro h
        rw [h] at w2
        exact absurd w2 (by decide)
      · intro h
        rw [h] at w1
        exact absurd w1 (by decide)
  refine ⟨qp, plan, hq, hp, hiff, ?_, ?_⟩
  · rintro ⟨htrue, hlim⟩
    refine ⟨?_, hpid, hser⟩
    have hL : t4.RetrieveRequest.Limit = Unlimited := hiff.mpr hlim
    simp only [PreExecute, hreach, Exec.andThen, preExecuteLimitCheck, hp, htrue, hL,
      beq_self_eq_true, Bool.and_self, if_true]
  · intro hcase t' hfail
    have hcheck : preExecuteLimitCheck env t4 = .done t4 := by
      have hcond : (env.IsAlwaysTruePlan plan && t4.RetrieveRequest.Limit == Unlimited) = false := by
        rcases hcase with hne | hfalse
        · have : ¬ t4.RetrieveRequest.Limit = Unlimited := fun h => hne (hiff.mp h)
          simp [this]
        · simp [hfalse]
      simp only [preExecuteLimitCheck, hp, hcond, Bool.false_eq_true, if_false]
    have hrest : (((preExecutePartitions env t4).andThen (preExecuteCount env)).andThen
        (preExecuteConsistency env)) = .failed t' .emptyExpressionWithoutLimit := by
      simpa only [PreExecute, hreach, Exec.andThen, hcheck] using hfail
    rcases preExecuteAfterLimitCheck_failed env t4 t' _ hrest with ⟨h1, -⟩ | hne
    · cases h1
    · exact hne (Or.inr (Or.inl rfl))

/-- The window validation of the concrete runs accepts only a positive limit
and a positive sum. -/
theorem exampleWindow_accepts (offset limit : Int) (h : exampleWindow offset limit = none) :
    0 < limit ∧ 0 < int64Add limit offset := by
  unfold exampleWindow at h
  split_ifs at h with h1 h2 h3
  exact ⟨by omega, by omega⟩

/-- A concrete run of the check: the request without filter and without limit
on `exampleEnv` fails with the empty-expression error. -/
theorem PreExecute_empty_expression_check_witness :
    ∃ t4, PreExecute exampleEnv (exampleTask "" ["pk"] [] [])
      = .failed t4 .emptyExpressionWithoutLimit := by
  obtain ⟨t4, h4, hq4, hp4⟩ : ∃ t4,
      preExecuteToPlan exampleEnv (exampleTask "" ["pk"] [] []) = .done t4 ∧
      t4.queryParams = some ⟨Unlimited, 0, false⟩ ∧
      t4.plan = some ⟨⟨none, false, -1⟩, [100, 1]⟩ := ⟨_, rfl, rfl, rfl⟩
  obtain ⟨qp, plan, hq, hp, -, hfail, -⟩ :=
    PreExecute_empty_expression_check exampleEnv (exampleTask "" ["pk"] [] []) t4
      exampleWindow_accepts h4
  rw [hq4] at hq
  rw [hp4] at hp
  cases hq
  cases hp
  exact ⟨t4, (hfail ⟨rfl, rfl⟩).1⟩

/-- The two tests without a condition on the window validation: on
`exampleEnv` with a validation that accepts every pair, the request without
filter with `limit = 5` and `offset = -6` fails with the empty-expression
error although its parsed limit is set, and the request with `limit = -1` and
`offset = 3` passes all of `PreExecute` although its parsed limit is the
`Unlimited` sentinel. -/
theorem PreExecute_empty_expression_any_window :
    (∃ t4, PreExecute { exampleEnv with validateMaxQueryResultWindow := fun _ _ => none }
        (exampleTask "" ["pk"] [⟨"limit", "5"⟩, ⟨"offset", "-6"⟩] [])
        = .failed t4 .emptyExpressionWithoutLimit
      ∧ t4.queryParams = some ⟨5, -6, false⟩)
    ∧ (∃ t5, PreExecute { exampleEnv with validateMaxQueryResultWindow := fun _ _ => none }
        (exampleTask "" ["pk"] [⟨"limit", "-1"⟩, ⟨"offset", "3"⟩] []) = .done t5
      ∧ t5.queryParams = some ⟨Unlimited, 3, false⟩) :=
  ⟨⟨_, rfl, rfl⟩, ⟨_, rfl, rfl⟩⟩

/-- C15 (amended). For every request whose output fields are the count token
and that passes the steps before line 347: if the parsed limit is set (the
query params carry a limit other than the `Unlimited` sentinel) `PreExecute`
fails with the count-with-pagination error; if it is not set, no run fails
with that error; and when the query params carry no limit,
`parseQueryParams` ignores an offset and the limit is not set. -/
theorem PreExecute_count_with_pagination (env : Env E) (t t5 : queryTask E)
    (hcount : matchCountRule env.lowerNonASCII t.request.OutputFields = true)
    (hreach : ((preExecuteToPlan env t).andThen (preExecuteLimitCheck env)).andThen
      (preExecutePartitions env) = .done t5) :
    ∃ qp, t5.queryParams = some qp ∧
      (qp.limit ≠ Unlimited → PreExecute env t = .failed t5 .countWithPagination) ∧
      (qp.limit = Unlimited → ∀ t', PreExecute env t ≠ .failed t' .countWithPagination) ∧
      (GetAttrByKeyFromRepeatedKV LimitKey t.request.QueryParams = none →
        qp.limit = Unlimited ∧ qp.offset = 0) := by
  have hreach' := hreach
  rw [Exec.andThen_eq_done] at hreach
  obtain ⟨t4, h4, h5⟩ := hreach
  rw [Exec.andThen_eq_done] at h4
  obtain ⟨t3, h3, h4⟩ := h4
  obtain ⟨qp, plan, params, hparams, hparse, hq, -, hp, -, -, -, hisCount⟩ :=
    preExecuteToPlan_done env t t3 h3
  have e4 : t4 = t3 := by
    unfold preExecuteLimitCheck at h4
    rw [hp] at h4
    simp only at h4
    split_ifs at h4
    cases h4
    rfl
  subst e4
  have e5 : t5.plan = t4.plan ∧ t5.queryParams = t4.queryParams := by
    rcases preExecutePartitions_spec env t4 with ⟨u, hu, a1, a2, -⟩ | ⟨u, e, hu, -⟩
    · rw [hu] at h5; cases h5; exact ⟨a1, a2⟩
    · rw [hu] at h5; cases h5
  have hq5 : t5.queryParams = some qp := by rw [e5.2, hq]
  have hc5 : planIsCount t5.plan = true := by
    rw [e5.1, hp]
    exact hisCount hcount
  have hpre : PreExecute env t = (preExecuteCount env t5).andThen (preExecuteConsistency env) := by
    unfold PreExecute
    rw [hreach']
    rfl
  refine ⟨qp, hq5, ?_, ?_, ?_⟩
  · intro hne
    rcases preExecuteCount_spec env t5 qp hq5 with ⟨-, -, hf⟩ | ⟨hno, -⟩
    · rw [hpre, hf]
      rfl
    · exact absurd ⟨hc5, hne⟩ hno
  · intro hlim t' hfail
    rw [hpre, Exec.andThen_eq_failed] at hfail
    rcases preExecuteCount_spec env t5 qp hq5 with ⟨-, hne, -⟩ | ⟨-, ⟨u, hu, -⟩ | ⟨u, e, hu, hnc⟩⟩
    · exact hne hlim
    · rcases hfail with hfail | ⟨t6, h6, h7⟩
      · rw [hu] at hfail; cases hfail
      · rcases preExecuteConsistency_spec env t6 with ⟨v, hv, -⟩ | ⟨v, e, hv, hnc⟩
        · rw [hv] at h7; cases h7
        · rw [hv] at h7; cases h7
          exact hnc (Or.inr (Or.inr rfl))
    · rcases hfail with hfail | ⟨t6, h6, h7⟩
      · rw [hu] at hfail; cases hfail
        exact hnc (Or.inr (Or.inr rfl))
      · rw [hu] at h6; cases h6
  · intro hnone
    have hnone' : GetAttrByKeyFromRepeatedKV LimitKey params = none := by
      rw [hparams LimitKey (by decide), hnone]
    rcases parseQueryParams_ok_cases hparse with ⟨-, h1, h2⟩ | ⟨h1, -⟩
    · exact ⟨h1, h2⟩
    · exact absurd hnone' h1

/-- Counterexample to C15 as stated: on `exampleEnv` the request for
`count(*)` with the filter `pk > 0` and the one query param `offset = 5`, a
non-zero offset and no limit, passes `PreExecute`: `parseQueryParams` returns
at line 149 without reading the offset, the limit stays `Unlimited`, and the
check of line 348 lets the request through. -/
theorem PreExecute_count_with_offset_only :
    matchCountRule exampleEnv.lowerNonASCII ["count(*)"] = true
    ∧ GetAttrByKeyFromRepeatedKV OffsetKey [⟨"offset", "5"⟩] = some "5"
    ∧ exampleEnv.ParseInt "5" = some 5
    ∧ ∃ t', PreExecute exampleEnv (exampleTask "pk > 0" ["count(*)"] [⟨"offset", "5"⟩] [])
        = .done t' ∧ t'.RetrieveRequest.IsCount = true ∧
        t'.queryParams = some ⟨Unlimited, 0, false⟩ :=
  ⟨rfl, rfl, rfl, _, rfl, rfl, rfl⟩

/-- Witness of C15 (amended): the request for `count(*)` with `limit = 5` on
`exampleEnv` fails with the count-with-pagination error. -/
theorem PreExecute_count_with_pagination_witness :
    ∃ t5, PreExecute exampleEnv (exampleTask "pk > 0" ["count(*)"] [⟨"limit", "5"⟩] [])
      = .failed t5 .countWithPagination := by
  obtain ⟨t5, h5, hq5⟩ : ∃ t5,
      ((preExecuteToPlan exampleEnv
          (exampleTask "pk > 0" ["count(*)"] [⟨"limit", "5"⟩] [])).andThen
        (preExecuteLimitCheck exampleEnv)).andThen (preExecutePartitions exampleEnv)
        = .done t5 ∧
      t5.queryParams = some ⟨5, 0, false⟩ := ⟨_, rfl, rfl⟩
  obtain ⟨qp, hq, hfail, -, -⟩ :=
    PreExecute_count_with_pagination exampleEnv
      (exampleTask "pk > 0" ["count(*)"] [⟨"limit", "5"⟩] []) t5 rfl h5
  rw [hq5] at hq
  cases hq
  exact ⟨t5, hfail (by decide)⟩

end PreExecutePagination

/-! ## Theorems: the package merr -/

/-- The innermost error of a typed error under message wrappers is the typed
error. -/
theorem errors.Cause_wraps (e : milvusError) (msgs : List String) :
    errors.Cause (msgs.foldr GoError.wrap (.milvus e)) = .milvus e := by
  induction msgs with
  | nil => rfl
  | cons msg msgs ih => simpa [errors.Cause] using ih

/-- The innermost error of a chain is not a wrapper. -/
theorem errors.Cause_ne_wrap (err : GoError) (msg : String) (cause : GoError) :
    errors.Cause err ≠ .wrap msg cause := by
  induction err with
  | wrap m c ih => simpa [errors.Cause] using ih
  | milvus e => simp [errors.Cause]
  | Canceled => simp [errors.Cause]
  | DeadlineExceeded => simp [errors.Cause]
  | other m => simp [errors.Cause]

/-- The code of an error by its innermost error. -/
theorem merr.Code_some (s : Sentinels) (err : GoError) :
    merr.Code s (some err) =
      match errors.Cause err with
      | .milvus cause => cause.code
      | .Canceled => s.CanceledCode
      | .DeadlineExceeded => s.TimeoutCode
      | _ => s.errUnexpected.code := by
  unfold merr.Code
  simp only
  cases h : errors.Cause err with
  | milvus e => rfl
  | Canceled => simp [errors.Is]
  | DeadlineExceeded => simp [errors.Is]
  | other m => simp [errors.Is]
  | wrap m c => exact absurd h (errors.Cause_ne_wrap err m c)

/-- C23. `Code(nil)` is 0.  For every error whose innermost error is a typed
`milvusError`, the code is that error's code, in particular for a typed error
under any number of message wrappers.  For every other error the code is
`CanceledCode` when the innermost error is `context.Canceled`, `TimeoutCode`
when it is `context.DeadlineExceeded`, and the code of `errUnexpected` in
every remaining case. -/
theorem merr_Code_classification (s : Sentinels) :
    merr.Code s none = 0
    ∧ (∀ (err : GoError) (e : milvusError), errors.Cause err = .milvus e →
        merr.Code s (some err) = e.code)
    ∧ (∀ (e : milvusError) (msgs : List String),
        merr.Code s (some (msgs.foldr GoError.wrap (.milvus e))) = e.code)
    ∧ (∀ err : GoError, (∀ e, errors.Cause err ≠ .milvus e) →
        merr.Code s (some err) =
          if errors.Cause err = .Canceled then s.CanceledCode
          else if errors.Cause err = .DeadlineExceeded then s.TimeoutCode
          else s.errUnexpected.code) := by
  refine ⟨rfl, ?_, ?_, ?_⟩
  · intro err e h
    rw [merr.Code_some, h]
  · intro e msgs
    rw [merr.Code_some, errors.Cause_wraps]
  · intro err hne
    rw [merr.Code_some]
    cases h : errors.Cause err with
    | milvus e => exact absurd h (hne e)
    | Canceled => simp
    | DeadlineExceeded => simp
    | other m => simp
    | wrap m c => exact absurd h (errors.Cause_ne_wrap err m c)

/-- C24. `Status(nil)` is a success status: its `Code` is 0, its `ErrorCode`
is `Success`, `Ok` holds of it and `Error` of it is nil.  For every non-nil
error, `Status(err)` has `Code = Code(err)`, `ErrorCode = oldCode(Code(err))`
and `Detail = err.Error()`. -/
theorem merr_Status_of_error (s : Sentinels) :
    (merr.Status s none).Code = 0
    ∧ (merr.Status s none).ErrorCode = ErrorCode.ErrorCode_Success
    ∧ merr.Ok (some (merr.Status s none)) = true
    ∧ merr.Error s (some (merr.Status s none)) = none
    ∧ ∀ err : GoError,
        (merr.Status s (some err)).Code = merr.Code s (some err) ∧
        (merr.Status s (some err)).ErrorCode = merr.oldCode s (merr.Code s (some err)) ∧
        (merr.Status s (some err)).Detail = err.Error :=
  ⟨rfl, rfl, rfl, rfl, fun _ => ⟨rfl, rfl, rfl⟩⟩

/-- C25. For every status pointer, nil included, `Error(status)` is nil
exactly when `Ok(status)` holds, which is exactly when the legacy `ErrorCode`
is `Success` and the `Code` is 0; so a status with `ErrorCode = Success` and a
non-zero `Code`, or with `Code = 0` and another `ErrorCode`, gives a non-nil
error, and the nil status gives nil. -/
theorem merr_Error_nil_iff_Ok (s : Sentinels) :
    (∀ status : Option commonpb.Status,
      (merr.Error s status = none ↔ merr.Ok status = true) ∧
      (merr.Ok status = true ↔
        GetErrorCode status = ErrorCode.ErrorCode_Success ∧ GetCode status = 0))
    ∧ merr.Error s none = none
    ∧ (∀ st : commonpb.Status, st.ErrorCode = ErrorCode.ErrorCode_Success → st.Code ≠ 0 →
        merr.Error s (some st) ≠ none)
    ∧ (∀ st : commonpb.Status, st.Code = 0 → st.ErrorCode ≠ ErrorCode.ErrorCode_Success →
        merr.Error s (some st) ≠ none) := by
  have hok : ∀ status : Option commonpb.Status, merr.Ok status = true ↔
      GetErrorCode status = ErrorCode.ErrorCode_Success ∧ GetCode status = 0 := by
    intro status
    simp [merr.Ok]
  have herr : ∀ status : Option commonpb.Status,
      merr.Error s status = none ↔ merr.Ok status = true := by
    intro status
    unfold merr.Error
    by_cases h : merr.Ok status = true
    · simp [h]
    · simp only [h, Bool.false_eq_true, if_false, iff_false]
      split_ifs <;> simp
  refine ⟨fun status => ⟨herr status, hok status⟩, rfl, ?_, ?_⟩
  · intro st h1 h2 h
    have := (hok (some st)).mp ((herr (some st)).mp h)
    exact h2 this.2
  · intro st h1 h2 h
    have := (hok (some st)).mp ((herr (some st)).mp h)
    exact h2 this.1

/-- The error of `WrapErrServiceNotReady` without further messages is a typed
error with the code of `ErrServiceNotReady`. -/
theorem WrapErrServiceNotReady_code (s : Sentinels) (role : String) (sessionID : Int)
    (state : String) :
    merr.Code s (some (WrapErrServiceNotReady s role sessionID state []))
      = s.ErrServiceNotReady.code := by
  simp [WrapErrServiceNotReady, wrapFieldsWithDesc, merr.Code, errors.Cause, milvusError.code]

/-- C26. For every state code, `CheckHealthy` returns nil exactly when the
state is `Healthy`, `CheckHealthyStandby` returns nil exactly when the state
is `Healthy` or `StandBy`, and every error that either returns has the code of
`ErrServiceNotReady` under `Code`. -/
theorem merr_CheckHealthy_iff (s : Sentinels) (role : String) (nodeID : Int) (state : StateCode) :
    (merr.CheckHealthy s role nodeID state = none ↔ state = StateCode.StateCode_Healthy)
    ∧ (merr.CheckHealthyStandby s role nodeID state = none ↔
        (state = StateCode.StateCode_Healthy ∨ state = StateCode.StateCode_StandBy))
    ∧ (∀ err, merr.CheckHealthy s role nodeID state = some err →
        merr.Code s (some err) = s.ErrServiceNotReady.code)
    ∧ (∀ err, merr.CheckHealthyStandby s role nodeID state = some err →
        merr.Code s (some err) = s.ErrServiceNotReady.code) := by
  refine ⟨?_, ?_, ?_, ?_⟩
  · unfold merr.CheckHealthy
    split_ifs with h
    · simp [h]
    · simp only [true_iff]
      exact not_not.mp h
  · unfold merr.CheckHealthyStandby
    split_ifs with h
    · simp only [reduceCtorEq, false_iff, not_or]
      exact h
    · simp only [true_iff]
      by_contra hc
      exact h ⟨fun h1 => hc (Or.inl h1), fun h2 => hc (Or.inr h2)⟩
  · intro err h
    unfold merr.CheckHealthy at h
    split_ifs at h
    cases h
    exact WrapErrServiceNotReady_code s role nodeID _
  · intro err h
    unfold merr.CheckHealthyStandby at h
    split_ifs at h
    cases h
    exact WrapErrServiceNotReady_code s role nodeID _

/-! ## Theorems: the shard call -/

section ShardCall

variable {E K F C : Type}

/-- The status of a response pointer that is not nil. -/
theorem bind_Status_some (result : ShardResult K F C) :
    (some result).bind (fun r => r.Status) = result.Status := rfl

/-- A transport error: the shard cache is deprecated, the error is returned,
the result buffer and the cost metrics stay. -/
theorem queryShard_transport_error
    (Query : querypb.QueryRequest → Except GoError (Option (ShardResult K F C)))
    (t : queryTask E) (nodeID : Int) (channelIDs : List String) (w : ShardEffects K F C)
    (err : GoError) (hquery : Query (shardRequest t nodeID channelIDs) = .error err) :
    queryShard Query t nodeID channelIDs w
      = ({ w with DeprecateShardCache :=
            w.DeprecateShardCache ++ [(t.request.DbName, t.collectionName)] },
         .returned (some (.transport err))) := by
  simp only [queryShard, hquery]

/-- A response whose status is `NotShardLeader`. -/
theorem queryShard_not_leader
    (Query : querypb.QueryRequest → Except GoError (Option (ShardResult K F C)))
    (t : queryTask E) (nodeID : Int) (channelIDs : List String) (w : ShardEffects K F C)
    (result : ShardResult K F C)
    (hquery : Query (shardRequest t nodeID channelIDs) = .ok (some result))
    (hstatus : GetErrorCode result.Status = ErrorCode.ErrorCode_NotShardLeader) :
    queryShard Query t nodeID channelIDs w
      = ({ w with DeprecateShardCache :=
            w.DeprecateShardCache ++ [(t.request.DbName, t.collectionName)] },
         .returned (some .errInvalidShardLeaders)) := by
  simp only [queryShard, hquery, bind_Status_some, hstatus, if_true]

/-- A response whose status is neither `NotShardLeader` nor `Success`. -/
theorem queryShard_other_status
    (Query : querypb.QueryRequest → Except GoError (Option (ShardResult K F C)))
    (t : queryTask E) (nodeID : Int) (channelIDs : List String) (w : ShardEffects K F C)
    (result : ShardResult K F C)
    (hquery : Query (shardRequest t nodeID channelIDs) = .ok (some result))
    (hleader : GetErrorCode result.Status ≠ ErrorCode.ErrorCode_NotShardLeader)
    (hstatus : GetErrorCode result.Status ≠ ErrorCode.ErrorCode_Success) :
    queryShard Query t nodeID channelIDs w
      = (w, .returned (some (.failToQuery
          ("fail to Query, QueryNode ID = " ++ toString nodeID ++ ", reason="
            ++ GetReason result.Status)))) := by
  simp only [queryShard, hquery, bind_Status_some, hleader, if_false, hstatus, ne_eq,
    not_false_eq_true, if_true]

/-- A response whose status is `Success`. -/
theorem queryShard_success
    (Query : querypb.QueryRequest → Except GoError (Option (ShardResult K F C)))
    (t : queryTask E) (nodeID : Int) (channelIDs : List String) (w : ShardEffects K F C)
    (result : ShardResult K F C)
    (hquery : Query (shardRequest t nodeID channelIDs) = .ok (some result))
    (hstatus : GetErrorCode result.Status = ErrorCode.ErrorCode_Success) :
    queryShard Query t nodeID channelIDs w
      = ({ w with
           resultBuf := w.resultBuf ++ [some result]
           UpdateCostMetrics := w.UpdateCostMetrics ++ [(nodeID, result.CostAggregation)] },
         .returned none) := by
  simp only [queryShard, hquery, bind_Status_some, hstatus, reduceCtorEq, if_false, ne_eq,
    not_true_eq_false]

/-- A nil response with a nil error: the nil pointer is inserted into the
result buffer and the read of its cost aggregation panics. -/
theorem queryShard_nil_response
    (Query : querypb.QueryRequest → Except GoError (Option (ShardResult K F C)))
    (t : queryTask E) (nodeID : Int) (channelIDs : List String) (w : ShardEffects K F C)
    (hquery : Query (shardRequest t nodeID channelIDs) = .ok none) :
    queryShard Query t nodeID channelIDs w
      = ({ w with resultBuf := w.resultBuf ++ [none] }, .panic) := by
  simp [queryShard, hquery, GetErrorCode]

/-- C21. For every shard call whose transport succeeds with a response of
status `NotShardLeader`: `DeprecateShardCache` is called exactly once more,
for the database of the request and the collection name of the task; the
error returned is `errInvalidShardLeaders`; the result buffer and the cost
metrics are left as they were. -/
theorem queryShard_not_shard_leader
    (Query : querypb.QueryRequest → Except GoError (Option (ShardResult K F C)))
    (t : queryTask E) (nodeID : Int) (channelIDs : List String) (w : ShardEffects K F C)
    (result : ShardResult K F C)
    (hquery : Query (shardRequest t nodeID channelIDs) = .ok (some result))
    (hstatus : GetErrorCode result.Status = ErrorCode.ErrorCode_NotShardLeader) :
    (queryShard Query t nodeID channelIDs w).1.DeprecateShardCache
        = w.DeprecateShardCache ++ [(t.request.DbName, t.collectionName)]
    ∧ (queryShard Query t nodeID channelIDs w).2 = .returned (some .errInvalidShardLeaders)
    ∧ (queryShard Query t nodeID channelIDs w).1.resultBuf = w.resultBuf
    ∧ (queryShard Query t nodeID channelIDs w).1.UpdateCostMetrics = w.UpdateCostMetrics := by
  rw [queryShard_not_leader Query t nodeID channelIDs w result hquery hstatus]
  exact ⟨rfl, rfl, rfl, rfl⟩

/-- C22. For every shard call whose client returns an error or a response:
when the transport succeeded and the status of the response is `Success`, the
result buffer gains the response, the cost metrics of the node are reported
and nil is returned; in every other case an error is returned and the result
buffer and the cost metrics are left as they were, so the buffer grows, and
the metrics are reported, exactly in the first case; for a status that is
neither `Success` nor `NotShardLeader` the text of the error ends with the
reason of the status and `DeprecateShardCache` is not called. -/
theorem queryShard_collects_iff_success
    (Query : querypb.QueryRequest → Except GoError (Option (ShardResult K F C)))
    (t : queryTask E) (nodeID : Int) (channelIDs : List String) (w : ShardEffects K F C)
    (hresp : Query (shardRequest t nodeID channelIDs) ≠ .ok none) :
    (∀ result, Query (shardRequest t nodeID channelIDs) = .ok (some result) →
      GetErrorCode result.Status = ErrorCode.ErrorCode_Success →
      queryShard Query t nodeID channelIDs w
        = ({ w with
             resultBuf := w.resultBuf ++ [some result]
             UpdateCostMetrics := w.UpdateCostMetrics ++ [(nodeID, result.CostAggregation)] },
           .returned none))
    ∧ ((¬ ∃ result, Query (shardRequest t nodeID channelIDs) = .ok (some result) ∧
          GetErrorCode result.Status = ErrorCode.ErrorCode_Success) →
        (∃ err, (queryShard Query t nodeID channelIDs w).2 = .returned (some err)) ∧
        (queryShard Query t nodeID channelIDs w).1.resultBuf = w.resultBuf ∧
        (queryShard Query t nodeID channelIDs w).1.UpdateCostMetrics = w.UpdateCostMetrics)
    ∧ ((queryShard Query t nodeID channelIDs w).1.resultBuf ≠ w.resultBuf ↔
        ∃ result, Query (shardRequest t nodeID channelIDs) = .ok (some result) ∧
          GetErrorCode result.Status = ErrorCode.ErrorCode_Success)
    ∧ ((queryShard Query t nodeID channelIDs w).1.UpdateCostMetrics ≠ w.UpdateCostMetrics ↔
        ∃ result, Query (shardRequest t nodeID channelIDs) = .ok (some result) ∧
          GetErrorCode result.Status = ErrorCode.ErrorCode_Success)
    ∧ ((queryShard Query t nodeID channelIDs w).2 = .returned none ↔
        ∃ result, Query (shardRequest t nodeID channelIDs) = .ok (some result) ∧
          GetErrorCode result.Status = ErrorCode.ErrorCode_Success)
    ∧ (∀ result, Query (shardRequest t nodeID channelIDs) = .ok (some result) →
        GetErrorCode result.Status ≠ ErrorCode.ErrorCode_Success →
        GetErrorCode result.Status ≠ ErrorCode.ErrorCode_NotShardLeader →
        (queryShard Query t nodeID channelIDs w).2
          = .returned (some (.failToQuery
              ("fail to Query, QueryNode ID = " ++ toString nodeID ++ ", reason="
                ++ GetReason result.Status))) ∧
        (queryShard Query t nodeID channelIDs w).1.DeprecateShardCache
          = w.DeprecateShardCache) := by
  have hfail : (¬ ∃ result, Query (shardRequest t nodeID channelIDs) = .ok (some result) ∧
        GetErrorCode result.Status = ErrorCode.ErrorCode_Success) →
      (∃ err, (queryShard Query t nodeID channelIDs w).2 = .returned (some err)) ∧
      (queryShard Query t nodeID channelIDs w).1.resultBuf = w.resultBuf ∧
      (queryShard Query t nodeID channelIDs w).1.UpdateCostMetrics = w.UpdateCostMetrics := by
    intro hno
    cases hq : Query (shardRequest t nodeID channelIDs) with
    | error err =>
      rw [queryShard_transport_error Query t nodeID channelIDs w err hq]
      exact ⟨⟨_, rfl⟩, rfl, rfl⟩
    | ok result =>
      cases result with
      | none => exact absurd hq hresp
      | some result =>
        by_cases hl : GetErrorCode result.Status = ErrorCode.ErrorCode_NotShardLeader
        · rw [queryShard_not_leader Query t nodeID channelIDs w result hq hl]
          exact ⟨⟨_, rfl⟩, rfl, rfl⟩
        · have hs : GetErrorCode result.Status ≠ ErrorCode.ErrorCode_Success :=
            fun hs => hno ⟨result, hq, hs⟩
          rw [queryShard_other_status Query t nodeID channelIDs w result hq hl hs]
          exact ⟨⟨_, rfl⟩, rfl, rfl⟩
  have hsucc : ∀ result, Query (shardRequest t nodeID channelIDs) = .ok (some result) →
      GetErrorCode result.Status = ErrorCode.ErrorCode_Success →
      queryShard Query t nodeID channelIDs w
        = ({ w with
             resultBuf := w.resultBuf ++ [some result]
             UpdateCostMetrics := w.UpdateCostMetrics ++ [(nodeID, result.CostAggregation)] },
           .returned none) :=
    fun result hq hs => queryShard_success Query t nodeID channelIDs w result hq hs
  refine ⟨hsucc, hfail, ?_, ?_, ?_, ?_⟩
  · constructor
    · intro hne
      by_contra hno
      exact hne (hfail hno).2.1
    · rintro ⟨result, hq, hs⟩
      rw [hsucc result hq hs]
      simp
  · constructor
    · intro hne
      by_contra hno
      exact hne (hfail hno).2.2
    · rintro ⟨result, hq, hs⟩
      rw [hsucc result hq hs]
      simp
  · constructor
    · intro hnil
      by_contra hno
      obtain ⟨err, herr⟩ := (hfail hno).1
      rw [herr] at hnil
      cases hnil
    · rintro ⟨result, hq, hs⟩
      rw [hsucc result hq hs]
  · intro result hq hs hl
    rw [queryShard_other_status Query t nodeID channelIDs w result hq hl hs]
    exact ⟨rfl, rfl⟩

end ShardCall

/-- Witness of C21: a node that answers with the status `NotShardLeader`. -/
theorem queryShard_not_shard_leader_witness :
    (queryShard (fun _ => .ok (some (exampleShardResult
        (some (statusOf ErrorCode.ErrorCode_NotShardLeader "not leader")))))
      (exampleTask "pk > 0" [] [] []) 5 ["ch1"] noEffects).1.DeprecateShardCache
        = noEffects.DeprecateShardCache ++ [("default", "")]
    ∧ (queryShard (fun _ => .ok (some (exampleShardResult
        (some (statusOf ErrorCode.ErrorCode_NotShardLeader "not leader")))))
      (exampleTask "pk > 0" [] [] []) 5 ["ch1"] noEffects).2
        = .returned (some .errInvalidShardLeaders)
    ∧ (queryShard (fun _ => .ok (some (exampleShardResult
        (some (statusOf ErrorCode.ErrorCode_NotShardLeader "not leader")))))
      (exampleTask "pk > 0" [] [] []) 5 ["ch1"] noEffects).1.resultBuf = noEffects.resultBuf
    ∧ (queryShard (fun _ => .ok (some (exampleShardResult
        (some (statusOf ErrorCode.ErrorCode_NotShardLeader "not leader")))))
      (exampleTask "pk > 0" [] [] []) 5 ["ch1"] noEffects).1.UpdateCostMetrics
        = noEffects.UpdateCostMetrics :=
  queryShard_not_shard_leader _ (exampleTask "pk > 0" [] [] []) 5 ["ch1"] noEffects
    (exampleShardResult (some (statusOf ErrorCode.ErrorCode_NotShardLeader "not leader")))
    rfl rfl

/-- Witness of C22: a node that answers with the status `UnexpectedError` and
the reason `disk full`. -/
theorem queryShard_collects_iff_success_witness :
    (queryShard (fun _ => .ok (some (exampleShardResult
        (some (statusOf ErrorCode.ErrorCode_UnexpectedError "disk full")))))
      (exampleTask "pk > 0" [] [] []) 5 ["ch1"] noEffects).2
        = .returned (some (.failToQuery "fail to Query, QueryNode ID = 5, reason=disk full"))
    ∧ (queryShard (fun _ => .ok (some (exampleShardResult
        (some (statusOf ErrorCode.ErrorCode_UnexpectedError "disk full")))))
      (exampleTask "pk > 0" [] [] []) 5 ["ch1"] noEffects).1.DeprecateShardCache
        = noEffects.DeprecateShardCache :=
  (queryShard_collects_iff_success
    (fun _ => .ok (some (exampleShardResult
      (some (statusOf ErrorCode.ErrorCode_UnexpectedError "disk full")))))
    (exampleTask "pk > 0" [] [] []) 5 ["ch1"] noEffects
    (by intro h; cases h)).2.2.2.2.2
    (exampleShardResult (some (statusOf ErrorCode.ErrorCode_UnexpectedError "disk full")))
    rfl (by decide) (by decide)

/-! ## Theorems: the consistency resolution -/

section Consistency

variable {E : Type}

/-- Lines 242-273 leave what the consistency resolution reads, and set the
collection id to the one the metadata cache returns. -/
theorem preExecuteCollection_inputs (env : Env E) (t t' : queryTask E)
    (h : preExecuteCollection env t = .done t') :
    consistencyInputs t' = consistencyInputs t ∧
    env.GetCollectionID t.request.DbName t.request.CollectionName
      = .ok t'.RetrieveRequest.CollectionID := by
  unfold preExecuteCollection at h
  simp only at h
  split at h
  · cases h
  · split at h
    · cases h
    · next collID hid =>
      split at h
      · cases h
      · split_ifs at h
        cases h
        exact ⟨rfl, hid⟩

/-- Lines 275-295 leave what the consistency resolution reads. -/
theorem preExecuteGrowing_inputs (env : Env E) (t t' : queryTask E)
    (h : preExecuteGrowing env t = .done t') :
    consistencyInputs t' = consistencyInputs t ∧
    t'.RetrieveRequest.CollectionID = t.RetrieveRequest.CollectionID := by
  unfold preExecuteGrowing at h
  split at h
  · cases h
  · split at h
    · cases h; exact ⟨rfl, rfl⟩
    · split at h
      · cases h
      · cases h; exact ⟨rfl, rfl⟩

/-- The method `createPlan` leaves what the consistency resolution reads. -/
theorem createPlan_inputs (env : Env E) (t t' : queryTask E)
    (h : createPlan env t = .done t') :
    consistencyInputs t' = consistencyInputs t ∧
    t'.RetrieveRequest.CollectionID = t.RetrieveRequest.CollectionID := by
  unfold createPlan at h
  simp only at h
  split_ifs at h
  · split at h
    · cases h
    · cases h; exact ⟨rfl, rfl⟩
  · split at h
    · cases h
    · split at h
      · cases h
      · split at h
        · cases h
        · split at h
          · cases h
          · cases h; exact ⟨rfl, rfl⟩

/-- Lines 297-322 leave what the consistency resolution reads. -/
theorem preExecutePlan_inputs (env : Env E) (t t' : queryTask E)
    (h : preExecutePlan env t = .done t') :
    consistencyInputs t' = consistencyInputs t ∧
    t'.RetrieveRequest.CollectionID = t.RetrieveRequest.CollectionID := by
  unfold preExecutePlan at h
  split at h
  · cases h
  · simp only at h
    rw [Exec.andThen_eq_done] at h
    obtain ⟨t2, h2, h3⟩ := h
    rw [Exec.andThen_eq_done] at h2
    obtain ⟨t1, h1, hcp⟩ := h2
    obtain ⟨a1, a2⟩ := createPlan_inputs env t1 t2 hcp
    have ht1 : consistencyInputs t1 = consistencyInputs t ∧
        t1.RetrieveRequest.CollectionID = t.RetrieveRequest.CollectionID := by
      split at h1
      · cases h1; exact ⟨rfl, rfl⟩
      · split at h1
        · cases h1
        · cases h1; exact ⟨rfl, rfl⟩
    split at h3
    · cases h3
    · cases h3
      exact ⟨a1.trans ht1.1, a2.trans ht1.2⟩

/-- Lines 324-326 leave the task as it is. -/
theorem preExecuteLimitCheck_done (env : Env E) (t t' : queryTask E)
    (h : preExecuteLimitCheck env t = .done t') : t' = t := by
  unfold preExecuteLimitCheck at h
  split at h
  · cases h
  · split_ifs at h
    cases h
    rfl

/-- Lines 328-345 leave what the consistency resolution reads. -/
theorem preExecutePartitions_inputs (env : Env E) (t t' : queryTask E)
    (h : preExecutePartitions env t = .done t') :
    consistencyInputs t' = consistencyInputs t ∧
    t'.RetrieveRequest.CollectionID = t.RetrieveRequest.CollectionID := by
  unfold preExecutePartitions at h
  simp only at h
  split at h
  · cases h
  · split at h
    · cases h
    · cases h; exact ⟨rfl, rfl⟩

/-- Lines 347-356 leave what the consistency resolution reads. -/
theorem preExecuteCount_inputs (env : Env E) (t t' : queryTask E)
    (h : preExecuteCount env t = .done t') :
    consistencyInputs t' = consistencyInputs t ∧
    t'.RetrieveRequest.CollectionID = t.RetrieveRequest.CollectionID := by
  unfold preExecuteCount at h
  simp only at h
  split_ifs at h
  · split at h
    · cases h
    · split_ifs at h
      split at h
      · cases h
      · cases h; exact ⟨rfl, rfl⟩
  · split at h
    · cases h
    · cases h; exact ⟨rfl, rfl⟩

/-- Lines 358-400 on success: the collection info was found, the MVCC
timestamp is the begin timestamp and the guarantee timestamp is the resolved
one. -/
theorem preExecuteConsistency_done (env : Env E) (t t' : queryTask E)
    (h : preExecuteConsistency env t = .done t') :
    ∃ collectionLevel,
      env.GetCollectionInfo t.request.DbName t.request.CollectionName
        t.RetrieveRequest.CollectionID = .ok collectionLevel ∧
      t'.RetrieveRequest.MvccTimestamp = t.RetrieveRequest.Base.Timestamp ∧
      t'.RetrieveRequest.Base.Timestamp = t.RetrieveRequest.Base.Timestamp ∧
      t'.RetrieveRequest.GuaranteeTimestamp
        = specGuaranteeTs env.parseGuaranteeTsFromConsistency env.parseGuaranteeTs
            t.request.UseDefaultConsistency t.request.ConsistencyLevel
            t.request.GuaranteeTimestamp t.RetrieveRequest.Base.Timestamp collectionLevel := by
  unfold preExecuteConsistency at h
  simp only at h
  split at h
  · cases h
  · next collectionLevel hinfo =>
    cases h
    refine ⟨collectionLevel, ?_, ?_, ?_, ?_⟩
    · rw [← hinfo]
      split <;> rfl
    · split <;> split <;> rfl
    · split <;> split <;> rfl
    · unfold specGuaranteeTs
      split <;> split <;> rfl

/-- A successful `PreExecute`: the collection id and the collection info were
found for the names of the request, the MVCC timestamp is the begin timestamp
of the task, and the guarantee timestamp is the one resolved from the request
as it was handed in. -/
theorem PreExecute_done_timestamps (env : Env E) (t t' : queryTask E)
    (h : PreExecute env t = .done t') :
    ∃ collID collectionLevel,
      env.GetCollectionID t.request.DbName t.request.CollectionName = .ok collID ∧
      env.GetCollectionInfo t.request.DbName t.request.CollectionName collID
        = .ok collectionLevel ∧
      t'.RetrieveRequest.MvccTimestamp = t.RetrieveRequest.Base.Timestamp ∧
      t'.RetrieveRequest.Base.Timestamp = t.RetrieveRequest.Base.Timestamp ∧
      t'.RetrieveRequest.GuaranteeTimestamp
        = specGuaranteeTs env.parseGuaranteeTsFromConsistency env.parseGuaranteeTs
            t.request.UseDefaultConsistency t.request.ConsistencyLevel
            t.request.GuaranteeTimestamp t.RetrieveRequest.Base.Timestamp collectionLevel := by
  unfold PreExecute at h
  rw [Exec.andThen_eq_done] at h
  obtain ⟨t7, h, h8⟩ := h
  rw [Exec.andThen_eq_done] at h
  obtain ⟨t6, h, h7⟩ := h
  rw [Exec.andThen_eq_done] at h
  obtain ⟨t5, h, h6⟩ := h
  rw [Exec.andThen_eq_done] at h
  obtain ⟨t4, h, h5⟩ := h
  unfold preExecuteToPlan at h
  rw [Exec.andThen_eq_done] at h
  obtain ⟨t3, h, h4⟩ := h
  rw [Exec.andThen_eq_done] at h
  obtain ⟨t2, h2, h3⟩ := h
  obtain ⟨a1, a2⟩ := preExecuteCollection_inputs env t t2 h2
  obtain ⟨b1, b2⟩ := preExecuteGrowing_inputs env t2 t3 h3
  obtain ⟨c1, c2⟩ := preExecutePlan_inputs env t3 t4 h4
  have d := preExecuteLimitCheck_done env t4 t5 h5
  obtain ⟨e1, e2⟩ := preExecutePartitions_inputs env t5 t6 h6
  obtain ⟨f1, f2⟩ := preExecuteCount_inputs env t6 t7 h7
  obtain ⟨collectionLevel, g1, g2, g3, g4⟩ := preExecuteConsistency_done env t7 t' h8
  have hin : consistencyInputs t7 = consistencyInputs t := by
    rw [f1, e1, d, c1, b1, a1]
  have hid : t7.RetrieveRequest.CollectionID = t2.RetrieveRequest.CollectionID := by
    rw [f2, e2, d, c2, b2]
  simp only [consistencyInputs, Prod.mk.injEq] at hin
  obtain ⟨i1, i2, i3, i4, i5, i6⟩ := hin
  refine ⟨t2.RetrieveRequest.CollectionID, collectionLevel, a2, ?_, ?_, ?_, ?_⟩
  · rw [← i5, ← i6, ← hid]; exact g1
  · rw [g2, i4]
  · rw [g3, i4]
  · rw [g4, i1, i2, i3, i4]

/-- C29. After every successful `PreExecute` the guarantee timestamp of the
request is a function of the default-consistency flag, the level and the raw
guarantee timestamp of the request, the begin timestamp and the level of the
collection (the one the metadata cache holds for the names of the request) by
three branches: under default consistency it is
`parseGuaranteeTsFromConsistency(raw, beginTs, collection level)`, whatever
the level of the request; else, with the level zero and a raw timestamp above
zero, it is `parseGuaranteeTs(raw, beginTs)`; else it is
`parseGuaranteeTsFromConsistency(raw, beginTs, request level)`, also for the
level zero with the raw timestamp zero. -/
theorem PreExecute_guarantee_timestamp (env : Env E) (t t' : queryTask E)
    (h : PreExecute env t = .done t') :
    ∃ collID collectionLevel,
      env.GetCollectionID t.request.DbName t.request.CollectionName = .ok collID ∧
      env.GetCollectionInfo t.request.DbName t.request.CollectionName collID
        = .ok collectionLevel ∧
      t'.RetrieveRequest.GuaranteeTimestamp
        = specGuaranteeTs env.parseGuaranteeTsFromConsistency env.parseGuaranteeTs
            t.request.UseDefaultConsistency t.request.ConsistencyLevel
            t.request.GuaranteeTimestamp t.RetrieveRequest.Base.Timestamp collectionLevel ∧
      (t.request.UseDefaultConsistency = true →
        t'.RetrieveRequest.GuaranteeTimestamp
          = env.parseGuaranteeTsFromConsistency t.request.GuaranteeTimestamp
              t.RetrieveRequest.Base.Timestamp collectionLevel) ∧
      (t.request.UseDefaultConsistency = false → t.request.ConsistencyLevel = 0 →
        t.request.GuaranteeTimestamp > 0 →
        t'.RetrieveRequest.GuaranteeTimestamp
          = env.parseGuaranteeTs t.request.GuaranteeTimestamp
              t.RetrieveRequest.Base.Timestamp) ∧
      (t.request.UseDefaultConsistency = false →
        ¬ (t.request.ConsistencyLevel = 0 ∧ t.request.GuaranteeTimestamp > 0) →
        t'.RetrieveRequest.GuaranteeTimestamp
          = env.parseGuaranteeTsFromConsistency t.request.GuaranteeTimestamp
              t.RetrieveRequest.Base.Timestamp t.request.ConsistencyLevel) ∧
      (t.request.UseDefaultConsistency = false → t.request.ConsistencyLevel = 0 →
        t.request.GuaranteeTimestamp = 0 →
        t'.RetrieveRequest.GuaranteeTimestamp
          = env.parseGuaranteeTsFromConsistency 0 t.RetrieveRequest.Base.Timestamp 0) := by
  obtain ⟨collID, collectionLevel, h1, h2, -, -, h5⟩ := PreExecute_done_timestamps env t t' h
  refine ⟨collID, collectionLevel, h1, h2, h5, ?_, ?_, ?_, ?_⟩
  · intro hd
    rw [h5]
    simp [specGuaranteeTs, hd]
  · intro hd hl hr
    rw [h5]
    simp [specGuaranteeTs, hd, hl, hr]
  · intro hd hn
    rw [h5]
    simp only [specGuaranteeTs, hd, Bool.false_eq_true, if_false, hn]
  · intro hd hl hr
    rw [h5]
    simp [specGuaranteeTs, hd, hl, hr]

/-- C30 (amended). After every successful `PreExecute` the MVCC timestamp of
the request is the begin timestamp of the task (line 363), which `PreExecute`
leaves as it was, and the guarantee timestamp is the resolved one; so the two
are equal exactly when the resolution returns the begin timestamp. -/
theorem PreExecute_mvcc_timestamp (env : Env E) (t t' : queryTask E)
    (h : PreExecute env t = .done t') :
    t'.RetrieveRequest.MvccTimestamp = t.RetrieveRequest.Base.Timestamp
    ∧ t'.RetrieveRequest.Base.Timestamp = t.RetrieveRequest.Base.Timestamp
    ∧ ∃ collID collectionLevel,
        env.GetCollectionID t.request.DbName t.request.CollectionName = .ok collID ∧
        env.GetCollectionInfo t.request.DbName t.request.CollectionName collID
          = .ok collectionLevel ∧
        (t'.RetrieveRequest.MvccTimestamp = t'.RetrieveRequest.GuaranteeTimestamp ↔
          specGuaranteeTs env.parseGuaranteeTsFromConsistency env.parseGuaranteeTs
            t.request.UseDefaultConsistency t.request.ConsistencyLevel
            t.request.GuaranteeTimestamp t.RetrieveRequest.Base.Timestamp collectionLevel
          = t.RetrieveRequest.Base.Timestamp) := by
  obtain ⟨collID, collectionLevel, h1, h2, h3, h4, h5⟩ := PreExecute_done_timestamps env t t' h
  refine ⟨h3, h4, collID, collectionLevel, h1, h2, ?_⟩
  rw [h3, h5]
  exact eq_comm

end Consistency

/-- Witness of C29: a request at begin timestamp 100 with the level zero and
the raw guarantee timestamp 7, default consistency not requested. -/
theorem PreExecute_guarantee_timestamp_witness :
    ∃ t', PreExecute consistencyEnv (consistencyTask 100 7 false 0) = .done t' ∧
      t'.RetrieveRequest.GuaranteeTimestamp = 7 ∧
      ∃ collID collectionLevel,
        consistencyEnv.GetCollectionID "default" "coll" = .ok collID ∧
        consistencyEnv.GetCollectionInfo "default" "coll" collID = .ok collectionLevel ∧
        t'.RetrieveRequest.GuaranteeTimestamp
          = specGuaranteeTs consistencyEnv.parseGuaranteeTsFromConsistency
              consistencyEnv.parseGuaranteeTs false 0 7 100 collectionLevel :=
  ⟨_, rfl, rfl,
    (PreExecute_guarantee_timestamp consistencyEnv (consistencyTask 100 7 false 0) _ rfl).imp
      (fun _ hc => hc.imp (fun _ hl => ⟨hl.1, hl.2.1, hl.2.2.1⟩))⟩

/-- Counterexample to C30 as stated: at begin timestamp 100, a request with
the level 3 and no raw guarantee timestamp, default consistency not requested,
passes `PreExecute` on `consistencyEnv`; line 363 has set the MVCC timestamp
to the begin timestamp 100, line 388 the guarantee timestamp to the resolved
timestamp 1. -/
theorem PreExecute_mvcc_is_begin_timestamp :
    ∃ t', PreExecute consistencyEnv (consistencyTask 100 0 false 3) = .done t' ∧
      t'.RetrieveRequest.MvccTimestamp = 100 ∧
      t'.RetrieveRequest.GuaranteeTimestamp = 1 ∧
      t'.RetrieveRequest.MvccTimestamp ≠ t'.RetrieveRequest.GuaranteeTimestamp :=
  ⟨_, rfl, rfl, rfl, by decide⟩

/-- Witness of C30 (amended): the same request with the level zero, which the
resolver of `consistencyEnv` gives the begin timestamp. -/
theorem PreExecute_mvcc_timestamp_witness :
    ∃ t', PreExecute consistencyEnv (consistencyTask 100 0 false 0) = .done t' ∧
      t'.RetrieveRequest.MvccTimestamp = 100 ∧
      t'.RetrieveRequest.Base.Timestamp = 100 :=
  ⟨_, rfl,
    (PreExecute_mvcc_timestamp consistencyEnv (consistencyTask 100 0 false 0) _ rfl).1,
    (PreExecute_mvcc_timestamp consistencyEnv (consistencyTask 100 0 false 0) _ rfl).2.1⟩

/-! ## Theorems: the offset phase and the reads of the reducer -/

section ReadsAny

variable {K F : Type}

/-- Advancing a cursor changes that cursor only. -/
theorem getElem?_set_advance {cursors : List Nat} {j c : Nat} (hc : cursors[j]? = some c)
    (i : Nat) :
    (cursors.set j (c + 1))[i]? = if i = j then some (c + 1) else cursors[i]? := by
  have hj : j < cursors.length := by
    by_contra hge
    rw [List.getElem?_eq_none (not_lt.mp hge)] at hc
    cases hc
  by_cases hij : i = j
  · subst hij
    simp [hj]
  · simp [hij, List.getElem?_set_ne (Ne.symm hij)]

/-- Advancing a cursor adds one to the sum of the cursors. -/
theorem sum_set_advance :
    ∀ {cursors : List Nat} {j c : Nat}, cursors[j]? = some c →
      (cursors.set j (c + 1)).sum = cursors.sum + 1 := by
  intro cursors
  induction cursors with
  | nil => intro j c hc; simp at hc
  | cons a cursors ih =>
    intro j c hc
    cases j with
    | zero =>
      simp only [List.getElem?_cons_zero, Option.some.injEq] at hc
      subst hc
      simp only [List.set_cons_zero, List.sum_cons]
      omega
    | succ j =>
      simp only [List.getElem?_cons_succ] at hc
      simp only [List.set_cons_succ, List.sum_cons, ih hc]
      omega

/-- One pass of the offset loop that advances a cursor. -/
theorem offsetLoop_succ_done {SelectMinPK : Selector K F} {valid : List (RetrieveResults K F)}
    {stop : Bool} {realLimit : Int} {n : Nat} {cursors cursors' : List Nat}
    (h : offsetLoop SelectMinPK valid stop realLimit (n + 1) cursors = .done cursors') :
    ∃ (j c : Nat), SelectMinPK valid cursors stop realLimit = (j : Int) ∧
      cursors[j]? = some c ∧
      offsetLoop SelectMinPK valid stop realLimit n (cursors.set j (c + 1)) = .done cursors' ∧
      offsetReads SelectMinPK valid stop realLimit (n + 1) cursors
        = (j, c) :: offsetReads SelectMinPK valid stop realLimit n (cursors.set j (c + 1)) := by
  rw [offsetLoop] at h
  split_ifs at h with h1 h2
  split at h
  · cases h
  · next c hc =>
    have hs : ((SelectMinPK valid cursors stop realLimit).toNat : Int)
        = SelectMinPK valid cursors stop realLimit := Int.toNat_of_nonneg (by omega)
    refine ⟨(SelectMinPK valid cursors stop realLimit).toNat, c, hs.symm, hc, h, ?_⟩
    rw [offsetReads]
    simp only [h1, h2, if_false, hc]

/-- A completed offset loop of `n` passes has read `n` rows; its cursors are
those of the start advanced by the reads, their sum has grown by `n`, no
cursor has gone back, and every row read lies before the cursor of its shard
result at the end. -/
theorem offsetLoop_done_reads (SelectMinPK : Selector K F) (valid : List (RetrieveResults K F))
    (stop : Bool) (realLimit : Int) :
    ∀ (n : Nat) (cursors cursors' : List Nat),
      offsetLoop SelectMinPK valid stop realLimit n cursors = .done cursors' →
      (offsetReads SelectMinPK valid stop realLimit n cursors).length = n ∧
      cursors' = advanceAll cursors (offsetReads SelectMinPK valid stop realLimit n cursors) ∧
      cursors'.sum = cursors.sum + n ∧
      (∀ (j a : Nat), cursors[j]? = some a → ∃ b, cursors'[j]? = some b ∧ a ≤ b) ∧
      ∀ read ∈ offsetReads SelectMinPK valid stop realLimit n cursors,
        ∃ b, cursors'[read.1]? = some b ∧ read.2 < b := by
  intro n
  induction n with
  | zero =>
    intro cursors cursors' h
    simp only [offsetLoop, OffsetExit.done.injEq] at h
    subst h
    refine ⟨rfl, rfl, rfl, fun j a ha => ⟨a, ha, Nat.le_refl a⟩, ?_⟩
    intro read hread
    simp [offsetReads] at hread
  | succ n ih =>
    intro cursors cursors' h
    obtain ⟨j, c, -, hc, hrest, hreads⟩ := offsetLoop_succ_done h
    obtain ⟨i1, i2, i3, i4, i5⟩ := ih _ _ hrest
    have hmono : ∀ (j' a : Nat), cursors[j']? = some a → ∃ b, cursors'[j']? = some b ∧ a ≤ b := by
      intro j' a ha
      by_cases hj : j' = j
      · subst hj
        obtain ⟨b, hb, hle⟩ := i4 j' (c + 1) (by rw [getElem?_set_advance hc]; simp)
        rw [hc] at ha
        cases ha
        exact ⟨b, hb, by omega⟩
      · exact i4 j' a (by rw [getElem?_set_advance hc]; simp [hj, ha])
    rw [hreads]
    refine ⟨by simp [i1], ?_, ?_, hmono, ?_⟩
    · rw [i2]
      rfl
    · rw [i3, sum_set_advance hc]
      omega
    · intro read hread
      rcases List.mem_cons.mp hread with rfl | hread
      · obtain ⟨b, hb, hle⟩ := i4 j (c + 1) (by rw [getElem?_set_advance hc]; simp)
        exact ⟨b, hb, by omega⟩
      · exact i5 read hread

/-- The offset loop reads no row twice, and reads no row before the cursor of
its shard result at the start. -/
theorem offsetReads_nodup (SelectMinPK : Selector K F) (valid : List (RetrieveResults K F))
    (stop : Bool) (realLimit : Int) :
    ∀ (n : Nat) (cursors : List Nat),
      (offsetReads SelectMinPK valid stop realLimit n cursors).Nodup ∧
      ∀ read ∈ offsetReads SelectMinPK valid stop realLimit n cursors,
        ∃ a, cursors[read.1]? = some a ∧ a ≤ read.2 := by
  intro n
  induction n with
  | zero =>
    intro cursors
    simp [offsetReads]
  | succ n ih =>
    intro cursors
    rw [offsetReads]
    split_ifs with h1 h2
    · simp
    · simp
    · split
      · simp
      · next c hc =>
        obtain ⟨hnd, hlow⟩ := ih (cursors.set (SelectMinPK valid cursors stop realLimit).toNat (c + 1))
        refine ⟨List.nodup_cons.mpr ⟨?_, hnd⟩, ?_⟩
        · intro hmem
          obtain ⟨a, ha, hle⟩ := hlow _ hmem
          rw [getElem?_set_advance hc] at ha
          simp only [if_true, Option.some.injEq] at ha
          omega
        · intro read hread
          rcases List.mem_cons.mp hread with rfl | hread
          · exact ⟨c, hc, le_refl _⟩
          · obtain ⟨a, ha, hle⟩ := hlow read hread
            rw [getElem?_set_advance hc] at ha
            split_ifs at ha with hj
            · cases ha
              exact ⟨c, hj ▸ hc, by omega⟩
            · exact ⟨a, ha, hle⟩

/-- The emit loop reads no row twice, and reads no row before the cursor of
its shard result at the start. -/
theorem emitReads_nodup [DecidableEq K] (SelectMinPK : Selector K F)
    (AppendFieldData : List F → Nat → Int) (maxOutputSize : Int)
    (valid : List (RetrieveResults K F)) (stop : Bool) (realLimit : Int) :
    ∀ (n : Nat) (st : ReduceState K F),
      (emitReads SelectMinPK AppendFieldData maxOutputSize valid stop realLimit n st).Nodup ∧
      ∀ read ∈ emitReads SelectMinPK AppendFieldData maxOutputSize valid stop realLimit n st,
        ∃ a, st.cursors[read.1]? = some a ∧ a ≤ read.2 := by
  intro n
  induction n with
  | zero =>
    intro st
    simp [emitReads]
  | succ n ih =>
    intro st
    rw [emitReads]
    split
    · next st1 sel cursor hb =>
      obtain ⟨r, -, hc, -, hcase⟩ := emitBody_next hb
      have hcur : st1.cursors = st.cursors := by
        rcases hcase with ⟨-, rfl⟩ | ⟨-, rfl⟩ <;> rfl
      split_ifs with hq
      · refine ⟨by simp, ?_⟩
        intro read hread
        simp only [List.mem_singleton] at hread
        subst hread
        exact ⟨cursor, hc, le_refl _⟩
      · obtain ⟨hnd, hlow⟩ := ih (advanceCursor st1 sel cursor)
        have hadv : (advanceCursor st1 sel cursor).cursors = st.cursors.set sel (cursor + 1) := by
          simp [advanceCursor, hcur]
        rw [hadv] at hlow
        refine ⟨List.nodup_cons.mpr ⟨?_, hnd⟩, ?_⟩
        · intro hmem
          obtain ⟨a, ha, hle⟩ := hlow _ hmem
          rw [getElem?_set_advance hc] at ha
          simp only [if_true, Option.some.injEq] at ha
          omega
        · intro read hread
          rcases List.mem_cons.mp hread with rfl | hread
          · exact ⟨cursor, hc, le_refl _⟩
          · obtain ⟨a, ha, hle⟩ := hlow read hread
            rw [getElem?_set_advance hc] at ha
            split_ifs at ha with hj
            · cases ha
              exact ⟨cursor, hj ▸ hc, by omega⟩
            · exact ⟨a, ha, hle⟩
    · simp

/-- A call of `reduceRetrieveResults` reads no row of a shard result twice,
whatever the selection helper returns. -/
theorem reduceReads_nodup [DecidableEq K] (SelectMinPK : Selector K F)
    (AppendFieldData : List F → Nat → Int) (maxOutputSize : Int)
    (retrieveResults : List (Option (RetrieveResults K F))) (qp : Option queryParams) :
    (reduceReads SelectMinPK AppendFieldData maxOutputSize retrieveResults qp).Nodup := by
  unfold reduceReads
  simp only
  split
  · simp
  · next first rest hv =>
    have hemit : ∀ e : EmitStart K F,
        (emitReads SelectMinPK AppendFieldData maxOutputSize e.valid e.reduceStopForBest
          e.realLimit e.loopEnd.toNat e.state).Nodup :=
      fun e => (emitReads_nodup _ _ _ _ _ _ _ _).1
    cases qp with
    | none =>
      simp only [List.nil_append]
      split
      · simp
      · exact hemit _
    | some q =>
      simp only
      by_cases hq : q.limit ≠ Unlimited ∧ q.offset > 0
      · simp only [hq, and_self, if_true]
        unfold reducePrelude
        simp only [hv, hq.1, ne_eq, not_false_eq_true, if_true, hq.2]
        rw [← hv]
        cases hloop : offsetLoop SelectMinPK (validRetrieveResults retrieveResults)
            q.reduceStopForBest q.limit q.offset.toNat
            (List.replicate (validRetrieveResults retrieveResults).length 0) with
        | exhausted =>
          simp only [List.append_nil]
          exact (offsetReads_nodup _ _ _ _ _ _).1
        | panic =>
          simp only [List.append_nil]
          exact (offsetReads_nodup _ _ _ _ _ _).1
        | done cursors' =>
          simp only
          obtain ⟨-, -, -, -, hup⟩ := offsetLoop_done_reads _ _ _ _ _ _ _ hloop
          rw [List.nodup_append]
          refine ⟨(offsetReads_nodup _ _ _ _ _ _).1, (emitReads_nodup _ _ _ _ _ _ _ _).1, ?_⟩
          intro read h1 h2
          obtain ⟨b, hb, hlt⟩ := hup read h1
          obtain ⟨a, ha, hle⟩ := (emitReads_nodup _ _ _ _ _ _ _ _).2 read h2
          simp only [EmitStart.state] at ha
          rw [hb] at ha
          cases ha
          omega
      · simp only [hq, if_false, List.nil_append]
        split
        · simp
        · exact hemit _

end ReadsAny

/-! ## Theorems: the rows and the cursors of the reducer -/

section ReducerRows

variable {K F : Type} [DecidableEq K]

/-- Every row of a result of the emit loop is a row of a valid shard result,
when the rows at the start are. -/
theorem emitLoop_rows_src {SelectMinPK : Selector K F} {AppendFieldData : List F → Nat → Int}
    {maxOutputSize : Int} {valid : List (RetrieveResults K F)} {stop : Bool} {realLimit : Int}
    {numFields : Nat} (n : Nat) (st : ReduceState K F) (ret : QueryResults K F)
    (hst : ∀ row ∈ st.rows, row.src ∈ valid)
    (h : emitLoop SelectMinPK AppendFieldData maxOutputSize valid stop realLimit numFields n st
      = .ok ret) :
    ∀ row ∈ ret.rows, row.src ∈ valid := by
  obtain ⟨stf, hP, rfl⟩ := emitLoop_ok_invariant
    (fun st : ReduceState K F => ∀ row ∈ st.rows, row.src ∈ valid)
    (by
      intro st st1 sel cursor hP hb _
      obtain ⟨r, hr, -, -, ⟨-, rfl⟩ | ⟨-, rfl⟩⟩ := emitBody_next hb
      · exact hP
      · intro row hrow
        simp only [advanceCursor, List.mem_append, List.mem_singleton] at hrow
        rcases hrow with hrow | rfl
        · exact hP row hrow
        · exact List.getElem?_mem hr)
    n st ret hst h
  exact hP

/-- Every row of a returned result is a row of a valid shard result. -/
theorem reduceRetrieveResults_rows_src {SelectMinPK : Selector K F}
    {AppendFieldData : List F → Nat → Int} {maxOutputSize : Int}
    {retrieveResults : List (Option (RetrieveResults K F))} {qp : Option queryParams}
    {ret : QueryResults K F}
    (h : reduceRetrieveResults SelectMinPK AppendFieldData maxOutputSize retrieveResults qp
      = .ok ret) :
    ∀ row ∈ ret.rows, row.src ∈ validRetrieveResults retrieveResults := by
  rcases reducePrelude_ok h with h0 | ⟨e, hp, hloop⟩
  · intro row hrow
    rw [h0] at hrow
    cases hrow
  · rw [← reducePrelude_ok_valid hp]
    exact emitLoop_rows_src _ _ ret (by simp [EmitStart.state]) hloop

end ReducerRows

section DuplicateFree

variable {K F : Type} [LinearOrder K]

/-- C27. For every list of shard results whose id lists are ascending and
whose keys are pairwise distinct across the valid shard results, every limit
`l` set, every offset `o ≥ 0`, early stop not requested and the quota not
exceeded, the call under the selection modelled from the spec returns rows
whose keys are exactly the elements at positions `o` to `o+l-1`, as far as
they exist, of the ascending merge of all keys; every row is the row of a
valid shard result at the cursor position where that result holds the row's
key. -/
theorem reduceRetrieveResults_duplicate_free (AppendFieldData : List F → Nat → Int)
    (maxOutputSize : Int) (retrieveResults : List (Option (RetrieveResults K F)))
    (l o : Int) (hl : l ≠ Unlimited) (ho : 0 ≤ o)
    (hsorted : ∀ r, some r ∈ retrieveResults → r.Ids.Sorted (· ≤ ·))
    (hdistinct : (allKeys retrieveResults).Nodup)
    (hquota : reduceRetrieveResults SelectMinPK AppendFieldData maxOutputSize retrieveResults
      (some ⟨l, o, false⟩) ≠ .exceedMaxOutputSize maxOutputSize) :
    ∃ ret : QueryResults K F,
      reduceRetrieveResults SelectMinPK AppendFieldData maxOutputSize retrieveResults
        (some ⟨l, o, false⟩) = .ok ret ∧
      ret.pks = (((mergedKeys retrieveResults).drop o.toNat).take l.toNat).map some ∧
      (o.toNat : Int) = o ∧
      List.Forall₂
        (fun (row : Row K F) (k : K) =>
          row.src ∈ validRetrieveResults retrieveResults ∧ row.src.Ids[row.idx]? = some k)
        ret.rows (((mergedKeys retrieveResults).drop o.toNat).take l.toNat) := by
  rcases reduceRetrieveResults_SelectMinPK_window AppendFieldData maxOutputSize retrieveResults
    l o hl hsorted with h | ⟨ret, ks, h, hks, -, -, hnd⟩
  · exact absurd h hquota
  · obtain ⟨heq, -⟩ := hnd hdistinct
    subst heq
    refine ⟨ret, h, hks, Int.toNat_of_nonneg ho, ?_⟩
    have hsrc := reduceRetrieveResults_rows_src h
    have hpks : ret.rows.map Row.pk
        = (((mergedKeys retrieveResults).drop o.toNat).take l.toNat).map some := hks
    rw [List.forall₂_iff_get]
    have hlen : ret.rows.length
        = (((mergedKeys retrieveResults).drop o.toNat).take l.toNat).length := by
      have := congrArg List.length hpks
      simpa using this
    refine ⟨hlen, ?_⟩
    intro i h1 h2
    refine ⟨hsrc _ (List.get_mem _ _ _), ?_⟩
    have := congrArg (fun xs => xs[i]?) hpks
    simp only [List.getElem?_map, List.getElem?_eq_getElem h1, List.getElem?_eq_getElem h2,
      Option.map_some'] at this
    simpa [Row.pk, GetPK] using this

end DuplicateFree

section OffsetPhase

variable {K F : Type} [LinearOrder K]

/-- The shard result that the selection modelled from the spec returns holds
the smallest next key and is the first to do so. -/
theorem SelectMinPK_first (results : List (RetrieveResults K F)) (cursors : List Nat)
    (stop : Bool) (realLimit : Int) (j : Nat)
    (h : SelectMinPK results cursors stop realLimit = (j : Int)) :
    IsFirstMin results cursors j := by
  have h' : selectMinPKFrom results cursors 0 (-1) none = (j : Int) := by
    simpa [SelectMinPK] using h
  rcases selectMinPKFrom_spec results cursors 0 (-1) none with
    ⟨h1, -⟩ | ⟨j0, pk, h1, h2, -, h4, h5⟩
  · rw [h1] at h'
    omega
  · rw [h1] at h'
    have hj : j0 = j := by omega
    subst hj
    exact ⟨pk, h2, h4, h5⟩

/-- Every read of the offset loop under the selection modelled from the spec
is at the cursor of the first shard result that holds the smallest next key. -/
theorem offsetReads_MinReads (valid : List (RetrieveResults K F)) (stop : Bool)
    (realLimit : Int) :
    ∀ (n : Nat) (cursors : List Nat),
      MinReads valid cursors (offsetReads SelectMinPK valid stop realLimit n cursors) := by
  intro n
  induction n with
  | zero =>
    intro cursors
    simp [offsetReads, MinReads]
  | succ n ih =>
    intro cursors
    rw [offsetReads]
    split_ifs with h1 h2
    · simp [MinReads]
    · simp [MinReads]
    · split
      · simp [MinReads]
      · next c hc =>
        have hs : ((SelectMinPK valid cursors stop realLimit).toNat : Int)
            = SelectMinPK valid cursors stop realLimit := Int.toNat_of_nonneg (by omega)
        exact ⟨SelectMinPK_first valid cursors stop realLimit _ hs.symm, hc, ih _⟩

/-- The offset loop under the selection modelled from the spec is exhausted
exactly when fewer rows remain than it is to pass; otherwise it passes that
many rows. -/
theorem offsetLoop_SelectMinPK_length (valid : List (RetrieveResults K F)) (stop : Bool)
    (realLimit : Int) :
    ∀ (n : Nat) (cursors : List Nat),
      (offsetLoop SelectMinPK valid stop realLimit n cursors = .exhausted ∧
        (remainingKeys valid cursors).length < n)
      ∨ ∃ cursors', offsetLoop SelectMinPK valid stop realLimit n cursors = .done cursors' ∧
          (remainingKeys valid cursors').length + n = (remainingKeys valid cursors).length := by
  intro n
  induction n with
  | zero => intro cursors; exact Or.inr ⟨cursors, by simp [offsetLoop], by simp⟩
  | succ n ih =>
    intro cursors
    rw [offsetLoop]
    rcases SelectMinPK_cases valid cursors stop realLimit with
      ⟨h1, h2⟩ | ⟨j, r, c, pk, h1, -, hc, -, hperm, -⟩
    · exact Or.inl ⟨by simp [h1], by simp [h2]⟩
    · have hj : ¬ ((j : Int) = -1) := by omega
      have hj2 : ¬ ((j : Int) < 0) := by omega
      simp only [h1, hj, hj2, if_false, Int.toNat_ofNat, hc]
      have hlen := hperm.length_eq
      rw [List.length_cons] at hlen
      rcases ih (cursors.set j (c + 1)) with ⟨h3, h4⟩ | ⟨cursors', h3, h4⟩
      · exact Or.inl ⟨h3, by omega⟩
      · exact Or.inr ⟨cursors', h3, by omega⟩

omit [LinearOrder K] in
/-- The keys that remain with every cursor at zero are all keys. -/
theorem length_remainingKeys_zero (retrieveResults : List (Option (RetrieveResults K F))) :
    (remainingKeys (validRetrieveResults retrieveResults)
      (List.replicate (validRetrieveResults retrieveResults).length 0)).length
      = (allKeys retrieveResults).length := by
  rw [remainingKeys_replicate_zero]
  rfl

/-- C28. For every list of shard results and every query params with a limit
set and an offset `o > 0`, under the selection modelled from the spec.  When
fewer than `o` rows are selectable, the call returns successfully with no
rows.  Otherwise the emit loop is reached after the offset loop has read
exactly `o` rows, each at the cursor of the first shard result holding the
smallest next key, and has advanced that cursor by one each time, so that the
cursors, all zero at the start, sum to `o`; no row is emitted, no key marked
as seen and no size counted by then.  In the whole call no row of a shard
result is read twice. -/
theorem reduceRetrieveResults_offset_phase (AppendFieldData : List F → Nat → Int)
    (maxOutputSize : Int) (retrieveResults : List (Option (RetrieveResults K F)))
    (q : queryParams) (hl : q.limit ≠ Unlimited) (ho : 0 < q.offset) :
    ((allKeys retrieveResults).length < q.offset.toNat →
      ∃ numFields,
        reducePrelude SelectMinPK retrieveResults (some q) = .error (.ok ⟨numFields, []⟩) ∧
        reduceRetrieveResults SelectMinPK AppendFieldData maxOutputSize retrieveResults (some q)
          = .ok ⟨numFields, []⟩)
    ∧ (q.offset.toNat ≤ (allKeys retrieveResults).length →
      ∃ e, reducePrelude SelectMinPK retrieveResults (some q) = .ok e ∧
        e.valid = validRetrieveResults retrieveResults ∧
        (offsetReads SelectMinPK e.valid q.reduceStopForBest q.limit q.offset.toNat
          (List.replicate e.valid.length 0)).length = q.offset.toNat ∧
        MinReads e.valid (List.replicate e.valid.length 0)
          (offsetReads SelectMinPK e.valid q.reduceStopForBest q.limit q.offset.toNat
            (List.replicate e.valid.length 0)) ∧
        e.cursors = advanceAll (List.replicate e.valid.length 0)
          (offsetReads SelectMinPK e.valid q.reduceStopForBest q.limit q.offset.toNat
            (List.replicate e.valid.length 0)) ∧
        e.cursors.sum = q.offset.toNat ∧
        (remainingKeys e.valid e.cursors).length + q.offset.toNat
          = (allKeys retrieveResults).length ∧
        e.state.rows = [] ∧ e.state.idSet = [] ∧ e.state.retSize = 0)
    ∧ (reduceReads SelectMinPK AppendFieldData maxOutputSize retrieveResults (some q)).Nodup := by
  have hpos : 0 < q.offset.toNat := by omega
  refine ⟨?_, ?_, reduceReads_nodup _ _ _ _ _⟩
  · intro hfew
    have hex : ∃ numFields,
        reducePrelude SelectMinPK retrieveResults (some q) = .error (.ok ⟨numFields, []⟩) := by
      unfold reducePrelude
      simp only
      split
      · exact ⟨0, rfl⟩
      · next first rest hv =>
        simp only [hl, ne_eq, not_false_eq_true, if_true, ho]
        rcases offsetLoop_SelectMinPK_length (validRetrieveResults retrieveResults)
            q.reduceStopForBest q.limit q.offset.toNat
            (List.replicate (validRetrieveResults retrieveResults).length 0) with
          ⟨h1, -⟩ | ⟨cursors', -, h2⟩
        · rw [h1]
          exact ⟨_, rfl⟩
        · rw [length_remainingKeys_zero] at h2
          omega
    obtain ⟨numFields, hp⟩ := hex
    refine ⟨numFields, hp, ?_⟩
    unfold reduceRetrieveResults
    rw [hp]
  · intro hmany
    unfold reducePrelude
    simp only
    split
    · next hv =>
      have : (allKeys retrieveResults).length = 0 := by simp [allKeys, hv]
      omega
    · next first rest hv =>
      simp only [hl, ne_eq, not_false_eq_true, if_true, ho]
      rcases offsetLoop_SelectMinPK_length (validRetrieveResults retrieveResults)
          q.reduceStopForBest q.limit q.offset.toNat
          (List.replicate (validRetrieveResults retrieveResults).length 0) with
        ⟨-, h2⟩ | ⟨cursors', h1, h2⟩
      · rw [length_remainingKeys_zero] at h2
        omega
      · rw [h1]
        obtain ⟨r1, r2, r3, -, -⟩ := offsetLoop_done_reads _ _ _ _ _ _ _ h1
        rw [length_remainingKeys_zero] at h2
        refine ⟨_, rfl, rfl, r1, offsetReads_MinReads _ _ _ _ _, r2, ?_, h2, rfl, rfl, rfl⟩
        simp only [r3, List.sum_replicate, smul_eq_mul, mul_zero, zero_add]

end OffsetPhase

/-- Witness of C27: the shard key lists `{1,4}`, `{2,5}`, `{3,6}` with
`offset = 1`, `limit = 3`. -/
theorem reduceRetrieveResults_duplicate_free_witness :
    ∃ ret : QueryResults Int Unit,
      reduceRetrieveResults SelectMinPK (fun _ _ => 1) 100
        [some ⟨[1, 4], [()]⟩, some ⟨[2, 5], [()]⟩, some ⟨[3, 6], [()]⟩]
        (some ⟨3, 1, false⟩) = .ok ret ∧
      ret.pks = [some 2, some 3, some 4] :=
  (reduceRetrieveResults_duplicate_free (fun _ _ => 1) 100
    [some (⟨[1, 4], [()]⟩ : RetrieveResults Int Unit), some ⟨[2, 5], [()]⟩, some ⟨[3, 6], [()]⟩]
    3 1 (by decide) (by decide)
    (by
      intro r hr
      simp only [List.mem_cons, Option.some.injEq, List.mem_singleton, List.not_mem_nil,
        or_false] at hr
      rcases hr with rfl | rfl | rfl <;> decide)
    (by decide)
    (by intro h; cases h)).imp (fun _ h => ⟨h.1, h.2.1⟩)

/-- Witness of C28: the shard key lists `{1,3,5}`, `{2,3,6}`, `{4,5,7}` with
`offset = 2`, `limit = 3`: the offset loop reads the first row of the first
shard result and then the first row of the second. -/
theorem reduceRetrieveResults_offset_phase_witness :
    (∃ e, reducePrelude SelectMinPK
        [some (⟨[1, 3, 5], [()]⟩ : RetrieveResults Int Unit), some ⟨[2, 3, 6], [()]⟩,
          some ⟨[4, 5, 7], [()]⟩] (some ⟨3, 2, false⟩) = .ok e ∧
      e.cursors.sum = 2)
    ∧ (reduceReads SelectMinPK (fun _ _ => 1) 100
        [some (⟨[1, 3, 5], [()]⟩ : RetrieveResults Int Unit), some ⟨[2, 3, 6], [()]⟩,
          some ⟨[4, 5, 7], [()]⟩] (some ⟨3, 2, false⟩)).Nodup
    ∧ offsetReads SelectMinPK
        [(⟨[1, 3, 5], [()]⟩ : RetrieveResults Int Unit), ⟨[2, 3, 6], [()]⟩, ⟨[4, 5, 7], [()]⟩]
        false 3 2 [0, 0, 0] = [(0, 0), (1, 0)] :=
  ⟨((reduceRetrieveResults_offset_phase (fun _ _ => 1) 100
      [some (⟨[1, 3, 5], [()]⟩ : RetrieveResults Int Unit), some ⟨[2, 3, 6], [()]⟩,
        some ⟨[4, 5, 7], [()]⟩] ⟨3, 2, false⟩ (by decide) (by decide)).2.1 (by decide)).imp
      (fun _ h => ⟨h.1, h.2.2.2.2.2.1⟩),
    (reduceRetrieveResults_offset_phase (fun _ _ => 1) 100
      [some (⟨[1, 3, 5], [()]⟩ : RetrieveResults Int Unit), some ⟨[2, 3, 6], [()]⟩,
        some ⟨[4, 5, 7], [()]⟩] ⟨3, 2, false⟩ (by decide) (by decide)).2.2,
    by decide⟩

/-! ## Theorems: the post-execute phase and the system fields -/

/-- Appending the elements of a list one by one gives the list. -/
theorem foldl_append_singleton {α : Type} (xs init : List α) :
    xs.foldl (fun acc x => acc ++ [x]) init = init ++ xs := by
  induction xs generalizing init with
  | nil => simp
  | cons x xs ih => simp [ih]

/-- Appending the elements that pass a test one by one gives the filtered
list. -/
theorem foldl_append_if {α : Type} (p : α → Bool) (xs init : List α) :
    xs.foldl (fun acc x => if p x then acc ++ [x] else acc) init = init ++ xs.filter p := by
  induction xs generalizing init with
  | nil => simp
  | cons x xs ih =>
    cases hp : p x <;> simp [ih, hp, List.filter_cons]

/-- The function `filterSystemFields` keeps the ids that are no system
fields. -/
theorem filterSystemFields_eq_filter (IsSystemField : Int → Bool) (xs : List Int) :
    filterSystemFields IsSystemField xs = xs.filter (fun id => !IsSystemField id) := by
  unfold filterSystemFields
  have h := foldl_append_if (fun id => !IsSystemField id) xs []
  simpa using h

section PostPhase

variable {E K F C : Type}

/-- C31. When the context of the task is done at the `select`, `PostExecute`
returns nil, the reducer is not called and the result of the task stays as it
was (nil if it was nil).  Otherwise the reducer is called once, on the
elements of the result buffer; when it fails, its error is returned; when it
succeeds with a result, nil is returned and the result of the task is that
result with `OutputFields` equal to `userOutputFields`. -/
theorem PostExecute_outcome
    (Reduce : queryTask E → List (Option (ShardResult K F C)) →
      Option (TaskResult K F) × Option GoError)
    (t : queryTask E) (resultBuf : List (Option (ShardResult K F C))) (st : PostState K F C) :
    PostExecute Reduce true t resultBuf st = (st, .returned none)
    ∧ (PostExecute Reduce false t resultBuf st).1.reduced = st.reduced ++ [resultBuf]
    ∧ (∀ err, (Reduce t resultBuf).2 = some err →
        (PostExecute Reduce false t resultBuf st).2 = .returned (some err))
    ∧ (∀ result, Reduce t resultBuf = (some result, none) →
        (PostExecute Reduce false t resultBuf st).2 = .returned none ∧
        (PostExecute Reduce false t resultBuf st).1.result
          = some { result with OutputFields := t.userOutputFields } ∧
        ∀ r, (PostExecute Reduce false t resultBuf st).1.result = some r →
          r.OutputFields = t.userOutputFields ∧ r.toQueryResults = result.toQueryResults) := by
  have hbuf : resultBuf.foldl (fun acc res => acc ++ [res]) [] = resultBuf := by
    rw [foldl_append_singleton]
    rfl
  refine ⟨rfl, ?_, ?_, ?_⟩
  · simp only [PostExecute, Bool.false_eq_true, if_false, hbuf]
    split
    · rfl
    · split <;> rfl
  · intro err herr
    simp only [PostExecute, Bool.false_eq_true, if_false, hbuf, herr]
  · intro result hres
    have hp : PostExecute Reduce false t resultBuf st
        = ({ result := some { result with OutputFields := t.userOutputFields }
             reduced := st.reduced ++ [resultBuf] }, .returned none) := by
      simp only [PostExecute, Bool.false_eq_true, if_false, hbuf, hres]
    rw [hp]
    refine ⟨rfl, rfl, ?_⟩
    intro r hr
    cases hr
    exact ⟨rfl, rfl⟩

end PostPhase

/-- C32. For every field-id list, `filterSystemFields` returns the sub-list,
in order, of the ids that are no system fields: no system field id is in it
(so neither the row id nor the timestamp field id, which are system fields),
every other id occurs in it as often as in the list, and filtering the result
again changes nothing. -/
theorem filterSystemFields_sublist (IsSystemField : Int → Bool) (xs : List Int) :
    filterSystemFields IsSystemField xs = xs.filter (fun id => !IsSystemField id)
    ∧ (filterSystemFields IsSystemField xs).Sublist xs
    ∧ (∀ id, IsSystemField id = true → id ∉ filterSystemFields IsSystemField xs)
    ∧ (∀ id, IsSystemField id = false →
        (filterSystemFields IsSystemField xs).count id = xs.count id)
    ∧ (∀ id, id ∈ filterSystemFields IsSystemField xs ↔ id ∈ xs ∧ IsSystemField id = false)
    ∧ filterSystemFields IsSystemField (filterSystemFields IsSystemField xs)
        = filterSystemFields IsSystemField xs := by
  refine ⟨filterSystemFields_eq_filter _ _, ?_, ?_, ?_, ?_, ?_⟩
  · rw [filterSystemFields_eq_filter]
    exact List.filter_sublist _
  · intro id hid hmem
    rw [filterSystemFields_eq_filter, List.mem_filter] at hmem
    simp [hid] at hmem
  · intro id hid
    rw [filterSystemFields_eq_filter, List.count_filter]
    simp [hid]
  · intro id
    rw [filterSystemFields_eq_filter, List.mem_filter]
    simp
  · simp only [filterSystemFields_eq_filter, List.filter_filter, Bool.and_self]

/-! ## Theorems: codes and flags through statuses and wrappers -/

/-- The error of a status whose code is not zero: a typed error with the
reason, the detail, the code and the retriable flag of the status. -/
theorem merr.Error_of_code (s : Sentinels) (st : commonpb.Status) (hcode : st.Code ≠ 0) :
    merr.Error s (some st)
      = some (.milvus (newMilvusErrorWithDetail st.Reason st.Detail st.Code st.Retriable)) := by
  have hok : merr.Ok (some st) = false := by
    simp [merr.Ok, GetCode, hcode]
  simp [merr.Error, hok, GetCode, hcode, GetReason, GetDetail, GetRetriable]

/-- The error of a status whose code is zero and whose legacy code is not
`Success`: a typed error with the code of the error of the legacy code, not
retriable. -/
theorem merr.Error_of_legacy (s : Sentinels) (st : commonpb.Status) (hcode : st.Code = 0)
    (hlegacy : st.ErrorCode ≠ ErrorCode.ErrorCode_Success) :
    merr.Error s (some st)
      = some (.milvus (newMilvusErrorWithDetail st.Reason st.Detail
          (merr.Code s (some (merr.OldCodeToMerr s st.ErrorCode))) false)) := by
  have hok : merr.Ok (some st) = false := by
    simp [merr.Ok, GetErrorCode, hlegacy]
  simp [merr.Error, hok, GetCode, hcode, GetReason, GetDetail, GetErrorCode]

/-- The code of a typed error that no wrapper surrounds. -/
theorem merr.Code_milvus (s : Sentinels) (e : milvusError) :
    merr.Code s (some (.milvus e)) = e.code := rfl

/-- C34. For every status with a `Code` that is not zero, whatever its legacy
`ErrorCode`, `Error` returns an error with exactly that code and with the
retriable flag of the status.  For every status with `Code = 0` and an
`ErrorCode` that is not `Success`, `Error` returns an error with the code of
`OldCodeToMerr(ErrorCode)` that is not retriable. -/
theorem merr_Error_code_first (s : Sentinels) :
    (∀ st : commonpb.Status, st.Code ≠ 0 →
      merr.Error s (some st) ≠ none ∧
      merr.Code s (merr.Error s (some st)) = st.Code ∧
      merr.IsRetryableErr (merr.Error s (some st)) = st.Retriable)
    ∧ (∀ st : commonpb.Status, st.Code = 0 → st.ErrorCode ≠ ErrorCode.ErrorCode_Success →
      merr.Error s (some st) ≠ none ∧
      merr.Code s (merr.Error s (some st))
        = merr.Code s (some (merr.OldCodeToMerr s st.ErrorCode)) ∧
      merr.IsRetryableErr (merr.Error s (some st)) = false) := by
  constructor
  · intro st hcode
    rw [merr.Error_of_code s st hcode]
    exact ⟨by simp, rfl, rfl⟩
  · intro st hcode hlegacy
    rw [merr.Error_of_legacy s st hcode hlegacy]
    exact ⟨by simp, rfl, rfl⟩

/-- The retriable flag under a message wrapper: `IsRetryableErr` returns the
flag of a typed error itself and false for the wrapped error, whose code is
still that of the typed error; the status of the wrapped error has that code
and is not retriable. -/
theorem merr.IsRetryableErr_wrap (s : Sentinels) (e : milvusError) (msg : String) :
    merr.IsRetryableErr (some (.milvus e)) = e.retriable
    ∧ merr.IsRetryableErr (some (errors.Wrap (.milvus e) msg)) = false
    ∧ merr.Code s (some (errors.Wrap (.milvus e) msg)) = e.code
    ∧ (merr.Status s (some (errors.Wrap (.milvus e) msg))).Code = e.code
    ∧ (merr.Status s (some (errors.Wrap (.milvus e) msg))).Retriable = false :=
  ⟨rfl, rfl, rfl, rfl, rfl⟩

/-- C37 at a concrete input: the error that `WrapErrServiceNotReady` builds
from the retriable sentinel `ErrServiceNotReady` of `exampleSentinels` is
retriable without further messages; with the message `ctx` it is wrapped, its
code is still that of the sentinel, and `IsRetryableErr` and the status of the
wrapped error report it as not retriable. -/
theorem merr_IsRetryableErr_lost_by_wrapping :
    merr.IsRetryableErr (some (WrapErrServiceNotReady exampleSentinels "proxy" 1 "Abnormal" []))
      = true
    ∧ merr.IsRetryableErr
        (some (WrapErrServiceNotReady exampleSentinels "proxy" 1 "Abnormal" ["ctx"])) = false
    ∧ merr.Code exampleSentinels
        (some (WrapErrServiceNotReady exampleSentinels "proxy" 1 "Abnormal" ["ctx"]))
      = merr.Code exampleSentinels
        (some (WrapErrServiceNotReady exampleSentinels "proxy" 1 "Abnormal" []))
    ∧ (merr.Status exampleSentinels
        (some (WrapErrServiceNotReady exampleSentinels "proxy" 1 "Abnormal" ["ctx"]))).Code = 1
    ∧ (merr.Status exampleSentinels
        (some (WrapErrServiceNotReady exampleSentinels "proxy" 1 "Abnormal" ["ctx"]))).Retriable
      = false :=
  ⟨rfl, rfl, rfl, rfl, rfl⟩

/-- C38. For every non-nil error whose code is not zero, `Error(Status(err))`
is a non-nil error with the code of `err` and with the retriable flag of
`Status(err)`; the status of that error has the `Code` and the `ErrorCode` of
`Status(err)`. -/
theorem merr_Status_Error_round_trip (s : Sentinels) (err : GoError)
    (hcode : merr.Code s (some err) ≠ 0) :
    merr.Error s (some (merr.Status s (some err))) ≠ none
    ∧ merr.Code s (merr.Error s (some (merr.Status s (some err)))) = merr.Code s (some err)
    ∧ merr.IsRetryableErr (merr.Error s (some (merr.Status s (some err))))
        = (merr.Status s (some err)).Retriable
    ∧ (merr.Status s (merr.Error s (some (merr.Status s (some err))))).Code
        = (merr.Status s (some err)).Code
    ∧ (merr.Status s (merr.Error s (some (merr.Status s (some err))))).ErrorCode
        = (merr.Status s (some err)).ErrorCode := by
  have hst : (merr.Status s (some err)).Code ≠ 0 := hcode
  rw [merr.Error_of_code s _ hst]
  exact ⟨by simp, rfl, rfl, rfl, rfl⟩

/-- Witness of C38: the retriable sentinel `ErrServiceNotReady` of
`exampleSentinels` under the message `ctx`. -/
theorem merr_Status_Error_round_trip_witness :
    merr.Code exampleSentinels (merr.Error exampleSentinels
        (some (merr.Status exampleSentinels
          (some (.wrap "ctx" (.milvus exampleSentinels.ErrServiceNotReady)))))) = 1 :=
  (merr_Status_Error_round_trip exampleSentinels
    (.wrap "ctx" (.milvus exampleSentinels.ErrServiceNotReady)) (by decide)).2.1

/-- C39 (amended). When the codes of the sentinel errors are pairwise
distinct, the legacy codes `NotReadyServe`, `CollectionNotExists`,
`IllegalArgument`, `NodeIDNotMatch`, `InsufficientMemoryToLoad`, `RateLimit`,
`ForceDeny`, `IndexNotExist` and `SegmentNotFound` come back from
`oldCode(Code(OldCodeToMerr(c)))` as they went in, and `MemoryQuotaExhausted`,
which shares the error of `InsufficientMemoryToLoad`, comes back as
`InsufficientMemoryToLoad`. -/
theorem merr_oldCode_round_trip (s : Sentinels) (hdistinct : s.codes.Nodup) (c : ErrorCode)
    (hc : c ∈ [ErrorCode.ErrorCode_NotReadyServe, ErrorCode.ErrorCode_CollectionNotExists,
      ErrorCode.ErrorCode_IllegalArgument, ErrorCode.ErrorCode_NodeIDNotMatch,
      ErrorCode.ErrorCode_InsufficientMemoryToLoad, ErrorCode.ErrorCode_RateLimit,
      ErrorCode.ErrorCode_ForceDeny, ErrorCode.ErrorCode_IndexNotExist,
      ErrorCode.ErrorCode_SegmentNotFound]) :
    merr.oldCode s (merr.Code s (some (merr.OldCodeToMerr s c))) = c
    ∧ merr.oldCode s (merr.Code s (some (merr.OldCodeToMerr s
        ErrorCode.ErrorCode_MemoryQuotaExhausted))) = ErrorCode.ErrorCode_InsufficientMemoryToLoad := by
  simp only [Sentinels.codes, List.nodup_cons, List.mem_cons, List.mem_singleton, not_or,
    List.not_mem_nil, not_false_eq_true, List.nodup_nil, and_true] at hdistinct
  simp only [List.mem_cons, List.mem_singleton, List.not_mem_nil, or_false] at hc
  obtain ⟨h1, h2, h3, h4, h5, h6, h7, h8, h9, h10, h11, h12, h13, h14, h15, h16, h17⟩ :=
    hdistinct
  constructor
  · rcases hc with rfl | rfl | rfl | rfl | rfl | rfl | rfl | rfl | rfl <;>
      simp only [merr.OldCodeToMerr, merr.Code_milvus, merr.oldCode] <;>
      simp [*, eq_comm]
  · simp only [merr.OldCodeToMerr, merr.Code_milvus, merr.oldCode]
    simp [*, eq_comm]

/-- Counterexample to C39 as stated: the codes of `exampleSentinels` are
pairwise distinct, and the legacy codes `MemoryQuotaExhausted`,
`DiskQuotaExhausted` and `MetaFailed`, none of them a default case of
`OldCodeToMerr`, come back as `InsufficientMemoryToLoad`, `UnexpectedError`
and `UnexpectedError`. -/
theorem merr_oldCode_round_trip_fails :
    exampleSentinels.codes.Nodup
    ∧ merr.OldCodeToMerr exampleSentinels ErrorCode.ErrorCode_MemoryQuotaExhausted
        ≠ .milvus exampleSentinels.errUnexpected
    ∧ merr.oldCode exampleSentinels (merr.Code exampleSentinels
        (some (merr.OldCodeToMerr exampleSentinels ErrorCode.ErrorCode_MemoryQuotaExhausted)))
      = ErrorCode.ErrorCode_InsufficientMemoryToLoad
    ∧ merr.oldCode exampleSentinels (merr.Code exampleSentinels
        (some (merr.OldCodeToMerr exampleSentinels ErrorCode.ErrorCode_DiskQuotaExhausted)))
      = ErrorCode.ErrorCode_UnexpectedError
    ∧ merr.oldCode exampleSentinels (merr.Code exampleSentinels
        (some (merr.OldCodeToMerr exampleSentinels ErrorCode.ErrorCode_MetaFailed)))
      = ErrorCode.ErrorCode_UnexpectedError := by
  refine ⟨by decide, by decide, by decide, by decide, by decide⟩

/-- Witness of C39 (amended): the legacy code `RateLimit` on
`exampleSentinels`. -/
theorem merr_oldCode_round_trip_witness :
    merr.oldCode exampleSentinels (merr.Code exampleSentinels
        (some (merr.OldCodeToMerr exampleSentinels ErrorCode.ErrorCode_RateLimit)))
      = ErrorCode.ErrorCode_RateLimit :=
  (merr_oldCode_round_trip exampleSentinels (by decide) ErrorCode.ErrorCode_RateLimit
    (by decide)).1

/-! ## Theorems: query params without a limit -/

/-- C35 (amended). For every key/value list without the key `limit`, the
outcome of `parseQueryParams` is decided by `reduce_stop_for_best` alone: when
that key is absent or its value parses as a boolean `b`, the call returns
`limit = Unlimited`, `offset = 0` and the flag (`false` when absent); when its
value does not parse, the call fails with the parameter-invalid error.  An
`offset` pair with any value, inserted at any position, does not change the
outcome, nor do the integer parser and the window validation, which are not
run; every successful result has `limit = Unlimited` and `offset = 0`. -/
theorem parseQueryParams_without_limit (ParseInt ParseInt2 : String → Option Int)
    (validateMaxQueryResultWindow validate2 : Int → Int → Option String)
    (before after : List KeyValuePair) (offsetStr : String)
    (hlimit : ∀ kv ∈ before ++ after, kv.Key ≠ LimitKey) :
    (GetAttrByKeyFromRepeatedKV ReduceStopForBestKey (before ++ after) = none →
      parseQueryParams ParseInt validateMaxQueryResultWindow (before ++ after)
        = .ok ⟨Unlimited, 0, false⟩)
    ∧ (∀ str b, GetAttrByKeyFromRepeatedKV ReduceStopForBestKey (before ++ after) = some str →
      ParseBool str = some b →
      parseQueryParams ParseInt validateMaxQueryResultWindow (before ++ after)
        = .ok ⟨Unlimited, 0, b⟩)
    ∧ (∀ str, GetAttrByKeyFromRepeatedKV ReduceStopForBestKey (before ++ after) = some str →
      ParseBool str = none →
      parseQueryParams ParseInt validateMaxQueryResultWindow (before ++ after)
        = .error (.reduceStopForBestInvalid str))
    ∧ parseQueryParams ParseInt validateMaxQueryResultWindow
        (before ++ ⟨OffsetKey, offsetStr⟩ :: after)
      = parseQueryParams ParseInt2 validate2 (before ++ after)
    ∧ (∀ qp, parseQueryParams ParseInt validateMaxQueryResultWindow
        (before ++ ⟨OffsetKey, offsetStr⟩ :: after) = .ok qp →
      qp.limit = Unlimited ∧ qp.offset = 0) := by
  have h0 := GetAttrByKeyFromRepeatedKV_absent LimitKey (before ++ after) hlimit
  have h1 : GetAttrByKeyFromRepeatedKV LimitKey (before ++ ⟨OffsetKey, offsetStr⟩ :: after)
      = none := by
    rw [GetAttrByKeyFromRepeatedKV_insert LimitKey before after ⟨OffsetKey, offsetStr⟩
      (show OffsetKey ≠ LimitKey by decide)]
    exact h0
  have h2 : GetAttrByKeyFromRepeatedKV ReduceStopForBestKey
      (before ++ ⟨OffsetKey, offsetStr⟩ :: after)
      = GetAttrByKeyFromRepeatedKV ReduceStopForBestKey (before ++ after) :=
    GetAttrByKeyFromRepeatedKV_insert ReduceStopForBestKey before after ⟨OffsetKey, offsetStr⟩
      (show OffsetKey ≠ ReduceStopForBestKey by decide)
  have heq : parseQueryParams ParseInt validateMaxQueryResultWindow
        (before ++ ⟨OffsetKey, offsetStr⟩ :: after)
      = parseQueryParams ParseInt2 validate2 (before ++ after) := by
    simp only [parseQueryParams, h0, h1, h2]
  refine ⟨?_, ?_, ?_, heq, ?_⟩
  · intro hs
    simp only [parseQueryParams, h0, hs]
  · intro str b hs hb
    simp only [parseQueryParams, h0, hs, hb]
  · intro str hs hb
    simp only [parseQueryParams, h0, hs, hb]
  · intro qp hqp
    rcases parseQueryParams_ok_cases hqp with h | h
    · exact h.2
    · exact absurd h1 h.1

/-- Counterexample to C35 as stated: the list of the one pair
`reduce_stop_for_best = maybe` has no `limit` key, and the call fails instead
of returning `limit = Unlimited` and `offset = 0`. -/
theorem parseQueryParams_without_limit_fails :
    (∀ kv ∈ [(⟨"reduce_stop_for_best", "maybe"⟩ : KeyValuePair)], kv.Key ≠ LimitKey)
    ∧ parseQueryParams exampleParseInt exampleWindow [⟨"reduce_stop_for_best", "maybe"⟩]
      = .error (.reduceStopForBestInvalid "maybe")
    ∧ ¬ ∃ qp, parseQueryParams exampleParseInt exampleWindow [⟨"reduce_stop_for_best", "maybe"⟩]
      = .ok qp := by
  have h : parseQueryParams exampleParseInt exampleWindow [⟨"reduce_stop_for_best", "maybe"⟩]
      = .error (.reduceStopForBestInvalid "maybe") := by
    simp only [parseQueryParams, GetAttrByKeyFromRepeatedKV, ReduceStopForBestKey]
    rfl
  refine ⟨by decide, h, ?_⟩
  rintro ⟨qp, hqp⟩
  rw [h] at hqp
  cases hqp

/-- Witness of C35 (amended): the pair `offset = abc` put after
`reduce_stop_for_best = true`. -/
theorem parseQueryParams_without_limit_witness :
    parseQueryParams exampleParseInt exampleWindow
        ([⟨"reduce_stop_for_best", "true"⟩] ++ ⟨OffsetKey, "abc"⟩ :: [])
      = parseQueryParams exampleParseInt exampleWindow ([⟨"reduce_stop_for_best", "true"⟩] ++ []) :=
  (parseQueryParams_without_limit exampleParseInt exampleParseInt exampleWindow exampleWindow
    [⟨"reduce_stop_for_best", "true"⟩] [] "abc" (by decide)).2.2.2.1

/-! ## Theorems: the limit as a bound on the rows -/

section LimitBound

variable {K F : Type} [DecidableEq K]

/-- A pass of the emit loop appends at most one row. -/
theorem emitBody_next_rows {SelectMinPK : Selector K F} {AppendFieldData : List F → Nat → Int}
    {valid : List (RetrieveResults K F)} {stop : Bool} {realLimit : Int}
    {st st1 : ReduceState K F} {sel cursor : Nat}
    (h : emitBody SelectMinPK AppendFieldData valid stop realLimit st = .next st1 sel cursor) :
    st1.rows.length ≤ st.rows.length + 1 := by
  unfold emitBody at h
  simp only at h
  split_ifs at h
  split at h
  · split_ifs at h
    · cases h; omega
    · cases h; simp
  · cases h

/-- The emit loop run for at most `n` passes appends at most `n` rows. -/
theorem emitLoop_ok_length {SelectMinPK : Selector K F} {AppendFieldData : List F → Nat → Int}
    {maxOutputSize : Int} {valid : List (RetrieveResults K F)} {stop : Bool} {realLimit : Int}
    {numFields : Nat} :
    ∀ (n : Nat) (st : ReduceState K F) (ret : QueryResults K F),
      emitLoop SelectMinPK AppendFieldData maxOutputSize valid stop realLimit numFields n st
        = .ok ret →
      ret.rows.length ≤ st.rows.length + n := by
  intro n
  induction n with
  | zero =>
    intro st ret h
    simp only [emitLoop, Outcome.ok.injEq] at h
    rw [← h]
    exact Nat.le_refl _
  | succ n ih =>
    intro st ret h
    rw [emitLoop] at h
    split at h
    · simp only [Outcome.ok.injEq] at h
      rw [← h]
      exact Nat.le_add_right _ _
    · cases h
    · next st1 sel cursor hb =>
      split_ifs at h with hq
      have h1 := ih _ ret h
      have h2 := emitBody_next_rows hb
      have h3 : (advanceCursor st1 sel cursor).rows = st1.rows := rfl
      rw [h3] at h1
      omega

omit [DecidableEq K] in
/-- With a limit set, the bound handed to the emit loop is the limit when
early stop is not requested and the number of ids of the valid results when
it is. -/
theorem reducePrelude_ok_limited {SelectMinPK : Selector K F}
    {retrieveResults : List (Option (RetrieveResults K F))} {q : queryParams}
    {e : EmitStart K F} (hlimit : q.limit ≠ Unlimited)
    (h : reducePrelude SelectMinPK retrieveResults (some q) = .ok e) :
    e.loopEnd = if !q.reduceStopForBest then q.limit
      else (sumOfSizes (validRetrieveResults retrieveResults) : Int) := by
  unfold reducePrelude at h
  simp only at h
  split at h
  · cases h
  · next first rest hv =>
    simp only [hlimit, ne_eq, not_false_eq_true, if_true] at h
    by_cases hoff : q.offset > 0
    · rw [if_pos hoff] at h
      split at h
      · cases h
      · cases h
      · cases h; rfl
    · rw [if_neg hoff] at h
      cases h; rfl

/-- C36 (amended). For every list of shard results and every queryParams
with a limit `l` set (`l ≠ Unlimited`), a successful call returns at most
`max(l, 0)` rows when reduceStopForBest is false, and at most as many rows as
the valid shard results hold ids when reduceStopForBest is true. -/
theorem reduceRetrieveResults_limit_bound (SelectMinPK : Selector K F)
    (AppendFieldData : List F → Nat → Int) (maxOutputSize : Int)
    (retrieveResults : List (Option (RetrieveResults K F))) (q : queryParams)
    (ret : QueryResults K F) (hlimit : q.limit ≠ Unlimited)
    (h : reduceRetrieveResults SelectMinPK AppendFieldData maxOutputSize retrieveResults (some q)
      = .ok ret) :
    (q.reduceStopForBest = false → (ret.rows.length : Int) ≤ max q.limit 0)
    ∧ (q.reduceStopForBest = true →
      ret.rows.length ≤ sumOfSizes (validRetrieveResults retrieveResults)) := by
  rcases reducePrelude_ok h with h0 | ⟨e, he, hloop⟩
  · rw [h0]
    exact ⟨fun _ => by simp, fun _ => Nat.zero_le _⟩
  · have hlen := emitLoop_ok_length _ _ _ hloop
    have hrows : e.state.rows.length = 0 := rfl
    have hend := reducePrelude_ok_limited hlimit he
    constructor
    · intro hstop
      rw [hstop] at hend
      simp only [Bool.not_false, if_true] at hend
      rw [hend] at hlen
      have := Int.toNat_le_toNat (le_max_left q.limit 0)
      have h2 : ((max q.limit 0).toNat : Int) = max q.limit 0 :=
        Int.toNat_of_nonneg (le_max_right q.limit 0)
      omega
    · intro hstop
      rw [hstop] at hend
      simp only [Bool.not_true, Bool.false_eq_true, if_false] at hend
      rw [hend] at hlen
      simpa [hrows] using hlen

end LimitBound

/-- Counterexample to C36 as stated: with the limit 2 and reduceStopForBest
true, the shards `[1, 3]` and `[2, 4]` reduce to four rows; with the limit
`-2`, reduceStopForBest false and no shard result, the call returns zero rows,
more than the limit. -/
theorem reduceRetrieveResults_limit_exceeded :
    (∃ ret : QueryResults Int Unit,
      reduceRetrieveResults SelectMinPK (fun _ _ => 1) 100
        [some ⟨[1, 3], [()]⟩, some ⟨[2, 4], [()]⟩] (some ⟨2, 0, true⟩) = .ok ret
      ∧ ret.rows.length = 4 ∧ ¬ ((ret.rows.length : Int) ≤ 2))
    ∧ (∃ ret : QueryResults Int Unit,
      reduceRetrieveResults SelectMinPK (fun _ _ => 1) 100 [] (some ⟨-2, 0, false⟩) = .ok ret
      ∧ ret.rows.length = 0 ∧ ¬ ((ret.rows.length : Int) ≤ -2)) :=
  ⟨⟨_, rfl, rfl, by decide⟩, ⟨_, rfl, rfl, by decide⟩⟩

/-- Witness of C36 (amended): the shards `[1, 3]` and `[2, 4]` with the limit
2 and reduceStopForBest false reduce to the rows of the keys 1 and 2. -/
theorem reduceRetrieveResults_limit_bound_witness :
    ((⟨1, [⟨⟨[1, 3], [()]⟩, 0⟩, ⟨⟨[2, 4], [()]⟩, 0⟩]⟩ : QueryResults Int Unit).rows.length : Int)
      ≤ max 2 0 :=
  (reduceRetrieveResults_limit_bound SelectMinPK (fun _ _ => 1) 100
    [some ⟨[1, 3], [()]⟩, some ⟨[2, 4], [()]⟩] ⟨2, 0, false⟩
    ⟨1, [⟨⟨[1, 3], [()]⟩, 0⟩, ⟨⟨[2, 4], [()]⟩, 0⟩]⟩ (by decide) (by rfl)).1 rfl

/-! ## Theorems: the earliest checkpoint of a segment buffer -/

/-- The loop of `getEarliestCheckpoint` after one more argument. -/
theorem getEarliestCheckpoint_concat (cps : List (Option MsgPosition))
    (cp : Option MsgPosition) :
    getEarliestCheckpoint (cps ++ [cp])
      = match cp with
        | none => getEarliestCheckpoint cps
        | some cp =>
          match getEarliestCheckpoint cps with
          | none => some cp
          | some r => if cp.Timestamp < r.Timestamp then some cp else some r := by
  cases cp <;>
    simp only [getEarliestCheckpoint, List.foldl_append, List.foldl_cons, List.foldl_nil]

/-- The result of `getEarliestCheckpoint`: nil when every argument is nil,
else the first of the non-nil arguments with the least timestamp. -/
theorem getEarliestCheckpoint_first_min (cps : List (Option MsgPosition)) :
    (getEarliestCheckpoint cps = none ↔ ∀ cp ∈ cps, cp = none)
    ∧ (∀ r, getEarliestCheckpoint cps = some r →
      ∃ i, cps[i]? = some (some r)
        ∧ (∀ (j : Nat) (p : MsgPosition), cps[j]? = some (some p) → r.Timestamp ≤ p.Timestamp)
        ∧ (∀ (j : Nat) (p : MsgPosition), j < i → cps[j]? = some (some p) →
          r.Timestamp < p.Timestamp)) := by
  induction cps using List.reverseRecOn with
  | nil =>
    refine ⟨by simp [getEarliestCheckpoint], ?_⟩
    intro r hr
    simp [getEarliestCheckpoint] at hr
  | append_singleton cps cp ih =>
    obtain ⟨ihnone, ihsome⟩ := ih
    rw [getEarliestCheckpoint_concat]
    cases cp with
    | none =>
      simp only
      constructor
      · rw [ihnone]
        constructor
        · intro h cp hcp
          rcases List.mem_append.mp hcp with hm | hm
          · exact h cp hm
          · simpa using hm
        · intro h cp hcp
          exact h cp (List.mem_append_left _ hcp)
      · intro r hr
        obtain ⟨i, hi, hle, hlt⟩ := ihsome r hr
        have hilt : i < cps.length := by
          by_contra hge
          rw [List.getElem?_eq_none (by omega)] at hi
          cases hi
        refine ⟨i, by rw [List.getElem?_append_left hilt]; exact hi, ?_, ?_⟩
        · intro j p hj
          by_cases hjlt : j < cps.length
          · rw [List.getElem?_append_left hjlt] at hj
            exact hle j p hj
          · rw [List.getElem?_append_right (by omega)] at hj
            by_cases hj0 : j - cps.length = 0
            · rw [hj0] at hj
              simp at hj
            · rw [List.getElem?_eq_none (by simp; omega)] at hj
              cases hj
        · intro j p hji hj
          rw [List.getElem?_append_left (by omega)] at hj
          exact hlt j p hji hj
    | some cp =>
      simp only
      cases hres : getEarliestCheckpoint cps with
      | none =>
        simp only
        have hall := ihnone.mp hres
        constructor
        · constructor
          · intro h
            cases h
          · intro h
            have := h (some cp) (by simp)
            cases this
        · intro r hr
          cases hr
          refine ⟨cps.length, by simp, ?_, ?_⟩
          · intro j p hj
            by_cases hjlt : j < cps.length
            · rw [List.getElem?_append_left hjlt] at hj
              have hmem := (List.mem_iff_getElem?.mpr ⟨_, hj⟩)
              cases hall _ hmem
            · rw [List.getElem?_append_right (by omega)] at hj
              by_cases hj0 : j - cps.length = 0
              · rw [hj0] at hj
                simp at hj
                rw [hj]
              · rw [List.getElem?_eq_none (by simp; omega)] at hj
                cases hj
          · intro j p hji hj
            rw [List.getElem?_append_left hji] at hj
            have hmem := (List.mem_iff_getElem?.mpr ⟨_, hj⟩)
            cases hall _ hmem
      | some r0 =>
        simp only
        obtain ⟨i, hi, hle, hlt⟩ := ihsome r0 hres
        have hilt : i < cps.length := by
          by_contra hge
          rw [List.getElem?_eq_none (by omega)] at hi
          cases hi
        constructor
        · constructor
          · intro h
            split_ifs at h
          · intro h
            have := h (some cp) (by simp)
            cases this
        · intro r hr
          by_cases hcmp : cp.Timestamp < r0.Timestamp
          · rw [if_pos hcmp] at hr
            cases hr
            refine ⟨cps.length, by simp, ?_, ?_⟩
            · intro j p hj
              by_cases hjlt : j < cps.length
              · rw [List.getElem?_append_left hjlt] at hj
                have := hle j p hj
                omega
              · rw [List.getElem?_append_right (by omega)] at hj
                by_cases hj0 : j - cps.length = 0
                · rw [hj0] at hj
                  simp at hj
                  rw [hj]
                · rw [List.getElem?_eq_none (by simp; omega)] at hj
                  cases hj
            · intro j p hji hj
              rw [List.getElem?_append_left hji] at hj
              have := hle j p hj
              omega
          · rw [if_neg hcmp] at hr
            cases hr
            refine ⟨i, by rw [List.getElem?_append_left hilt]; exact hi, ?_, ?_⟩
            · intro j p hj
              by_cases hjlt : j < cps.length
              · rw [List.getElem?_append_left hjlt] at hj
                exact hle j p hj
              · rw [List.getElem?_append_right (by omega)] at hj
                by_cases hj0 : j - cps.length = 0
                · rw [hj0] at hj
                  simp at hj
                  rw [← hj]
                  omega
                · rw [List.getElem?_eq_none (by simp; omega)] at hj
                  cases hj
            · intro j p hji hj
              rw [List.getElem?_append_left (by omega)] at hj
              exact hlt j p hji hj

/-- C40. For every argument list of possibly-nil positions, the result of
`getEarliestCheckpoint` is nil if and only if every argument is nil;
otherwise the result is one of the non-nil arguments, its timestamp is at
most the timestamp of every non-nil argument, and every non-nil argument
before it has a greater timestamp, so that it is the first with the least
timestamp; `segmentBuffer.EarliestPosition` is the function applied to the
start positions of the insert buffer and of the delta buffer, in this
order. -/
theorem getEarliestCheckpoint_earliest (cps : List (Option MsgPosition)) (buf : segmentBuffer) :
    (getEarliestCheckpoint cps = none ↔ ∀ cp ∈ cps, cp = none)
    ∧ (∀ r, getEarliestCheckpoint cps = some r →
      ∃ i, cps[i]? = some (some r)
        ∧ (∀ (j : Nat) (p : MsgPosition), cps[j]? = some (some p) → r.Timestamp ≤ p.Timestamp)
        ∧ (∀ (j : Nat) (p : MsgPosition), j < i → cps[j]? = some (some p) →
          r.Timestamp < p.Timestamp))
    ∧ buf.EarliestPosition
      = getEarliestCheckpoint [buf.insertBuffer.startPos, buf.deltaBuffer.startPos] :=
  ⟨(getEarliestCheckpoint_first_min cps).1, (getEarliestCheckpoint_first_min cps).2, rfl⟩

/-! ## Theorems: the expression of a list of ids -/

/-- A decimal digit is neither white space nor a bracket. -/
theorem digitChar_plain (n : Nat) (h : n < 10) : plainChar (Nat.digitChar n) = true := by
  interval_cases n <;> decide

/-- The digits of a number are neither white space nor brackets. -/
theorem toDigitsCore_plain : ∀ (fuel n : Nat) (ds : List Char),
    (∀ c ∈ ds, plainChar c = true) → ∀ c ∈ Nat.toDigitsCore 10 fuel n ds, plainChar c = true := by
  intro fuel
  induction fuel with
  | zero => intro n ds h; simpa [Nat.toDigitsCore] using h
  | succ fuel ih =>
    intro n ds h
    rw [Nat.toDigitsCore]
    have hd : plainChar (Nat.digitChar (n % 10)) = true :=
      digitChar_plain _ (Nat.mod_lt _ (by decide))
    have hcons : ∀ c ∈ Nat.digitChar (n % 10) :: ds, plainChar c = true := by
      intro c hc
      rcases List.mem_cons.mp hc with rfl | hc
      · exact hd
      · exact h c hc
    split_ifs
    · exact hcons
    · exact ih _ _ hcons

/-- A number has at least one digit. -/
theorem toDigitsCore_ne_nil : ∀ (fuel n : Nat) (ds : List Char),
    0 < fuel → Nat.toDigitsCore 10 fuel n ds ≠ [] := by
  intro fuel
  induction fuel with
  | zero => intro n ds h; omega
  | succ fuel ih =>
    intro n ds _
    rw [Nat.toDigitsCore]
    split_ifs
    · simp
    · cases fuel with
      | zero => simp [Nat.toDigitsCore]
      | succ fuel => exact ih _ _ (by omega)

/-- The decimal rendering of a natural number is the list of its digits. -/
theorem toString_nat_data (n : Nat) : (toString n).data = Nat.toDigits 10 n := rfl

/-- The decimal rendering of an integer is not empty and holds neither white
space nor a bracket. -/
theorem toString_int_plain (i : Int) :
    (toString i).data ≠ [] ∧ ∀ c ∈ (toString i).data, plainChar c = true := by
  cases i with
  | ofNat n =>
    show (toString n).data ≠ [] ∧ ∀ c ∈ (toString n).data, plainChar c = true
    rw [toString_nat_data]
    exact ⟨toDigitsCore_ne_nil _ _ _ (by omega), toDigitsCore_plain _ _ _ (by simp)⟩
  | negSucc n =>
    show ("-" ++ toString (n + 1)).data ≠ []
      ∧ ∀ c ∈ ("-" ++ toString (n + 1)).data, plainChar c = true
    rw [String.data_append, toString_nat_data]
    refine ⟨by simp, ?_⟩
    intro c hc
    rcases List.mem_append.mp hc with hc | hc
    · simp at hc; subst hc; decide
    · exact toDigitsCore_plain _ _ _ (by simp) c hc

/-- A plain character is no white space and no bracket. -/
theorem plainChar_iff (c : Char) :
    plainChar c = true ↔ isSpace c = false ∧ c ≠ '[' ∧ c ≠ ']' := by
  simp [plainChar, and_assoc]

/-- The scan of `strings.Fields` takes a word without white space into the
field begun. -/
theorem fieldsFrom_word (w : List Char) (hw : ∀ c ∈ w, isSpace c = false)
    (rest cur : List Char) : fieldsFrom (w ++ rest) cur = fieldsFrom rest (cur ++ w) := by
  induction w generalizing cur with
  | nil => simp
  | cons c w ih =>
    have hc : isSpace c = false := hw c (by simp)
    rw [List.cons_append, fieldsFrom]
    simp only [hc, Bool.false_eq_true, if_false]
    rw [ih (fun c hc => hw c (by simp [hc]))]
    simp

/-- The join of a list with a first element and more. -/
theorem joinChars_cons_of_ne_nil (sep w : List Char) (ws : List (List Char)) (h : ws ≠ []) :
    joinChars sep (w :: ws) = w ++ sep ++ joinChars sep ws := by
  cases ws with
  | nil => exact absurd rfl h
  | cons a l => rfl

/-- The fields of words joined by a blank and closed by a bracket, joined
again by any separator: the words with that separator between them. -/
theorem fieldsFrom_joinChars (sep : List Char) :
    ∀ (ws : List (List Char)) (cur : List Char),
      (∀ w ∈ ws, w ≠ [] ∧ ∀ c ∈ w, isSpace c = false) →
      joinChars sep (fieldsFrom (joinChars [' '] ws ++ [']']) cur)
        = cur ++ joinChars sep ws ++ [']'] := by
  have hclose : ∀ cur : List Char, fieldsFrom [']'] cur = [cur ++ [']']] := by
    intro cur
    have h1 : isSpace ']' = false := by decide
    simp [fieldsFrom, h1]
  intro ws
  induction ws with
  | nil =>
    intro cur _
    simp only [joinChars, List.nil_append, List.append_nil, hclose]
  | cons w ws ih =>
    intro cur hws
    have hw := hws w (by simp)
    have hrest : ∀ w2 ∈ ws, w2 ≠ [] ∧ ∀ c ∈ w2, isSpace c = false :=
      fun w2 h2 => hws w2 (by simp [h2])
    cases ws with
    | nil =>
      simp only [joinChars]
      rw [fieldsFrom_word w hw.2, hclose]
      simp [joinChars]
    | cons w2 ws2 =>
      have hne : (w2 :: ws2) ≠ [] := by simp
      rw [joinChars_cons_of_ne_nil [' '] w _ hne, joinChars_cons_of_ne_nil sep w _ hne]
      have hsp : isSpace ' ' = true := by decide
      have hcur : cur ++ w ≠ [] := by
        intro h
        exact hw.1 (List.append_eq_nil.mp h).2
      have hstep : fieldsFrom (w ++ [' '] ++ joinChars [' '] (w2 :: ws2) ++ [']']) cur
          = (cur ++ w) :: fieldsFrom (joinChars [' '] (w2 :: ws2) ++ [']']) [] := by
        rw [List.append_assoc, List.append_assoc, fieldsFrom_word w hw.2]
        rw [List.singleton_append, fieldsFrom]
        simp only [hsp, if_true, hcur, if_false]
      rw [hstep]
      have hih := ih [] hrest
      have hne2 : fieldsFrom (joinChars [' '] (w2 :: ws2) ++ [']']) [] ≠ [] := by
        intro h
        rw [h] at hih
        simp [joinChars] at hih
      rw [joinChars_cons_of_ne_nil sep _ _ hne2, hih]
      simp

/-- Trimming brackets off a text in brackets that holds no bracket gives the
text. -/
theorem dropWhile_brackets (l : List Char) (hl : ∀ c ∈ l, c ≠ '[' ∧ c ≠ ']') :
    ((('[' :: l ++ [']']).dropWhile (fun c => decide (c ∈ "[]".data))).reverse.dropWhile
      (fun c => decide (c ∈ "[]".data))).reverse = l := by
  have hp : ∀ c ∈ l, decide (c ∈ "[]".data) = false := by
    intro c hc
    have := hl c hc
    simp [this.1, this.2]
  have hall : ∀ m : List Char, (∀ c ∈ m, decide (c ∈ "[]".data) = false) →
      m.dropWhile (fun c => decide (c ∈ "[]".data)) = m := by
    intro m hm
    cases m with
    | nil => rfl
    | cons a m =>
      rw [List.dropWhile_cons, hm a (by simp)]
      simp only [Bool.false_eq_true, if_false]
  have h1 : ('[' :: l ++ [']']).dropWhile (fun c => decide (c ∈ "[]".data))
      = (l ++ [']']).dropWhile (fun c => decide (c ∈ "[]".data)) := by
    rw [List.cons_append, List.dropWhile_cons]
    rfl
  rw [h1]
  cases l with
  | nil => rfl
  | cons a l =>
    have h2 : (a :: l ++ [']']).dropWhile (fun c => decide (c ∈ "[]".data)) = a :: l ++ [']'] := by
      rw [List.cons_append, List.dropWhile_cons, hp a (by simp)]
      simp only [Bool.false_eq_true, if_false]
    rw [h2, List.reverse_append, List.reverse_singleton, List.singleton_append,
      List.dropWhile_cons]
    have h3 : decide (']' ∈ "[]".data) = true := by decide
    simp only [h3, if_true]
    rw [hall _ (fun c hc => hp c (List.mem_reverse.mp hc)), List.reverse_reverse]

/-- Trimming brackets off a text between double quotes changes nothing. -/
theorem dropWhile_quoted (m : List Char) :
    ((('"' :: m ++ ['"']).dropWhile (fun c => decide (c ∈ "[]".data))).reverse.dropWhile
      (fun c => decide (c ∈ "[]".data))).reverse = '"' :: m ++ ['"'] := by
  have hq : decide ('"' ∈ "[]".data) = false := by decide
  have h1 : ('"' :: m ++ ['"']).dropWhile (fun c => decide (c ∈ "[]".data))
      = '"' :: m ++ ['"'] := by
    rw [List.cons_append, List.dropWhile_cons]
    simp only [hq, Bool.false_eq_true, if_false]
  rw [h1]
  have h2 : ('"' :: m ++ ['"']).reverse = '"' :: ('"' :: m).reverse := by
    simp
  rw [h2, List.dropWhile_cons]
  simp only [hq, Bool.false_eq_true, if_false]
  rw [← h2, List.reverse_reverse]

/-- The join of texts between double quotes is empty or between double
quotes. -/
theorem joinChars_quoted (sep : List Char) (strs : List (List Char)) (hne : strs ≠ []) :
    ∃ m, joinChars sep (strs.map (fun s => '"' :: s ++ ['"'])) = '"' :: m ++ ['"'] := by
  induction strs with
  | nil => exact absurd rfl hne
  | cons s strs ih =>
    cases strs with
    | nil => exact ⟨s, rfl⟩
    | cons s2 strs2 =>
      obtain ⟨m, hm⟩ := ih (by simp)
      refine ⟨s ++ ['"'] ++ sep ++ '"' :: m, ?_⟩
      rw [List.map_cons, joinChars_cons_of_ne_nil _ _ _ (by simp), hm]
      simp

/-- The text of integer ids: the decimal renderings joined by `, `. -/
theorem IDs2Expr_IntId (fieldName : String) (data : List Int) :
    IDs2Expr fieldName (.IntId data)
      = fieldName ++ " in [ " ++ Join (data.map (fun id => toString id)) ", " ++ " ]" := by
  have hws : ∀ w ∈ data.map (fun id => (toString id).data),
      w ≠ [] ∧ ∀ c ∈ w, isSpace c = false := by
    intro w hw
    obtain ⟨i, _, rfl⟩ := List.mem_map.mp hw
    exact ⟨(toString_int_plain i).1,
      fun c hc => ((plainChar_iff c).mp ((toString_int_plain i).2 c hc)).1⟩
  have hfields : (Join (Fields (Sprint data)) ", ").data
      = '[' :: joinChars [',', ' '] (data.map (fun id => (toString id).data)) ++ [']'] := by
    have hmap : ∀ l : List (List Char), (l.map String.mk).map String.data = l := by
      intro l
      simp [List.map_map, Function.comp_def]
    have hopen : isSpace '[' = false := by decide
    show joinChars [',', ' '] (((fieldsFrom ('[' :: joinChars [' ']
      (data.map (fun id => (toString id).data)) ++ [']']) []).map String.mk).map String.data) = _
    rw [hmap, List.cons_append, fieldsFrom]
    simp only [hopen, Bool.false_eq_true, if_false, List.nil_append]
    rw [fieldsFrom_joinChars [',', ' '] _ ['['] hws]
    rfl
  have hplain : ∀ c ∈ joinChars [',', ' '] (data.map (fun id => (toString id).data)),
      c ≠ '[' ∧ c ≠ ']' := by
    have hgen : ∀ ws : List (List Char), (∀ w ∈ ws, ∀ c ∈ w, c ≠ '[' ∧ c ≠ ']') →
        ∀ c ∈ joinChars [',', ' '] ws, c ≠ '[' ∧ c ≠ ']' := by
      intro ws
      induction ws with
      | nil => intro _ c hc; simp [joinChars] at hc
      | cons w ws ih =>
        intro h c hc
        cases ws with
        | nil => exact h w (by simp) c hc
        | cons w2 ws2 =>
          rw [joinChars_cons_of_ne_nil _ _ _ (by simp)] at hc
          rcases List.mem_append.mp hc with hc | hc
          · rcases List.mem_append.mp hc with hc | hc
            · exact h w (by simp) c hc
            · simp only [List.mem_cons, List.mem_singleton, List.not_mem_nil, or_false] at hc
              rcases hc with rfl | rfl
              · exact ⟨by decide, by decide⟩
              · exact ⟨by decide, by decide⟩
          · exact ih (fun w3 h3 => h w3 (by simp [h3])) c hc
    apply hgen
    intro w hw c hc
    obtain ⟨i, _, rfl⟩ := List.mem_map.mp hw
    exact ((plainChar_iff c).mp ((toString_int_plain i).2 c hc)).2
  have htrim : Trim (Join (Fields (Sprint data)) ", ") "[]"
      = Join (data.map (fun id => toString id)) ", " := by
    unfold Trim
    rw [hfields, dropWhile_brackets _ hplain]
    simp [Join, List.map_map, Function.comp_def]
  simp only [IDs2Expr, htrim]

/-- The text of string ids: the ids in double quotes joined by `, `. -/
theorem IDs2Expr_StrId (fieldName : String) (data : List String) :
    IDs2Expr fieldName (.StrId data)
      = fieldName ++ " in [ " ++ Join (data.map (fun str => "\"" ++ str ++ "\"")) ", "
        ++ " ]" := by
  have htrim : Trim (Join (data.map (fun str => "\"" ++ str ++ "\"")) ", ") "[]"
      = Join (data.map (fun str => "\"" ++ str ++ "\"")) ", " := by
    cases data with
    | nil => rfl
    | cons str strs =>
      have hdata : ((str :: strs).map (fun str => "\"" ++ str ++ "\"")).map String.data
          = ((str :: strs).map String.data).map (fun s => '"' :: s ++ ['"']) := by
        simp only [List.map_map]
        apply List.map_congr_left
        intro s _
        simp [Function.comp_def, String.data_append]
      obtain ⟨m, hm⟩ := joinChars_quoted ", ".data ((str :: strs).map String.data) (by simp)
      have hjoin : (Join ((str :: strs).map (fun str => "\"" ++ str ++ "\"")) ", ").data
          = '"' :: m ++ ['"'] := by
        show joinChars ", ".data _ = _
        rw [hdata, hm]
      unfold Trim
      rw [hjoin, dropWhile_quoted, ← hjoin]
  simp only [IDs2Expr, htrim]

/-- C33. For every field name `f` and every integer id list, the result of
`IDs2Expr` is `f ++ " in [ "`, the decimal renderings of the ids (negative
ones with a leading `-`) joined by `, `, and `" ]"`; for every string id list
it is `f ++ " in [ "`, the ids each in double quotes joined by `, `, and
`" ]"`; for an empty list or absent ids it is `f ++ " in [  ]"`. -/
theorem IDs2Expr_text (fieldName : String) :
    (∀ data : List Int, IDs2Expr fieldName (.IntId data)
      = fieldName ++ " in [ " ++ Join (data.map (fun id => toString id)) ", " ++ " ]")
    ∧ (∀ data : List String, IDs2Expr fieldName (.StrId data)
      = fieldName ++ " in [ " ++ Join (data.map (fun str => "\"" ++ str ++ "\"")) ", "
        ++ " ]")
    ∧ IDs2Expr fieldName (.IntId []) = fieldName ++ " in [  ]"
    ∧ IDs2Expr fieldName (.StrId []) = fieldName ++ " in [  ]"
    ∧ IDs2Expr fieldName .unset = fieldName ++ " in [  ]"
    ∧ IDs2Expr "pk" (.IntId [1, -2, 30]) = "pk in [ 1, -2, 30 ]"
    ∧ IDs2Expr "pk" (.StrId ["a", "b]"]) = "pk in [ \"a\", \"b]\" ]" := by
  have hempty : fieldName ++ " in [ " ++ "" ++ " ]" = fieldName ++ " in [  ]" := by
    apply String.ext
    simp [String.data_append]
  refine ⟨IDs2Expr_IntId fieldName, IDs2Expr_StrId fieldName, ?_, ?_, ?_, by decide, by decide⟩
  · rw [IDs2Expr_IntId]
    exact hempty
  · rw [IDs2Expr_StrId]
    exact hempty
  · exact hempty

end Milvus
